import Mathlib

/-!
# chatllm generation core: a shallow embedding of `src/models.cpp`

The embedding covers `BaseModelForConditionalGeneration` (`generate`,
`generate_next_token`, `run_model`, `is_output_terminated`,
`match_output_sequence`, `shift_memory`), `SamplerFactory::Create`,
`GreedySampler`, `TopPSampler` and `FreeTailSampler`, the model types with
`get_model_purpose`, `to_string` and `to_native_string`, `load_config` and
`ModelFactory::load`, and the chat history encoders of
`src/models/openchat.cpp`, `src/models/xverse.cpp` and
`src/models/numinamath.cpp`.

Conventions.
* C++ `int` values are modelled as `Int`, container sizes as `Nat`; the
  development assumes sizes and sums stay below `2^31` (no wrap-around).
* `float` values are modelled as elements of an ordered ring `F` (exact
  arithmetic).
* The transformer, the non-greedy samplers and the streamer are external
  collaborators: the transformer and the non-greedy samplers are abstract
  state machines, and every call that crosses the boundary is appended to a
  chronological trace of `Event`s kept in the engine state.
* An exception (a failed `CHATLLM_CHECK`, or `std::length_error` from
  `vector::reserve`) and undefined behaviour (dereferencing a null logits
  pointer) are explicit outcomes; running out of memory is not modelled.
-/

namespace chatllm

/-- One call across the boundary of the generation engine, in the order made. -/
inductive Event (F : Type) where
  | set_ctx (n_ctx : Int)
  | forward (input_ids : List Int) (n_past : Int)
  | shift_cache (shift : Int) (total : Int)
  | sampling (logits : List F) (next_token_id : Int)
  | put (token_ids : List Int)
  deriving DecidableEq

/-- The tokens returned by the sampler, in call order. -/
def Event.sampled {F : Type} : List (Event F) → List Int
  | [] => []
  | Event.sampling _ t :: es => t :: Event.sampled es
  | _ :: es => Event.sampled es

/-- The arguments of `streamer->put`, in call order. -/
def Event.streamed {F : Type} : List (Event F) → List (List Int)
  | [] => []
  | Event.put ts :: es => ts :: Event.streamed es
  | _ :: es => Event.streamed es

/-- The arguments `(input_ids, n_past)` of `transformer.forward`, in call order. -/
def Event.forwards {F : Type} : List (Event F) → List (List Int × Int)
  | [] => []
  | Event.forward ids p :: es => (ids, p) :: Event.forwards es
  | _ :: es => Event.forwards es

/-- The arguments `(shift, total)` of `transformer.shift_cache`, in call order. -/
def Event.shifts {F : Type} : List (Event F) → List (Int × Int)
  | [] => []
  | Event.shift_cache s t :: es => (s, t) :: Event.shifts es
  | _ :: es => Event.shifts es

/-- How a call ends: it returns a value and leaves a state, it throws
(`CHATLLM_CHECK` / `CHATLLM_THROW`) leaving the state it had at the throw, or
its behaviour is undefined (a null logits pointer is dereferenced). -/
inductive Outcome (α σ : Type) where
  | returned (value : α) (state : σ)
  | raised (msg : String) (state : σ)
  | undefined
  deriving DecidableEq

/-- Modelled from the spec: `GenerationConfig` is declared in `models.h`, which
is not part of the sources at hand; the fields are the recognised options the
spec lists (section 3) and `SamplerFactory::Create` / `generate` read. -/
structure GenerationConfig (F : Type) where
  max_length : Int
  do_sample : Bool
  sampling : String
  temperature : F
  presence_penalty : F
  top_k : Int
  top_p : F
  tfs_z : F
  num_threads : Int

/-- The capability contract of the template parameter `LM` (the transformer),
over an abstract transformer state `τ`; a logits tensor is the list of its
`ne[0]` values. -/
structure Transformer (τ F : Type) where
  forward : τ → List Int → Int → List F × τ
  shift_cache : τ → Int → Int → τ
  set_ctx : τ → Int → τ

/-- The classes derived from `NonGreedySampler` (`TopPSampler`,
`FreeTailSampler`) over an abstract object state `ν`: the two constructors
(temperature, presence_penalty, top_k, top_p or z), `seed` and `sampling`. -/
structure NonGreedySampler (ν F : Type) where
  TopPSampler : F → F → Int → F → ν
  FreeTailSampler : F → F → Int → F → ν
  seed : ν → Int → ν
  sampling : ν → List F → Int × ν

/-- A sampler object: a `GreedySampler` (no state is ever read from it) or an
object of a class derived from `NonGreedySampler`. -/
inductive Sampler (ν : Type) where
  | Greedy
  | NonGreedy (obj : ν)
  deriving DecidableEq

/-- The sentinel `Sampler::ABORT`. -/
def Sampler.ABORT : Int := -1

section scalar

variable {F : Type} [LinearOrderedRing F]

/-- The scan of `std::max_element`: `largest` is the index of the largest value
`v` seen so far, replaced only by a strictly larger one. -/
def max_element_scan : List F → Nat → Nat → F → Nat
  | [], _, largest, _ => largest
  | x :: xs, i, largest, v =>
    if v < x then max_element_scan xs (i + 1) i x else max_element_scan xs (i + 1) largest v

/-- The offset `std::max_element(first, last) - first`; `0` on an empty range. -/
def max_element : List F → Nat
  | [] => 0
  | x :: xs => max_element_scan xs 1 0 x

/-- `GreedySampler::sampling`. -/
def GreedySampler.sampling (logits : List F) : Int :=
  (max_element logits : Nat)

/-- The virtual call `sampler->sampling(logits, vocab_size)`. -/
def Sampler.sampling {ν : Type} (N : NonGreedySampler ν F) :
    Sampler ν → List F → Int × Sampler ν
  | Sampler.Greedy, logits => (GreedySampler.sampling logits, Sampler.Greedy)
  | Sampler.NonGreedy obj, logits =>
    ((N.sampling obj logits).1, Sampler.NonGreedy (N.sampling obj logits).2)

/-- `SamplerFactory::Create`: `Except.error` is the failed
`CHATLLM_CHECK(false)` on an unknown sampling algorithm. -/
def SamplerFactory.Create {ν : Type} (N : NonGreedySampler ν F)
    (gen_config : GenerationConfig F) (seed : Int) : Except String (Sampler ν) :=
  if gen_config.do_sample then
    if gen_config.sampling = "top_p" then
      Except.ok (Sampler.NonGreedy (N.seed (N.TopPSampler gen_config.temperature
        gen_config.presence_penalty gen_config.top_k gen_config.top_p) seed))
    else if gen_config.sampling = "tfs" then
      Except.ok (Sampler.NonGreedy (N.seed (N.FreeTailSampler gen_config.temperature
        gen_config.presence_penalty gen_config.top_k gen_config.tfs_z) seed))
    else if gen_config.sampling ≠ "greedy" then
      Except.error ("unknown sampling algorithm: " ++ gen_config.sampling)
    else Except.ok Sampler.Greedy
  else Except.ok Sampler.Greedy

end scalar

/-- The state of a `BaseModelForConditionalGeneration<LM>` object. The fields
`n_past`, `n_past_offset`, `aborted`, `_seed`, `terminate_token_id` and the
tokenizer (here its `eos_token_id`) are inherited from `BaseModel`;
`max_length` is `config_.max_length`; `trace` records the calls made so far. -/
structure BaseModelForConditionalGeneration (τ F : Type) where
  n_past : Int
  n_past_offset : Int
  aborted : Bool
  _seed : Int
  terminate_token_id : Int
  eos_token_id : Int
  transformer : τ
  batch_input : Bool
  logit_scale : F
  max_length : Int
  trace : List (Event F)
  deriving DecidableEq

/-- The dynamically bound parts of a model family: the transformer `LM`, the
sampler classes, and the virtual method `is_output_terminated`, which maps
`(output_ids, keep_idx, pop_output)` to the returned flag and the new
`keep_idx` and `pop_output`. -/
structure Family (τ ν F : Type) where
  transformer : Transformer τ F
  samplers : NonGreedySampler ν F
  is_output_terminated :
    BaseModelForConditionalGeneration τ F → List Int → Int → Int → Bool × Int × Int

/-- The local variables of `generate` that live across loop iterations,
together with the engine state. -/
structure GenerateState (τ ν F : Type) where
  model : BaseModelForConditionalGeneration τ F
  sampler : Sampler ν
  curr_input_ids : List Int
  output_ids : List Int
  completed : Bool
  next_output_idx : Int
  deriving DecidableEq

namespace BaseModelForConditionalGeneration

variable {τ ν F : Type} [LinearOrderedRing F]

/-- `get_max_length`. -/
def get_max_length (m : BaseModelForConditionalGeneration τ F) : Int := m.max_length

/-- Modelled from the spec: `BaseModel::shift_memory` lives in `models.h`, which
is not part of the sources at hand; the spec (4.3) says it sets
`n_past = keep`. -/
def BaseModel_shift_memory (m : BaseModelForConditionalGeneration τ F) (keep : Int) :
    BaseModelForConditionalGeneration τ F :=
  { m with n_past := keep }

/-- `shift_memory(keep)`. -/
def shift_memory (T : Transformer τ F) (m : BaseModelForConditionalGeneration τ F)
    (keep : Int) : BaseModelForConditionalGeneration τ F :=
  if keep ≥ m.n_past then m
  else
    BaseModel_shift_memory
      { m with
        transformer := T.shift_cache m.transformer (m.n_past - keep) m.n_past
        trace := m.trace ++ [Event.shift_cache (m.n_past - keep) m.n_past] }
      keep

/-- `run_model`: one `transformer.forward`, scaled by `logit_scale` when that
is positive (graph construction and thread choice are outside the embedding). -/
def run_model (T : Transformer τ F) (m : BaseModelForConditionalGeneration τ F)
    (input_ids : List Int) (past : Int) :
    List F × BaseModelForConditionalGeneration τ F :=
  let r := (T.forward m.transformer input_ids past).1
  (if m.logit_scale > 0 then r.map (fun x => x * m.logit_scale) else r,
   { m with
     transformer := (T.forward m.transformer input_ids past).2
     trace := m.trace ++ [Event.forward input_ids past] })

/-- The `for` loop of `generate_next_token` when `batch_input` is false:
`lm_logits` is the pointer so far (`none` is `nullptr`). -/
def generate_next_token_each (T : Transformer τ F) :
    List Int → Int → Option (List F) → BaseModelForConditionalGeneration τ F →
      Option (List F) × BaseModelForConditionalGeneration τ F
  | [], _, lm_logits, m => (lm_logits, m)
  | id :: ids, past, _, m =>
    generate_next_token_each T ids (past + 1) (some (run_model T m [id] past).1)
      (run_model T m [id] past).2

/-- `generate_next_token`; the result is `none` for a null `lm_logits`. -/
def generate_next_token (T : Transformer τ F) (m : BaseModelForConditionalGeneration τ F)
    (input_ids : List Int) : Option (List F) × BaseModelForConditionalGeneration τ F :=
  if m.batch_input then
    (some (run_model T m input_ids (m.n_past + m.n_past_offset)).1,
     (run_model T m input_ids (m.n_past + m.n_past_offset)).2)
  else
    generate_next_token_each T input_ids (m.n_past + m.n_past_offset) none m

/-- The default `is_output_terminated`. -/
def is_output_terminated (m : BaseModelForConditionalGeneration τ F)
    (output_ids : List Int) (keep_idx : Int) (pop_output : Int) : Bool × Int × Int :=
  if output_ids.length < 1 then (false, keep_idx, pop_output)
  else
    let last_tok_id := output_ids.getD (output_ids.length - 1) 0
    if last_tok_id = m.terminate_token_id then (true, keep_idx, 1)
    else if last_tok_id = m.eos_token_id then (true, keep_idx, 1)
    else (false, (output_ids.length : Int), pop_output)

/-- `while (pop_output-- > 0) output_ids.pop_back();` (`pop_back` on an empty
vector, undefined in C++, is modelled as a no-op). -/
def pop_outputs : Nat → List Int → List Int
  | 0, output_ids => output_ids
  | n + 1, output_ids => pop_outputs n output_ids.dropLast

/-- `for (; next_output_idx < keep_idx; next_output_idx++)
streamer->put({output_ids[next_output_idx]});` with the trace; the first
argument bounds the number of iterations. -/
def stream_outputs (output_ids : List Int) (keep_idx : Int) :
    Nat → Int → List (Event F) → Int × List (Event F)
  | 0, next_output_idx, trace => (next_output_idx, trace)
  | fuel + 1, next_output_idx, trace =>
    if next_output_idx < keep_idx then
      stream_outputs output_ids keep_idx fuel (next_output_idx + 1)
        (trace ++ [Event.put [output_ids.getD next_output_idx.toNat 0]])
    else (next_output_idx, trace)

/-- The condition of the main loop of `generate`. -/
def generate_cond (gen_config : GenerationConfig F) (s : GenerateState τ ν F) : Bool :=
  !s.model.aborted && !s.completed &&
    decide (s.model.n_past + (s.curr_input_ids.length : Int) < gen_config.max_length)

/-- The part of the loop body after the `ABORT` test: cache accounting,
termination test, streaming. -/
def generate_accept (fam : Family τ ν F) (streamer : Bool)
    (s : GenerateState τ ν F) (m : BaseModelForConditionalGeneration τ F)
    (sampler : Sampler ν) (next_token_id : Int) : GenerateState τ ν F :=
  let m1 := { m with n_past := m.n_past + (s.curr_input_ids.length : Int) }
  let pushed := s.output_ids ++ [next_token_id]
  let r := fam.is_output_terminated m1 pushed 0 0
  let output_ids := if r.1 then pop_outputs r.2.2.toNat pushed else pushed
  let keep_idx : Int := if r.1 then (output_ids.length : Int) else r.2.1
  let completed := if r.1 then true else s.completed
  if streamer then
    let keep := if keep_idx > (output_ids.length : Int) then (output_ids.length : Int) else keep_idx
    let st := stream_outputs output_ids keep (keep - s.next_output_idx).toNat
      s.next_output_idx m1.trace
    { model := { m1 with trace := st.2 }
      sampler := sampler
      curr_input_ids := [next_token_id]
      output_ids := output_ids
      completed := completed
      next_output_idx := st.1 }
  else
    { model := m1
      sampler := sampler
      curr_input_ids := [next_token_id]
      output_ids := output_ids
      completed := completed
      next_output_idx := s.next_output_idx }

/-- One iteration of the main loop of `generate`; `none` when the null
`lm_logits` of an empty incremental forward is dereferenced. The `break` after
`aborted = true` is the exit the loop condition takes on the same state. -/
def generate_body (fam : Family τ ν F) (streamer : Bool)
    (s : GenerateState τ ν F) : Option (GenerateState τ ν F) :=
  match (generate_next_token fam.transformer s.model s.curr_input_ids).1 with
  | none => none
  | some lm_logits =>
    let m := (generate_next_token fam.transformer s.model s.curr_input_ids).2
    let next_token_id := (Sampler.sampling fam.samplers s.sampler lm_logits).1
    let sampler := (Sampler.sampling fam.samplers s.sampler lm_logits).2
    let m1 := { m with trace := m.trace ++ [Event.sampling lm_logits next_token_id] }
    if next_token_id = Sampler.ABORT then
      some { s with model := { m1 with aborted := true }, sampler := sampler }
    else
      some (generate_accept fam streamer s m1 sampler next_token_id)

/-- The main loop of `generate`, bounded by a number of iterations. -/
def generate_loop (fam : Family τ ν F) (gen_config : GenerationConfig F) (streamer : Bool) :
    Nat → GenerateState τ ν F → Option (GenerateState τ ν F)
  | 0, s => some s
  | fuel + 1, s =>
    if generate_cond gen_config s then
      match generate_body fam streamer s with
      | none => none
      | some s1 => generate_loop fam gen_config streamer fuel s1
    else some s

/-- The state in which the loop condition is evaluated after exactly `k`
iterations of the main loop, when the loop runs that many. -/
def generate_after (fam : Family τ ν F) (gen_config : GenerationConfig F) (streamer : Bool) :
    Nat → GenerateState τ ν F → Option (GenerateState τ ν F)
  | 0, s => some s
  | k + 1, s =>
    if generate_cond gen_config s then
      match generate_body fam streamer s with
      | none => none
      | some s1 => generate_after fam gen_config streamer k s1
    else none

/-- The statements of `generate` before the main loop, once nothing has
thrown: the state at loop entry. -/
def generate_entry (fam : Family τ ν F) (m : BaseModelForConditionalGeneration τ F)
    (sampler : Sampler ν) (input_ids : List Int) (continuous : Bool) :
    GenerateState τ ν F :=
  { model :=
      { m with
        aborted := false
        n_past := if continuous then m.n_past else 0
        transformer := fam.transformer.set_ctx m.transformer (input_ids.length : Int)
        trace := m.trace ++ [Event.set_ctx (input_ids.length : Int)] }
    sampler := sampler
    curr_input_ids := input_ids
    output_ids := input_ids
    completed := false
    next_output_idx := (input_ids.length : Int) }

/-- The number of iterations the main loop can run from a state: each
iteration that does not abort raises `n_past + curr_input_ids.size()` by one. -/
def generate_fuel (gen_config : GenerationConfig F) (s : GenerateState τ ν F) : Nat :=
  (gen_config.max_length - (s.model.n_past + (s.curr_input_ids.length : Int))).toNat

/-- `generate(input_ids, gen_config, continuous, completed, streamer)`:
`streamer` tells whether the pointer is non-null; the returned value is
`(output_ids, completed)`. Three statements can throw before the loop: the
`CHATLLM_CHECK` on `max_length`, `SamplerFactory::Create`, and
`output_ids.reserve(gen_config.max_length)`, which throws `std::length_error`
when the `int` is negative (as a `size_t` it exceeds `max_size()`); the last one
comes after `aborted = false`. -/
def generate (fam : Family τ ν F) (m : BaseModelForConditionalGeneration τ F)
    (input_ids : List Int) (gen_config : GenerationConfig F) (continuous : Bool)
    (streamer : Bool) :
    Outcome (List Int × Bool) (BaseModelForConditionalGeneration τ F) :=
  if gen_config.max_length ≤ m.max_length then
    match SamplerFactory.Create fam.samplers gen_config m._seed with
    | Except.error msg => Outcome.raised msg m
    | Except.ok sampler =>
      if gen_config.max_length < 0 then
        Outcome.raised "vector::reserve" { m with aborted := false }
      else
        let s0 := generate_entry fam m sampler input_ids continuous
        match generate_loop fam gen_config streamer (generate_fuel gen_config s0) s0 with
        | none => Outcome.undefined
        | some s =>
          Outcome.returned
            (s.output_ids, if s.model.aborted && !s.completed then true else s.completed)
            s.model
  else
    Outcome.raised
      ("requested max_length (" ++ toString gen_config.max_length ++
        ") is larger than model's max_length (" ++ toString m.max_length ++ ")") m

end BaseModelForConditionalGeneration

/-! ## Sequences of calls -/

/-- A call a client makes on the engine. -/
inductive Call (F : Type) where
  | generate (input_ids : List Int) (gen_config : GenerationConfig F)
      (continuous : Bool) (streamer : Bool)
  | shift_memory (keep : Int)

/-- The engine after a sequence of calls, each starting where the previous one
left the engine (a call that throws leaves it as it was at the throw); `none`
when the behaviour of a call is undefined. -/
def run_calls {τ ν F : Type} [LinearOrderedRing F] (fam : Family τ ν F) :
    List (Call F) → BaseModelForConditionalGeneration τ F →
      Option (BaseModelForConditionalGeneration τ F)
  | [], m => some m
  | Call.generate input_ids gen_config continuous streamer :: rest, m =>
    match BaseModelForConditionalGeneration.generate fam m input_ids gen_config continuous
        streamer with
    | Outcome.returned _ m1 => run_calls fam rest m1
    | Outcome.raised _ m1 => run_calls fam rest m1
    | Outcome.undefined => none
  | Call.shift_memory keep :: rest, m =>
    run_calls fam rest (BaseModelForConditionalGeneration.shift_memory fam.transformer m keep)

/-! ## Invariants of the main loop of `generate` -/

section invariants

variable {τ ν F : Type} [LinearOrderedRing F]

/-- The value of `n_past` at loop entry: `0`, or the retained `n_past` of a
continuous call. -/
def generate_start (m : BaseModelForConditionalGeneration τ F) (continuous : Bool) : Int :=
  if continuous then m.n_past else 0

/-- Cache accounting after `k` loop iterations of which `c` sampled a token
(did not abort); it holds for every family. -/
structure Accounting (m : BaseModelForConditionalGeneration τ F) (input_ids : List Int)
    (gen_config : GenerationConfig F) (continuous : Bool) (k c : Nat)
    (s : GenerateState τ ν F) : Prop where
  max_length : s.model.max_length = m.max_length
  terminate_token_id : s.model.terminate_token_id = m.terminate_token_id
  eos_token_id : s.model.eos_token_id = m.eos_token_id
  batch_input : s.model.batch_input = m.batch_input
  n_past_offset : s.model.n_past_offset = m.n_past_offset
  seed : s.model._seed = m._seed
  logit_scale : s.model.logit_scale = m.logit_scale
  running : s.model.aborted = false → c = k
  stopped : s.model.aborted = true → c + 1 = k
  iterations : (k : Int) ≤
    max 0 (gen_config.max_length - (generate_start m continuous + (input_ids.length : Int)))
  n_past : s.model.n_past =
    if c = 0 then generate_start m continuous
    else generate_start m continuous + (input_ids.length : Int) + (c : Int) - 1
  curr_input_ids : if c = 0 then s.curr_input_ids = input_ids else s.curr_input_ids.length = 1
  output_len : s.output_ids.length ≤ input_ids.length + c

/-- What the loop has emitted under the default `is_output_terminated`: the
sampler returned the tokens `E`, none of them `ABORT` or a terminator, and then
possibly one last token `tail` that stopped the loop. -/
structure Emission (m : BaseModelForConditionalGeneration τ F) (input_ids : List Int)
    (streamer : Bool) (E : List Int) (tail : Option Int) (s : GenerateState τ ν F) : Prop where
  emitted : ∀ t ∈ E, t ≠ Sampler.ABORT ∧ t ≠ m.terminate_token_id ∧ t ≠ m.eos_token_id
  stop : ∀ t, tail = some t →
    t = Sampler.ABORT ∨ t = m.terminate_token_id ∨ t = m.eos_token_id
  trace : ∃ new, s.model.trace = m.trace ++ Event.set_ctx (input_ids.length : Int) :: new ∧
    Event.sampled new = E ++ tail.toList ∧
    Event.streamed new = (if streamer then E.map (fun t => [t]) else []) ∧
    Event.shifts new = []
  output_ids : s.output_ids = input_ids ++ E
  aborted : s.model.aborted = true ↔ tail = some Sampler.ABORT
  completed : s.completed = true ↔ ∃ t, tail = some t ∧ t ≠ Sampler.ABORT
  next_output_idx : s.next_output_idx =
    if streamer then (input_ids.length : Int) + (E.length : Int) else (input_ids.length : Int)
  terminate_token_id : s.model.terminate_token_id = m.terminate_token_id
  eos_token_id : s.model.eos_token_id = m.eos_token_id

end invariants

/-! ## Small concrete families, used to evaluate the definitions -/

namespace toy

/-- A transformer without state whose forward pass yields the same logits at
every step. -/
def constant_logits (logits : List Int) : Transformer Unit Int where
  forward := fun t _ _ => (logits, t)
  shift_cache := fun t _ _ => t
  set_ctx := fun t _ => t

/-- A non-greedy sampler that replays a list of token ids, whatever the logits,
and returns `ABORT` once the list is used up. -/
def scripted (script : List Int) : NonGreedySampler (List Int) Int where
  TopPSampler := fun _ _ _ _ => script
  FreeTailSampler := fun _ _ _ _ => script
  seed := fun obj _ => obj
  sampling := fun obj _ => (obj.headD Sampler.ABORT, obj.tail)

/-- The family of the toy models: constant logits, scripted non-greedy
samplers, the default `is_output_terminated`. -/
def family (logits : List Int) (script : List Int) : Family Unit (List Int) Int where
  transformer := constant_logits logits
  samplers := scripted script
  is_output_terminated := BaseModelForConditionalGeneration.is_output_terminated

/-- A fresh engine: empty cache, empty trace, batched forward, no logit scale. -/
def model (max_length eos_token_id terminate_token_id : Int) :
    BaseModelForConditionalGeneration Unit Int where
  n_past := 0
  n_past_offset := 0
  aborted := false
  _seed := 0
  terminate_token_id := terminate_token_id
  eos_token_id := eos_token_id
  transformer := ()
  batch_input := true
  logit_scale := -1
  max_length := max_length
  trace := []

/-- A generation configuration with the given cap and sampler choice. -/
def config (max_length : Int) (do_sample : Bool) (sampling : String) : GenerationConfig Int where
  max_length := max_length
  do_sample := do_sample
  sampling := sampling
  temperature := 1
  presence_penalty := 1
  top_k := 0
  top_p := 1
  tfs_z := 1
  num_threads := 1

/-- The engine after `generate` on prompt `[1, 2]` with logits `[1, 5, 3, 2, 1]`
and a scripted sampler that yields `7`, `8` and then aborts. -/
def scripted_final : BaseModelForConditionalGeneration Unit Int :=
  { model 10 0 (-10) with
    n_past := 3
    aborted := true
    trace := [Event.set_ctx 2, Event.forward [1, 2] 0, Event.sampling [1, 5, 3, 2, 1] 7,
      Event.put [7], Event.forward [7] 2, Event.sampling [1, 5, 3, 2, 1] 8, Event.put [8],
      Event.forward [8] 3, Event.sampling [1, 5, 3, 2, 1] (-1)] }

/-- The engine after greedy `generate` on prompt `[1]` with logits
`[1, 5, 3, 2, 1]`, `eos_token_id = 0` and cap `4`, with a streamer. -/
def capped_final : BaseModelForConditionalGeneration Unit Int :=
  { model 10 0 (-10) with
    n_past := 3
    trace := [Event.set_ctx 1, Event.forward [1] 0, Event.sampling [1, 5, 3, 2, 1] 1,
      Event.put [1], Event.forward [1] 1, Event.sampling [1, 5, 3, 2, 1] 1, Event.put [1],
      Event.forward [1] 2, Event.sampling [1, 5, 3, 2, 1] 1, Event.put [1]] }

/-- The engine after greedy `generate` on prompt `[0]` with logits
`[1, 2, 3, 4, 5]` and `eos_token_id = 4`. -/
def eos_final : BaseModelForConditionalGeneration Unit Int :=
  { model 10 4 (-10) with
    n_past := 1
    trace := [Event.set_ctx 1, Event.forward [0] 0, Event.sampling [1, 2, 3, 4, 5] 4] }

/-- The loop state after two iterations of `generate` on prompt `[1, 2]` with
logits `[1, 5, 3, 2, 1]`, a streamer and the scripted sampler `7`, `8`: the next
sampling aborts. -/
def scripted_before_abort : GenerateState Unit (List Int) Int where
  model :=
    { model 10 0 (-10) with
      n_past := 3
      trace := [Event.set_ctx 2, Event.forward [1, 2] 0, Event.sampling [1, 5, 3, 2, 1] 7,
        Event.put [7], Event.forward [7] 2, Event.sampling [1, 5, 3, 2, 1] 8, Event.put [8]] }
  sampler := Sampler.NonGreedy []
  curr_input_ids := [8]
  output_ids := [1, 2, 7, 8]
  completed := false
  next_output_idx := 4

/-- The engine after the calls `generate([1, 2])`, `shift_memory(1)` and a
continuous `generate([3])`, greedy over logits `[1, 5, 3, 2, 1]` with cap `4`. -/
def shifted_final : BaseModelForConditionalGeneration Unit Int :=
  { model 10 0 (-10) with
    n_past := 3
    trace := [Event.set_ctx 2, Event.forward [1, 2] 0, Event.sampling [1, 5, 3, 2, 1] 1,
      Event.forward [1] 2, Event.sampling [1, 5, 3, 2, 1] 1, Event.shift_cache 2 3,
      Event.set_ctx 1, Event.forward [3] 1, Event.sampling [1, 5, 3, 2, 1] 1, Event.put [1],
      Event.forward [1] 2, Event.sampling [1, 5, 3, 2, 1] 1, Event.put [1]] }

end toy

/-! ## The classes derived from `NonGreedySampler`

The C++ standard library functions the samplers call are parameters
(`StdLib`): `std::exp`, `std::nth_element` and `std::sort` under
`std::greater<TokenIdScore>`, and the random engine with
`std::discrete_distribution`; the theorems state which of their
postconditions they use. A call whose behaviour is undefined (reading through
the end of an empty range, indexing past the candidate list) yields `none`. -/

/-- `NonGreedySampler::TokenIdScore`. -/
structure TokenIdScore (F : Type) where
  id : Int
  score : F
  deriving DecidableEq

/-- The standard library as the samplers use it, over an abstract engine state
`G`: `nth_element n l` is `std::nth_element(first, first + n, last, greater)`,
`sort l` is `std::sort(first, last, greater)`, `mt19937` the default-constructed
engine, `seed gen x` the engine after `gen.seed(x)`, and
`discrete_distribution gen weights` the index drawn and the engine after the
draw. -/
structure StdLib (F G : Type) where
  exp : F → F
  nth_element : Nat → List (TokenIdScore F) → List (TokenIdScore F)
  sort : List (TokenIdScore F) → List (TokenIdScore F)
  mt19937 : G
  seed : G → Int → G
  discrete_distribution : G → List F → Nat × G

/-- The data members of `NonGreedySampler` (with the engine `gen` of `Sampler`):
`g` is the set of emitted token ids. -/
structure NonGreedy (F G : Type) where
  temp_en : Bool
  presence_penalty_en : Bool
  inv_temp : F
  inv_presence_penalty : F
  presence_penalty : F
  top_k : Int
  token_scores : List (TokenIdScore F)
  g : Finset Int
  gen : G
  deriving DecidableEq

/-- An object of a class derived from `NonGreedySampler`: a `TopPSampler` with
its `top_p`, or a `FreeTailSampler` with its `z` and scratch vector `snd_d`. -/
inductive NonGreedyObject (F G : Type) where
  | TopP (base : NonGreedy F G) (top_p : F)
  | FreeTail (base : NonGreedy F G) (z : F) (snd_d : List F)
  deriving DecidableEq

/-- The `NonGreedySampler` part of an object. -/
def NonGreedyObject.base {F G : Type} : NonGreedyObject F G → NonGreedy F G
  | NonGreedyObject.TopP base _ => base
  | NonGreedyObject.FreeTail base _ _ => base

/-- The object with its `NonGreedySampler` part replaced. -/
def NonGreedyObject.with_base {F G : Type} :
    NonGreedyObject F G → NonGreedy F G → NonGreedyObject F G
  | NonGreedyObject.TopP _ top_p, base => NonGreedyObject.TopP base top_p
  | NonGreedyObject.FreeTail _ z snd_d, base => NonGreedyObject.FreeTail base z snd_d

section nongreedy

variable {F G : Type} [LinearOrderedField F]

/-- The constructor `NonGreedySampler(temperature, presence_penalty, top_k)`;
`1e-5f` is the rational `1 / 100000`. -/
def NonGreedy.create (lib : StdLib F G) (temperature presence_penalty : F) (top_k : Int) :
    NonGreedy F G where
  temp_en := decide (abs (temperature - 1) > 1 / 100000)
  presence_penalty_en := decide (abs (presence_penalty - 1) > 1 / 100000)
  inv_temp := if abs (temperature - 1) > 1 / 100000 then 1 / temperature else 0
  inv_presence_penalty :=
    if abs (presence_penalty - 1) > 1 / 100000 then 1 / presence_penalty else 0
  presence_penalty := presence_penalty
  top_k := top_k
  token_scores := []
  g := ∅
  gen := lib.mt19937

/-- `if (temp_en) for (i ...) logits[i] *= inv_temp;`. -/
def NonGreedy.scale_temperature (s : NonGreedy F G) (logits : List F) : List F :=
  if s.temp_en then logits.map (fun x => x * s.inv_temp) else logits

/-- The body of the presence-penalty loop from index `i` on:
`if (g.find(i) != g.end()) logits[i] *= logits[i] > 0 ? inv_presence_penalty :
presence_penalty;`. -/
def NonGreedy.penalize_from (s : NonGreedy F G) : Nat → List F → List F
  | _, [] => []
  | i, x :: xs =>
    (if (i : Int) ∈ s.g then x * (if x > 0 then s.inv_presence_penalty else s.presence_penalty)
      else x) :: NonGreedy.penalize_from s (i + 1) xs

/-- The presence-penalty step: `if (presence_penalty_en) for (i ...) ...`. -/
def NonGreedy.apply_presence_penalty (s : NonGreedy F G) (logits : List F) : List F :=
  if s.presence_penalty_en then NonGreedy.penalize_from s 0 logits else logits

/-- `token_scores[i] = {.id = i, .score = logits[i]}` from index `i` on. -/
def NonGreedy.token_scores_from : Nat → List F → List (TokenIdScore F)
  | _, [] => []
  | i, x :: xs => { id := (i : Int), score := x } :: NonGreedy.token_scores_from (i + 1) xs

/-- The top-k step: `if (0 < top_k && top_k < (int)token_scores.size())
{ std::nth_element(...); token_scores.resize(top_k); }`. -/
def NonGreedy.top_k_step (lib : StdLib F G) (top_k : Int)
    (token_scores : List (TokenIdScore F)) : List (TokenIdScore F) :=
  if 0 < top_k ∧ top_k < (token_scores.length : Int) then
    (lib.nth_element top_k.toNat token_scores).take top_k.toNat
  else token_scores

/-- The value `std::max_element(first, last)->score` on a non-empty range. -/
def NonGreedy.max_score (ts : List (TokenIdScore F)) : F :=
  (ts.map TokenIdScore.score).getD (max_element (ts.map TokenIdScore.score)) 0

/-- `sampling_softmax_inplace(first, last)`: the maximum is read through
`std::max_element(first, last)`, which is `last` on an empty range (`none`). -/
def NonGreedy.sampling_softmax_inplace (exp : F → F) (ts : List (TokenIdScore F)) :
    Option (List (TokenIdScore F)) :=
  if ts.length < 1 then none
  else
    let max_score := NonGreedy.max_score ts
    let es := ts.map (fun t => { t with score := exp (t.score - max_score) })
    let sum := es.foldl (fun acc t => acc + t.score) 0
    let inv_sum := 1 / sum
    some (es.map (fun t => { t with score := t.score * inv_sum }))

/-- The cumulative walk of `TopPSampler::do_sampling`: `cumsum +=
token_scores[i].score; if (cumsum >= top_p) { token_scores.resize(i + 1);
break; }`; without a `break` the list is left as it is. -/
def TopPSampler.truncate (top_p : F) : F → List (TokenIdScore F) → List (TokenIdScore F)
  | _, [] => []
  | cumsum, t :: ts =>
    if cumsum + t.score ≥ top_p then [t]
    else t :: TopPSampler.truncate top_p (cumsum + t.score) ts

/-- `TopPSampler::do_sampling` on `token_scores`. -/
def TopPSampler.do_sampling (exp : F → F)
    (sort : List (TokenIdScore F) → List (TokenIdScore F)) (top_p : F)
    (token_scores : List (TokenIdScore F)) : Option (List (TokenIdScore F)) :=
  if 0 < top_p ∧ top_p < 1 then
    match NonGreedy.sampling_softmax_inplace exp (sort token_scores) with
    | none => none
    | some probs =>
      NonGreedy.sampling_softmax_inplace exp (TopPSampler.truncate top_p 0 probs)
  else NonGreedy.sampling_softmax_inplace exp token_scores

/-- `snd_d[i] = s[i] + s[i + 2] - 2 * s[i + 1]` for `i < size - 2`. -/
def FreeTailSampler.second_differences : List (TokenIdScore F) → List F
  | a :: b :: c :: rest =>
    (a.score + c.score - 2 * b.score) :: FreeTailSampler.second_differences (b :: c :: rest)
  | _ => []

/-- The cumulative walk of `FreeTailSampler::do_sampling` over `snd_d`:
`cdf += snd_d[i]; if (cdf > z) { token_scores.resize(i + 1); break; }`. -/
def FreeTailSampler.truncate (z : F) :
    F → List F → List (TokenIdScore F) → List (TokenIdScore F)
  | _, [], ts => ts
  | _, _ :: _, [] => []
  | cdf, d :: ds, t :: ts =>
    if cdf + d > z then [t] else t :: FreeTailSampler.truncate z (cdf + d) ds ts

/-- `FreeTailSampler::do_sampling` on `token_scores`: the new `token_scores`
and `snd_d`; `1e-6f` is the rational `1 / 1000000`. -/
def FreeTailSampler.do_sampling (exp : F → F)
    (sort : List (TokenIdScore F) → List (TokenIdScore F)) (z : F) (snd_d : List F)
    (token_scores : List (TokenIdScore F)) : Option (List (TokenIdScore F) × List F) :=
  if token_scores.length < 3 then some (token_scores, snd_d)
  else
    match NonGreedy.sampling_softmax_inplace exp token_scores with
    | none => none
    | some probs =>
      let sorted := sort probs
      let d2 := (FreeTailSampler.second_differences sorted).map abs
      let sum := d2.foldl (fun acc d => acc + d) (1 / 1000000)
      let normed := d2.map (fun d => d / sum)
      some (FreeTailSampler.truncate z 0 normed sorted, normed)

/-- The virtual call `do_sampling`: the candidate list after it and the object
with its scratch members updated. -/
def NonGreedyObject.do_sampling (lib : StdLib F G) :
    NonGreedyObject F G → List (TokenIdScore F) →
      Option (List (TokenIdScore F) × NonGreedyObject F G)
  | NonGreedyObject.TopP base top_p, ts =>
    match TopPSampler.do_sampling lib.exp lib.sort top_p ts with
    | none => none
    | some r => some (r, NonGreedyObject.TopP base top_p)
  | NonGreedyObject.FreeTail base z snd_d, ts =>
    match FreeTailSampler.do_sampling lib.exp lib.sort z snd_d ts with
    | none => none
    | some r => some (r.1, NonGreedyObject.FreeTail base z r.2)

/-- The candidate list handed to `do_sampling`: temperature, presence penalty,
`token_scores`, top-k. -/
def NonGreedyObject.candidates (lib : StdLib F G) (obj : NonGreedyObject F G)
    (logits : List F) : List (TokenIdScore F) :=
  NonGreedy.top_k_step lib obj.base.top_k
    (NonGreedy.token_scores_from 0
      (NonGreedy.apply_presence_penalty obj.base
        (NonGreedy.scale_temperature obj.base logits)))

/-- `NonGreedySampler::sampling(logits, vocab_size)` with `vocab_size` the
length of `logits`: the returned token id (or `ABORT`) and the object after the
call; `none` when the behaviour is undefined (`do_sampling` reads an empty
range, or the index drawn is past the candidate list). -/
def NonGreedyObject.sampling (lib : StdLib F G) (obj : NonGreedyObject F G)
    (logits : List F) : Option (Int × NonGreedyObject F G) :=
  match NonGreedyObject.do_sampling lib obj (NonGreedyObject.candidates lib obj logits) with
  | none => none
  | some (ts, obj1) =>
    if ts.length < 1 then
      some (Sampler.ABORT, obj1.with_base { obj1.base with token_scores := ts })
    else
      let drawn := lib.discrete_distribution obj1.base.gen (ts.map TokenIdScore.score)
      match ts.get? drawn.1 with
      | none => none
      | some t =>
        some (t.id,
          obj1.with_base
            { obj1.base with token_scores := ts, g := insert t.id obj1.base.g, gen := drawn.2 })

/-- The classes `TopPSampler` and `FreeTailSampler` as the sampler family of
`generate`. A sampling call of undefined behaviour is given the result `ABORT`
with the object left as it was, since the family's `sampling` is total. -/
def NonGreedyObject.samplers (lib : StdLib F G) : NonGreedySampler (NonGreedyObject F G) F where
  TopPSampler := fun temperature presence_penalty top_k top_p =>
    NonGreedyObject.TopP (NonGreedy.create lib temperature presence_penalty top_k) top_p
  FreeTailSampler := fun temperature presence_penalty top_k z =>
    NonGreedyObject.FreeTail (NonGreedy.create lib temperature presence_penalty top_k) z []
  seed := fun obj x => obj.with_base { obj.base with gen := lib.seed obj.base.gen x }
  sampling := fun obj logits =>
    match NonGreedyObject.sampling lib obj logits with
    | none => (Sampler.ABORT, obj)
    | some r => r

end nongreedy

/-- `GreedySampler::sampling` with the logits buffer after the call:
`std::max_element` only reads the range. -/
def GreedySampler.run {F : Type} [LinearOrderedRing F] (logits : List F) : Int × List F :=
  (GreedySampler.sampling logits, logits)

/-- The engine with another value of `_seed`. -/
def BaseModelForConditionalGeneration.with_seed {τ F : Type}
    (m : BaseModelForConditionalGeneration τ F) (seed : Int) :
    BaseModelForConditionalGeneration τ F :=
  { m with _seed := seed }

/-- The loop state with another value of `_seed` in its engine. -/
def GenerateState.with_seed {τ ν F : Type} (s : GenerateState τ ν F) (seed : Int) :
    GenerateState τ ν F :=
  { s with model := s.model.with_seed seed }

/-- An outcome with a function applied to the engine state it carries. -/
def Outcome.map_state {α σ : Type} (f : σ → σ) : Outcome α σ → Outcome α σ
  | Outcome.returned v st => Outcome.returned v (f st)
  | Outcome.raised msg st => Outcome.raised msg (f st)
  | Outcome.undefined => Outcome.undefined

/-! ## A concrete standard library over the rationals, used to evaluate the samplers -/

namespace toy

/-- A positive, increasing rational function with value `1` at `0`, standing in
for `std::exp` where a sampler has to be run. -/
def exp (x : ℚ) : ℚ := if 0 ≤ x then 1 + x else 1 / (1 - x)

/-- Insertion into a list sorted by descending score. -/
def insert_desc (t : TokenIdScore ℚ) : List (TokenIdScore ℚ) → List (TokenIdScore ℚ)
  | [] => [t]
  | u :: us => if u.score < t.score then t :: u :: us else u :: insert_desc t us

/-- A stable sort by descending score: one admissible `std::sort` and
`std::nth_element` under `std::greater`. -/
def sort_desc : List (TokenIdScore ℚ) → List (TokenIdScore ℚ)
  | [] => []
  | t :: ts => insert_desc t (sort_desc ts)

/-- A standard library whose engine counts the draws made and whose
distribution always draws index `0`. -/
def lib : StdLib ℚ Nat where
  exp := exp
  nth_element := fun _ ts => sort_desc ts
  sort := sort_desc
  mt19937 := 0
  seed := fun _ _ => 0
  discrete_distribution := fun gen _ => (0, gen + 1)

/-- A `TopPSampler` with temperature `1`, presence penalty `3/2`, no top-k and
`top_p = 1` (nucleus truncation off). -/
def penalizing : NonGreedyObject ℚ Nat :=
  NonGreedyObject.TopP (NonGreedy.create lib 1 (3 / 2) 0) 1

/-- The object `penalizing` after one `sampling` over the logits `[3, 1]`, which
returns token `0`. -/
def penalizing_after : NonGreedyObject ℚ Nat :=
  NonGreedyObject.TopP
    { NonGreedy.create lib 1 (3 / 2) 0 with
      token_scores := [{ id := 0, score := 3 / 4 }, { id := 1, score := 1 / 4 }]
      g := {0}
      gen := 1 }
    1

/-- A stateless transformer over the rationals with the same logits at every
step. -/
def rational_logits (logits : List ℚ) : Transformer Unit ℚ where
  forward := fun t _ _ => (logits, t)
  shift_cache := fun t _ _ => t
  set_ctx := fun t _ => t

/-- The family with the samplers `TopPSampler` / `FreeTailSampler` over `lib`
and the default `is_output_terminated`. -/
def sampling_family (logits : List ℚ) : Family Unit (NonGreedyObject ℚ Nat) ℚ where
  transformer := rational_logits logits
  samplers := NonGreedyObject.samplers lib
  is_output_terminated := BaseModelForConditionalGeneration.is_output_terminated

/-- A fresh engine over the rationals. -/
def rational_model (max_length eos_token_id terminate_token_id : Int) :
    BaseModelForConditionalGeneration Unit ℚ where
  n_past := 0
  n_past_offset := 0
  aborted := false
  _seed := 0
  terminate_token_id := terminate_token_id
  eos_token_id := eos_token_id
  transformer := ()
  batch_input := true
  logit_scale := -1
  max_length := max_length
  trace := []

/-- The loop state after one iteration of `generate` on prompt `[5]` with
logits `[3, 1]`, a streamer and the sampler `penalizing`: token `0` was sampled
and streamed. -/
def sampling_after_one : GenerateState Unit (NonGreedyObject ℚ Nat) ℚ where
  model :=
    { rational_model 10 7 (-10) with
      n_past := 1
      trace := [Event.set_ctx 1, Event.forward [5] 0, Event.sampling [3, 1] 0, Event.put [0]] }
  sampler := Sampler.NonGreedy penalizing_after
  curr_input_ids := [0]
  output_ids := [5, 0]
  completed := false
  next_output_idx := 2

/-- A generation configuration for the non-greedy samplers. -/
def sampling_config (max_length : Int) (sampling : String) (presence_penalty : ℚ)
    (top_k : Int) (top_p : ℚ) : GenerationConfig ℚ where
  max_length := max_length
  do_sample := true
  sampling := sampling
  temperature := 1
  presence_penalty := presence_penalty
  top_k := top_k
  top_p := top_p
  tfs_z := 1
  num_threads := 1

end toy

/-! ## Suffix matching of the output -/

/-- The `for` loop of `match_output_sequence` over the two ranges that start at
the iterators `x0` and `x1`: `if (*x0 != *x1) return false;`, and `true` when
the pattern is exhausted (the first range is as long as the pattern). -/
def BaseModelForConditionalGeneration.match_output_sequence_from : List Int → List Int → Bool
  | x :: x0, y :: x1 =>
    if x ≠ y then false
    else BaseModelForConditionalGeneration.match_output_sequence_from x0 x1
  | _, _ => true

/-- `match_output_sequence(output_ids, pattern)`. -/
def BaseModelForConditionalGeneration.match_output_sequence
    (output_ids pattern : List Int) : Bool :=
  if output_ids.length < pattern.length then false
  else
    BaseModelForConditionalGeneration.match_output_sequence_from
      (output_ids.drop (output_ids.length - pattern.length)) pattern

/-! ## Model types and the loader -/

/-! The enumerators of `enum ModelType`, as the `int` values the loader reads. -/

@[reducible] def MODEL_TYPE_CHATGLM : Int := 1
@[reducible] def MODEL_TYPE_CHATGLM2 : Int := 2
@[reducible] def MODEL_TYPE_CHATGLM3 : Int := 3
@[reducible] def MODEL_TYPE_CODEGEEX2 : Int := 4
@[reducible] def MODEL_TYPE_CHARACTERGLM : Int := 5
@[reducible] def MODEL_TYPE_INTERNLM : Int := 0x100
@[reducible] def MODEL_TYPE_INTERNLM2 : Int := 0x101
@[reducible] def MODEL_TYPE_INTERNLM3 : Int := 0x102
@[reducible] def MODEL_TYPE_LLAMA2 : Int := 0x150
@[reducible] def MODEL_TYPE_CODELLAMA : Int := 0x151
@[reducible] def MODEL_TYPE_WIZARDCODER : Int := 0x152
@[reducible] def MODEL_TYPE_WIZARDLM : Int := 0x153
@[reducible] def MODEL_TYPE_WIZARDMATH : Int := 0x154
@[reducible] def MODEL_TYPE_TIGERBOT : Int := 0x155
@[reducible] def MODEL_TYPE_BAICHUANLLAMA : Int := 0x200
@[reducible] def MODEL_TYPE_BAICHUAN : Int := 0x201
@[reducible] def MODEL_TYPE_DEEPSEEK : Int := 0x300
@[reducible] def MODEL_TYPE_DEEPSEEK_CODER : Int := 0x301
@[reducible] def MODEL_TYPE_CODEFUSE_DEEPSEEK : Int := 0x302
@[reducible] def MODEL_TYPE_YI : Int := 0x400
@[reducible] def MODEL_TYPE_PHI2 : Int := 0x500
@[reducible] def MODEL_TYPE_PHI2_V2 : Int := 0x501
@[reducible] def MODEL_TYPE_PHI3 : Int := 0x520
@[reducible] def MODEL_TYPE_PHI3_SU : Int := 0x521
@[reducible] def MODEL_TYPE_DOLPHINPHI2 : Int := 0x510
@[reducible] def MODEL_TYPE_DOLPHINPHI2_V2 : Int := 0x511
@[reducible] def MODEL_TYPE_MISTRAL : Int := 0x600
@[reducible] def MODEL_TYPE_MIXTRAL : Int := 0x601
@[reducible] def MODEL_TYPE_OPENCHAT : Int := 0x602
@[reducible] def MODEL_TYPE_NEURALBEAGLE : Int := 0x603
@[reducible] def MODEL_TYPE_STARLING : Int := 0x604
@[reducible] def MODEL_TYPE_WIZARDLM2_MOE : Int := 0x605
@[reducible] def MODEL_TYPE_QWEN : Int := 0x700
@[reducible] def MODEL_TYPE_QWEN2 : Int := 0x710
@[reducible] def MODEL_TYPE_QWEN2MoE : Int := 0x750
@[reducible] def MODEL_TYPE_BLUELM : Int := 0x800
@[reducible] def MODEL_TYPE_STABLELM : Int := 0x900
@[reducible] def MODEL_TYPE_ORION : Int := 0x1000
@[reducible] def MODEL_TYPE_MINICPM : Int := 0x1100
@[reducible] def MODEL_TYPE_MINICPM2 : Int := 0x1101
@[reducible] def MODEL_TYPE_MINICPM_MoE : Int := 0x1102
@[reducible] def MODEL_TYPE_PERSIMMON : Int := 0x1200
@[reducible] def MODEL_TYPE_FUYU : Int := 0x1201
@[reducible] def MODEL_TYPE_GEMMA : Int := 0x1300
@[reducible] def MODEL_TYPE_COHERE_COMMAND_R : Int := 0x1400
@[reducible] def MODEL_TYPE_GROK_1 : Int := 0x1500
@[reducible] def MODEL_TYPE_ZHINAO : Int := 0x1600
@[reducible] def MODEL_TYPE_LLAMA3 : Int := 0x1700
@[reducible] def MODEL_TYPE_BCE_Embedding : Int := 0x10000100
@[reducible] def MODEL_TYPE_BCE_ReRanker : Int := 0x10000101
@[reducible] def MODEL_TYPE_BGE_M3 : Int := 0x10000102
@[reducible] def MODEL_TYPE_BGE_ReRanker_M3 : Int := 0x10000103

/-- Modelled from the spec: `ModelPurpose` is declared in `models.h`, which is
not part of the sources at hand; the spec (section 3) lists its values. -/
inductive ModelPurpose where
  | Chat
  | TextEmbedding
  | Ranker
  deriving DecidableEq

/-- `get_model_purpose(model_type)`. -/
def get_model_purpose (model_type : Int) : ModelPurpose :=
  if model_type = MODEL_TYPE_BCE_Embedding ∨ model_type = MODEL_TYPE_BGE_M3 then
    ModelPurpose.TextEmbedding
  else if model_type = MODEL_TYPE_BCE_ReRanker ∨ model_type = MODEL_TYPE_BGE_ReRanker_M3 then
    ModelPurpose.Ranker
  else ModelPurpose.Chat

/-- Modelled from the spec: `ModelLoader` is declared outside the sources at
hand; the spec (4.7, 6) gives the file as a byte sequence read front to back,
with the members `model_type`, `version` and the three remembered offsets.
`data` is the file, one number per byte, `ptr` the read position. -/
structure ModelLoader where
  data : List Nat
  ptr : Nat
  model_type : Int
  version : Int
  offset_config : Nat
  offset_tokenizer : Nat
  offset_tensors : Nat
  deriving DecidableEq

/-- Modelled from the spec: `loader.tell()`. -/
def ModelLoader.tell (loader : ModelLoader) : Nat := loader.ptr

/-- Modelled from the spec: `loader.seek(offset, SEEK_SET)`. -/
def ModelLoader.seek (loader : ModelLoader) (offset : Nat) : ModelLoader :=
  { loader with ptr := offset }

/-- Modelled from the spec: `loader.read_string(length)`, the next `length`
bytes as characters; `none` when the file ends before (a read past the mapped
file). -/
def ModelLoader.read_string (loader : ModelLoader) (length : Nat) :
    Option (String × ModelLoader) :=
  if loader.ptr + length ≤ loader.data.length then
    some (String.mk (((loader.data.drop loader.ptr).take length).map Char.ofNat),
      { loader with ptr := loader.ptr + length })
  else none

/-- The value of a little-endian two's complement `int32` given by four bytes. -/
def int32_le (bytes : List Nat) : Int :=
  let u : Nat := bytes.getD 0 0 + 256 * bytes.getD 1 0 + 65536 * bytes.getD 2 0 +
    16777216 * bytes.getD 3 0
  if u < 2147483648 then (u : Int) else (u : Int) - 4294967296

/-- Modelled from the spec: `loader.read_basic<int>()`, the next four bytes as a
little-endian `int32` (spec 6); `none` when the file ends before. -/
def ModelLoader.read_basic_int (loader : ModelLoader) : Option (Int × ModelLoader) :=
  if loader.ptr + 4 ≤ loader.data.length then
    some (int32_le ((loader.data.drop loader.ptr).take 4), { loader with ptr := loader.ptr + 4 })
  else none

/-- `struct args`. -/
structure args where
  max_length : Int
  deriving DecidableEq

/-- Modelled from the spec: `BaseConfig` is declared outside the sources at
hand; the spec (section 3) lists the fields every family's `Config` has. -/
structure BaseConfig where
  vocab_size : Int
  hidden_size : Int
  num_hidden_layers : Int
  num_attention_heads : Int
  max_length : Int
  deriving DecidableEq

/-- `load_config<Config>(loader, config, args)`: the config and the loader after
the call; `read_basic` is `loader.read_basic<Config>()`, which decodes the
record at the read position and moves past it. -/
def load_config (read_basic : ModelLoader → BaseConfig × ModelLoader)
    (loader : ModelLoader) (args : args) : BaseConfig × ModelLoader :=
  let loader1 :=
    if 0 = loader.offset_config then { loader with offset_config := loader.tell }
    else loader.seek loader.offset_config
  let config := (read_basic loader1).1
  let loader2 := (read_basic loader1).2
  let config1 := if args.max_length > 0 then { config with max_length := args.max_length }
    else config
  (config1, { loader2 with offset_tokenizer := loader2.tell })

/-- One `CASE(TYPE, ns, ver)` line of `ALL_MODELS`. -/
structure ModelEntry where
  model_type : Int
  ns : String
  ver : Int
  deriving DecidableEq

/-- The dispatch table `ALL_MODELS`, in source order. -/
def ALL_MODELS : List ModelEntry :=
  [
    { model_type := MODEL_TYPE_CHATGLM, ns := "glm::v1", ver := 1 },
    { model_type := MODEL_TYPE_CHATGLM2, ns := "glm::v2", ver := 1 },
    { model_type := MODEL_TYPE_CHATGLM3, ns := "glm::v3", ver := 1 },
    { model_type := MODEL_TYPE_CODEGEEX2, ns := "codegeex::v2", ver := 1 },
    { model_type := MODEL_TYPE_CHARACTERGLM, ns := "characterglm", ver := 1 },
    { model_type := MODEL_TYPE_INTERNLM, ns := "internlm::v1", ver := 1 },
    { model_type := MODEL_TYPE_INTERNLM2, ns := "internlm::v2", ver := 1 },
    { model_type := MODEL_TYPE_INTERNLM3, ns := "internlm::v3", ver := 1 },
    { model_type := MODEL_TYPE_LLAMA2, ns := "llama::v2", ver := 1 },
    { model_type := MODEL_TYPE_LLAMA3, ns := "llama::v3", ver := 1 },
    { model_type := MODEL_TYPE_CODELLAMA, ns := "codellama", ver := 1 },
    { model_type := MODEL_TYPE_DEEPSEEK, ns := "deepseek", ver := 1 },
    { model_type := MODEL_TYPE_DEEPSEEK_CODER, ns := "deepseek_coder", ver := 1 },
    { model_type := MODEL_TYPE_CODEFUSE_DEEPSEEK, ns := "codefuse::deepseek", ver := 1 },
    { model_type := MODEL_TYPE_BAICHUANLLAMA, ns := "baichuan::_7b", ver := 1 },
    { model_type := MODEL_TYPE_BAICHUAN, ns := "baichuan::larger", ver := 1 },
    { model_type := MODEL_TYPE_YI, ns := "yi", ver := 1 },
    { model_type := MODEL_TYPE_PHI2, ns := "phi::v2::v1", ver := 1 },
    { model_type := MODEL_TYPE_PHI2_V2, ns := "phi::v2::v2", ver := 1 },
    { model_type := MODEL_TYPE_PHI3, ns := "phi::v3", ver := 1 },
    { model_type := MODEL_TYPE_PHI3_SU, ns := "phi::v3_su", ver := 1 },
    { model_type := MODEL_TYPE_WIZARDCODER, ns := "wizard::coder", ver := 1 },
    { model_type := MODEL_TYPE_WIZARDLM, ns := "wizard::lm", ver := 1 },
    { model_type := MODEL_TYPE_WIZARDMATH, ns := "wizard::math", ver := 1 },
    { model_type := MODEL_TYPE_MISTRAL, ns := "mistral", ver := 1 },
    { model_type := MODEL_TYPE_OPENCHAT, ns := "openchat", ver := 1 },
    { model_type := MODEL_TYPE_MIXTRAL, ns := "mixtral", ver := 1 },
    { model_type := MODEL_TYPE_QWEN, ns := "qwen::v1", ver := 2 },
    { model_type := MODEL_TYPE_QWEN2, ns := "qwen::v2", ver := 1 },
    { model_type := MODEL_TYPE_QWEN2MoE, ns := "qwen::v2_moe", ver := 1 },
    { model_type := MODEL_TYPE_TIGERBOT, ns := "tigerbot", ver := 1 },
    { model_type := MODEL_TYPE_BLUELM, ns := "bluelm", ver := 1 },
    { model_type := MODEL_TYPE_DOLPHINPHI2, ns := "dolphinphi2::v1", ver := 1 },
    { model_type := MODEL_TYPE_STABLELM, ns := "stablelm", ver := 1 },
    { model_type := MODEL_TYPE_NEURALBEAGLE, ns := "neuralbeagle", ver := 1 },
    { model_type := MODEL_TYPE_STARLING, ns := "starling", ver := 1 },
    { model_type := MODEL_TYPE_WIZARDLM2_MOE, ns := "wizard::moe", ver := 1 },
    { model_type := MODEL_TYPE_ORION, ns := "orion", ver := 1 },
    { model_type := MODEL_TYPE_MINICPM, ns := "minicpm::v1", ver := 1 },
    { model_type := MODEL_TYPE_MINICPM2, ns := "minicpm::v2", ver := 1 },
    { model_type := MODEL_TYPE_MINICPM_MoE, ns := "minicpm::moe", ver := 1 },
    { model_type := MODEL_TYPE_PERSIMMON, ns := "adept::persimmon", ver := 1 },
    { model_type := MODEL_TYPE_GEMMA, ns := "gemma", ver := 1 },
    { model_type := MODEL_TYPE_COHERE_COMMAND_R, ns := "cohere::command_r", ver := 1 },
    { model_type := MODEL_TYPE_GROK_1, ns := "grok::v1", ver := 1 },
    { model_type := MODEL_TYPE_ZHINAO, ns := "zhinao", ver := 1 },
    { model_type := MODEL_TYPE_BCE_Embedding, ns := "bce::embedding", ver := 1 },
    { model_type := MODEL_TYPE_BCE_ReRanker, ns := "bce::ranker", ver := 1 },
    { model_type := MODEL_TYPE_BGE_M3, ns := "bge::embedding", ver := 1 },
    { model_type := MODEL_TYPE_BGE_ReRanker_M3, ns := "bge::ranker", ver := 1 }
  ]

/-- Where `ModelFactory::load` ends: an error is raised (`CHATLLM_CHECK`,
`CHATLLM_THROW`), or the call `load_model<ns::Config, ns::Tokenizer,
ns::ConditionalGeneration>(loader, result, extra_args)` of a dispatch entry is
made, which constructs the triple, or the behaviour is undefined (a read past
the end of the file). -/
inductive LoadStep where
  | raised (msg : String) (loader : ModelLoader)
  | load_model (ns : String) (loader : ModelLoader) (extra_args : args)
  | undefined
  deriving DecidableEq

/-- The `switch ((ModelType)model_type)` of `ModelFactory::load` over the cases
of a table. -/
def ModelFactory.load_switch (model_type version : Int) (loader : ModelLoader)
    (extra_args : args) : List ModelEntry → LoadStep
  | [] => LoadStep.raised ("invalid model type " ++ toString model_type) loader
  | e :: es =>
    if model_type = e.model_type then
      if version = e.ver then LoadStep.load_model e.ns loader extra_args
      else
        LoadStep.raised
          ("only support version " ++ toString e.ver ++ " for now but got " ++ toString version)
          loader
    else ModelFactory.load_switch model_type version loader extra_args es

/-- `ModelFactory::load(model_type, version, loader, result, max_length)`. -/
def ModelFactory.load_dispatch (model_type version : Int) (loader : ModelLoader)
    (max_length : Int) : LoadStep :=
  ModelFactory.load_switch model_type version loader { max_length := max_length } ALL_MODELS

/-- `ModelFactory::load(loader, result, max_length)`. -/
def ModelFactory.load (loader : ModelLoader) (max_length : Int) : LoadStep :=
  match (loader.seek 0).read_string 4 with
  | none => LoadStep.undefined
  | some (magic, loader1) =>
    if magic ≠ "ggml" then LoadStep.raised "model file is broken (bad magic)" loader1
    else
      match loader1.read_basic_int with
      | none => LoadStep.undefined
      | some (model_type, loader2) =>
        match ({ loader2 with model_type := model_type } : ModelLoader).read_basic_int with
        | none => LoadStep.undefined
        | some (version, loader3) =>
          ModelFactory.load_dispatch model_type version
            { loader3 with version := version } max_length

/-! ## Chat history encoders -/

/-- Modelled from the spec: the tokenizer base class `BaseTokenizer` is declared
outside the sources at hand. Of it the history encoders read the special token
ids and the system prompt, and call `encode(text, ids)`, the sub-word encoding
of `text` onto `ids`, of which the spec fixes the interface only; `encode text
ids` is `ids` after the call. -/
structure BaseTokenizer where
  bos_token_id : Int
  eos_token_id : Int
  sys_prompt : String
  encode : String → List Int → List Int

/-- Modelled from the spec: `get_system_prompt()`. -/
def BaseTokenizer.get_system_prompt (tok : BaseTokenizer) : String := tok.sys_prompt

namespace openchat

/-- The constructor `Tokenizer(config, encoder)`, on the tokenizer its base class
constructs. -/
def Tokenizer (base : BaseTokenizer) : BaseTokenizer :=
  { base with sys_prompt := "GPT4" }

/-- Modelled from the spec: `encode(text, ids, add_bos, add_eos)` is inherited
from `mistral::mistral::Tokenizer`, declared outside the sources at hand; by the
spec (4.5) the encoded text is followed by the end-of-turn token when
`add_eos` is set, and preceded by `bos` when `add_bos` is set. -/
def Tokenizer.encode (tok : BaseTokenizer) (text : String) (ids : List Int)
    (add_bos add_eos : Bool) : List Int :=
  let ids1 := if add_bos then ids ++ [tok.bos_token_id] else ids
  let ids2 := tok.encode text ids1
  if add_eos then ids2 ++ [tok.eos_token_id] else ids2

/-- `ChatHistoryEncoder::append_ai_opening`. -/
def ChatHistoryEncoder.append_ai_opening (tok : BaseTokenizer) (_round_idx : Int)
    (ids : List Int) : List Int :=
  Tokenizer.encode tok (tok.get_system_prompt ++ " Correct Assistant: ") ids false false

/-- `ChatHistoryEncoder::append_ai`. -/
def ChatHistoryEncoder.append_ai (tok : BaseTokenizer) (round_idx : Int) (ai : String)
    (ids : List Int) : List Int :=
  Tokenizer.encode tok ai (ChatHistoryEncoder.append_ai_opening tok round_idx ids) false true

/-- `ChatHistoryEncoder::append_sys_prompt`. -/
def ChatHistoryEncoder.append_sys_prompt (tok : BaseTokenizer) (ids : List Int) : List Int :=
  ids ++ [tok.bos_token_id]

/-- `ChatHistoryEncoder::append_user`. -/
def ChatHistoryEncoder.append_user (tok : BaseTokenizer) (_round_idx : Int) (user : String)
    (ids : List Int) : List Int :=
  Tokenizer.encode tok (tok.get_system_prompt ++ " Correct User: " ++ user) ids false true

end openchat

namespace xverse

namespace dense

/-- The constructor `Tokenizer(config, encoder)`, on the tokenizer its base class
constructs. -/
def Tokenizer (base : BaseTokenizer) : BaseTokenizer :=
  { base with sys_prompt := "" }

/-- The virtual `Tokenizer::encode(text, ids, add_bos, add_eos)`. -/
def Tokenizer.encode (tok : BaseTokenizer) (text : String) (ids : List Int)
    (add_bos add_eos : Bool) : List Int :=
  let ids1 := if add_bos then ids ++ [tok.bos_token_id] else ids
  let ids2 := tok.encode text ids1
  if add_eos then ids2 ++ [tok.eos_token_id] else ids2

/-- The override `Tokenizer::encode(text, ids)`. -/
def Tokenizer.encode2 (tok : BaseTokenizer) (text : String) (ids : List Int) : List Int :=
  Tokenizer.encode tok text ids false false

/-- `ChatHistoryEncoder::append_ai_opening`. -/
def ChatHistoryEncoder.append_ai_opening (tok : BaseTokenizer) (_round_idx : Int)
    (ids : List Int) : List Int :=
  Tokenizer.encode tok "Assistant: " ids false false

/-- `ChatHistoryEncoder::append_ai`. -/
def ChatHistoryEncoder.append_ai (tok : BaseTokenizer) (round_idx : Int) (ai : String)
    (ids : List Int) : List Int :=
  Tokenizer.encode tok ai (ChatHistoryEncoder.append_ai_opening tok round_idx ids) false true

/-- `ChatHistoryEncoder::append_user`. -/
def ChatHistoryEncoder.append_user (tok : BaseTokenizer) (_round_idx : Int) (user : String)
    (ids : List Int) : List Int :=
  Tokenizer.encode tok ("Human: " ++ user ++ "\n\n") ids false false

end dense

namespace moe

/-- `ChatHistoryEncoder::append_sys_prompt`. -/
def ChatHistoryEncoder.append_sys_prompt (tok : BaseTokenizer) (ids : List Int) : List Int :=
  if tok.get_system_prompt.length < 1 then ids
  else dense.Tokenizer.encode2 tok ("system: " ++ tok.get_system_prompt ++ "\n") ids

/-- `ChatHistoryEncoder::append_ai_opening`. -/
def ChatHistoryEncoder.append_ai_opening (tok : BaseTokenizer) (_round_idx : Int)
    (ids : List Int) : List Int :=
  dense.Tokenizer.encode2 tok "assistant: " ids

/-- `ChatHistoryEncoder::append_ai`. -/
def ChatHistoryEncoder.append_ai (tok : BaseTokenizer) (round_idx : Int) (ai : String)
    (ids : List Int) : List Int :=
  dense.Tokenizer.encode2 tok ai (ChatHistoryEncoder.append_ai_opening tok round_idx ids) ++
    [tok.eos_token_id]

/-- `ChatHistoryEncoder::append_user`. -/
def ChatHistoryEncoder.append_user (tok : BaseTokenizer) (_round_idx : Int) (user : String)
    (ids : List Int) : List Int :=
  dense.Tokenizer.encode2 tok ("user: " ++ user ++ "\n") ids

end moe

end xverse

namespace toy

/-- A tokenizer that appends one token per character, its code point. -/
def codes : BaseTokenizer where
  bos_token_id := 1
  eos_token_id := 2
  sys_prompt := ""
  encode := fun text ids => ids ++ text.toList.map (fun c => (c.toNat : Int))

/-- A file with the header of a QWEN model of version 2 and five `int32` values
after it. -/
def qwen_file : List Nat :=
  [103, 103, 109, 108, 0, 7, 0, 0, 2, 0, 0, 0,
    100, 0, 0, 0, 8, 0, 0, 0, 2, 0, 0, 0, 4, 0, 0, 0, 50, 0, 0, 0]

/-- A loader on a file, before anything is read. -/
def loader (data : List Nat) : ModelLoader where
  data := data
  ptr := 0
  model_type := 0
  version := 0
  offset_config := 0
  offset_tokenizer := 0
  offset_tensors := 0

/-- A reader of `BaseConfig` records laid out as five consecutive `int32`
values. -/
def read_config (loader : ModelLoader) : BaseConfig × ModelLoader :=
  ({ vocab_size := int32_le ((loader.data.drop loader.ptr).take 4)
     hidden_size := int32_le ((loader.data.drop (loader.ptr + 4)).take 4)
     num_hidden_layers := int32_le ((loader.data.drop (loader.ptr + 8)).take 4)
     num_attention_heads := int32_le ((loader.data.drop (loader.ptr + 12)).take 4)
     max_length := int32_le ((loader.data.drop (loader.ptr + 16)).take 4) },
   { loader with ptr := loader.ptr + 20 })

end toy

/-! ## Display names of the model types -/

/-- `to_string(model_type)`: the display name, or the error that `CHATLLM_THROW`
raises in the `default` case. -/
def to_string (model_type : Int) : Except String String :=
  if model_type = MODEL_TYPE_CHATGLM then
    Except.ok "ChatGLM"
  else if model_type = MODEL_TYPE_CHATGLM2 then
    Except.ok "ChatGLM2"
  else if model_type = MODEL_TYPE_CHATGLM3 then
    Except.ok "ChatGLM3"
  else if model_type = MODEL_TYPE_CODEGEEX2 then
    Except.ok "CodeGeeX2"
  else if model_type = MODEL_TYPE_CHARACTERGLM then
    Except.ok "CharacterGLM"
  else if model_type = MODEL_TYPE_INTERNLM ∨ model_type = MODEL_TYPE_INTERNLM2 ∨
      model_type = MODEL_TYPE_INTERNLM3 then
    Except.ok "InternLM"
  else if model_type = MODEL_TYPE_LLAMA2 then
    Except.ok "LlaMa2"
  else if model_type = MODEL_TYPE_CODELLAMA then
    Except.ok "CodeLlaMa"
  else if model_type = MODEL_TYPE_BAICHUAN ∨ model_type = MODEL_TYPE_BAICHUANLLAMA then
    Except.ok "Baichuan"
  else if model_type = MODEL_TYPE_DEEPSEEK then
    Except.ok "DeepSeek-LLM"
  else if model_type = MODEL_TYPE_DEEPSEEK_CODER then
    Except.ok "DeepSeek-Coder"
  else if model_type = MODEL_TYPE_CODEFUSE_DEEPSEEK then
    Except.ok "CodeFuse-DeepSeek"
  else if model_type = MODEL_TYPE_YI then
    Except.ok "Yi"
  else if model_type = MODEL_TYPE_PHI2 ∨ model_type = MODEL_TYPE_PHI2_V2 then
    Except.ok "Phi-2"
  else if model_type = MODEL_TYPE_PHI3 ∨ model_type = MODEL_TYPE_PHI3_SU then
    Except.ok "Phi-3"
  else if model_type = MODEL_TYPE_DOLPHINPHI2 ∨ model_type = MODEL_TYPE_DOLPHINPHI2_V2 then
    Except.ok "Dolphin Phi-2"
  else if model_type = MODEL_TYPE_WIZARDCODER then
    Except.ok "WizardCoder"
  else if model_type = MODEL_TYPE_WIZARDLM then
    Except.ok "WizardLM"
  else if model_type = MODEL_TYPE_WIZARDMATH then
    Except.ok "WizardMath"
  else if model_type = MODEL_TYPE_MISTRAL then
    Except.ok "Mistral"
  else if model_type = MODEL_TYPE_MIXTRAL then
    Except.ok "Mixtral MoE"
  else if model_type = MODEL_TYPE_OPENCHAT then
    Except.ok "OpenChat"
  else if model_type = MODEL_TYPE_NEURALBEAGLE then
    Except.ok "NeuralBeagle"
  else if model_type = MODEL_TYPE_STARLING then
    Except.ok "Starling"
  else if model_type = MODEL_TYPE_WIZARDLM2_MOE then
    Except.ok "WizardLM-2-MoE"
  else if model_type = MODEL_TYPE_QWEN then
    Except.ok "QWen"
  else if model_type = MODEL_TYPE_QWEN2 then
    Except.ok "QWen2"
  else if model_type = MODEL_TYPE_QWEN2MoE then
    Except.ok "QWen2-MoE"
  else if model_type = MODEL_TYPE_TIGERBOT then
    Except.ok "TigerBot"
  else if model_type = MODEL_TYPE_BLUELM then
    Except.ok "BlueLM"
  else if model_type = MODEL_TYPE_STABLELM then
    Except.ok "StableLM"
  else if model_type = MODEL_TYPE_ORION then
    Except.ok "Orion"
  else if model_type = MODEL_TYPE_MINICPM ∨ model_type = MODEL_TYPE_MINICPM2 then
    Except.ok "MiniCPM"
  else if model_type = MODEL_TYPE_MINICPM_MoE then
    Except.ok "MiniCPM-MoE"
  else if model_type = MODEL_TYPE_PERSIMMON then
    Except.ok "Persimmon"
  else if model_type = MODEL_TYPE_FUYU then
    Except.ok "Fuyu"
  else if model_type = MODEL_TYPE_GEMMA then
    Except.ok "Gemma"
  else if model_type = MODEL_TYPE_COHERE_COMMAND_R then
    Except.ok "Command-R"
  else if model_type = MODEL_TYPE_GROK_1 then
    Except.ok "Grok-1"
  else if model_type = MODEL_TYPE_ZHINAO then
    Except.ok "Zhinao"
  else if model_type = MODEL_TYPE_LLAMA3 then
    Except.ok "LlaMa3"
  else if model_type = MODEL_TYPE_BCE_Embedding then
    Except.ok "BCE-Embedding"
  else if model_type = MODEL_TYPE_BCE_ReRanker then
    Except.ok "BCE-ReRanker"
  else if model_type = MODEL_TYPE_BGE_M3 then
    Except.ok "BGE-M3"
  else if model_type = MODEL_TYPE_BGE_ReRanker_M3 then
    Except.ok "BGE-ReRanker-M3"
  else Except.error ("unknown model type: " ++ toString model_type)

/-- `to_native_string(model_type)`; the `default` case returns the empty
string. -/
def to_native_string (model_type : Int) : Except String String :=
  if model_type = MODEL_TYPE_INTERNLM ∨ model_type = MODEL_TYPE_INTERNLM2 ∨
      model_type = MODEL_TYPE_INTERNLM3 then
    Except.ok "书生·浦语"
  else if model_type = MODEL_TYPE_BAICHUAN ∨ model_type = MODEL_TYPE_BAICHUANLLAMA then
    Except.ok "百川"
  else if model_type = MODEL_TYPE_PHI2 ∨ model_type = MODEL_TYPE_PHI2_V2 ∨
      model_type = MODEL_TYPE_PHI3 ∨ model_type = MODEL_TYPE_PHI3_SU then
    Except.ok "Φ"
  else if model_type = MODEL_TYPE_QWEN ∨ model_type = MODEL_TYPE_QWEN2 then
    Except.ok "通义千问"
  else if model_type = MODEL_TYPE_TIGERBOT then
    Except.ok "虎博"
  else if model_type = MODEL_TYPE_BLUELM then
    Except.ok "蓝心"
  else if model_type = MODEL_TYPE_NEURALBEAGLE then
    Except.ok "🐶"
  else if model_type = MODEL_TYPE_COHERE_COMMAND_R then
    Except.ok "⌘-R"
  else if model_type = MODEL_TYPE_ZHINAO then
    Except.ok "360智脑"
  else Except.ok ""

/-- The arguments the constructor of `BaseModelForConditionalGeneration` hands
to `BaseModel`: `to_string(model_type)`, `to_native_string(model_type)` and
`get_model_purpose(model_type)`. -/
def BaseModelForConditionalGeneration.names (model_type : Int) :
    Except String (String × String × ModelPurpose) :=
  match to_string model_type with
  | Except.error msg => Except.error msg
  | Except.ok name =>
    match to_native_string model_type with
    | Except.error msg => Except.error msg
    | Except.ok native => Except.ok (name, native, get_model_purpose model_type)

namespace numinamath

/-- The constructor `Tokenizer(config)`, on the tokenizer its base class
constructs. -/
def Tokenizer (base : BaseTokenizer) : BaseTokenizer :=
  { base with sys_prompt := "" }

/-- Modelled from the spec: `encode(text, ids, add_bos, add_eos)` is inherited
from `deepseek::v1::Tokenizer`, declared outside the sources at hand; by the
spec (4.5) the encoded text is followed by the end-of-turn token when
`add_eos` is set, and preceded by `bos` when `add_bos` is set. -/
def Tokenizer.encode (tok : BaseTokenizer) (text : String) (ids : List Int)
    (add_bos add_eos : Bool) : List Int :=
  let ids1 := if add_bos then ids ++ [tok.bos_token_id] else ids
  let ids2 := tok.encode text ids1
  if add_eos then ids2 ++ [tok.eos_token_id] else ids2

/-- `ChatHistoryEncoder::append_ai_opening`. -/
def ChatHistoryEncoder.append_ai_opening (tok : BaseTokenizer) (_round_idx : Int)
    (ids : List Int) : List Int :=
  Tokenizer.encode tok "### Solution: " ids false false

/-- `ChatHistoryEncoder::append_ai`. -/
def ChatHistoryEncoder.append_ai (tok : BaseTokenizer) (round_idx : Int) (ai : String)
    (ids : List Int) : List Int :=
  Tokenizer.encode tok ai (ChatHistoryEncoder.append_ai_opening tok round_idx ids) false false

/-- `ChatHistoryEncoder::append_sys_prompt`. -/
def ChatHistoryEncoder.append_sys_prompt (tok : BaseTokenizer) (ids : List Int) : List Int :=
  ids ++ [tok.bos_token_id]

/-- `ChatHistoryEncoder::append_user`. -/
def ChatHistoryEncoder.append_user (tok : BaseTokenizer) (_round_idx : Int) (user : String)
    (ids : List Int) : List Int :=
  Tokenizer.encode tok ("### Problem: " ++ user ++ "\n") ids false false

end numinamath

/-! ## The forward passes of a call, and engines that differ in per-call state -/

/-- The passes that feed the tokens of a list one at a time from a position on:
token `i` goes in at position `pos + i`. -/
def forward_each : List Int → Int → List (List Int × Int)
  | [], _ => []
  | x :: xs, pos => ([x], pos) :: forward_each xs (pos + 1)

/-- The forward passes `(input, position)` of a call as the specification words
them, for the tokens `fed` back after the prompt: in batched mode one pass with
`input_ids` at `start`, then one pass per fed token, each at the position of the
pass before plus the length of its input; in incremental mode the same tokens
one at a time at consecutive positions from `start` on. -/
def expected_forward_passes (batch_input : Bool) (input_ids : List Int) (start : Int)
    (fed : List Int) : List (List Int × Int) :=
  if batch_input then (input_ids, start) :: forward_each fed (start + (input_ids.length : Int))
  else forward_each (input_ids ++ fed) start

/-- The engine with a list of events put before its trace. -/
def BaseModelForConditionalGeneration.with_trace_before {τ F : Type}
    (m : BaseModelForConditionalGeneration τ F) (tr : List (Event F)) :
    BaseModelForConditionalGeneration τ F :=
  { m with trace := tr ++ m.trace }

/-- The loop state with a list of events put before the trace of its engine. -/
def GenerateState.with_trace_before {τ ν F : Type} (s : GenerateState τ ν F)
    (tr : List (Event F)) : GenerateState τ ν F :=
  { s with model := s.model.with_trace_before tr }

/-- The engine with what earlier calls leave behind cleared: `n_past`, the
`aborted` flag and the trace. -/
def BaseModelForConditionalGeneration.cleared {τ F : Type}
    (m : BaseModelForConditionalGeneration τ F) : BaseModelForConditionalGeneration τ F :=
  { m with n_past := 0, aborted := false, trace := [] }

/-! ## A standard library whose `exp` rounds -/

namespace toy

/-- A stand-in for `std::exp` on `float`, which returns `1` for every argument
within `2^-25` below `0`; elsewhere it is `exp`. It is increasing, but not
strictly. -/
def exp_rounded (x : ℚ) : ℚ := if -(1 / 33554432) ≤ x ∧ x ≤ 0 then 1 else exp x

/-- Insertion sort from the left, as `std::sort` runs it on a short range:
entries of equal score keep their order. -/
def sort_stable (ts : List (TokenIdScore ℚ)) : List (TokenIdScore ℚ) :=
  ts.foldl (fun acc t => insert_desc t acc) []

/-- The standard library `lib` with the rounding `exp` and the sort that keeps
ties in place. -/
def rounding_lib : StdLib ℚ Nat :=
  { lib with exp := exp_rounded, sort := sort_stable }

/-- A `FreeTailSampler` with temperature `1`, no presence penalty, no top-k and
`z = 1/2`. -/
def tail_free : NonGreedyObject ℚ Nat :=
  NonGreedyObject.FreeTail (NonGreedy.create rounding_lib 1 1 0) (1 / 2) []

/-- The `float` values `0.001f`, the next `float` above it, and `-5`. -/
def close_logits : List ℚ := [8589935 / 8589934592, 8589936 / 8589934592, -5]

end toy

set_option linter.unusedSectionVars false

/-! ## The trace -/

section trace

variable {F : Type}

theorem Event.sampled_append (a b : List (Event F)) :
    Event.sampled (a ++ b) = Event.sampled a ++ Event.sampled b := by
  induction a with
  | nil => rfl
  | cons e es ih => cases e <;> simp [Event.sampled, ih]

theorem Event.streamed_append (a b : List (Event F)) :
    Event.streamed (a ++ b) = Event.streamed a ++ Event.streamed b := by
  induction a with
  | nil => rfl
  | cons e es ih => cases e <;> simp [Event.streamed, ih]

theorem Event.shifts_append (a b : List (Event F)) :
    Event.shifts (a ++ b) = Event.shifts a ++ Event.shifts b := by
  induction a with
  | nil => rfl
  | cons e es ih => cases e <;> simp [Event.shifts, ih]

theorem Event.forwards_append (a b : List (Event F)) :
    Event.forwards (a ++ b) = Event.forwards a ++ Event.forwards b := by
  induction a with
  | nil => rfl
  | cons e es ih => cases e <;> simp [Event.forwards, ih]

end trace

namespace BaseModelForConditionalGeneration

variable {τ ν F : Type} [LinearOrderedRing F]

/-! ## The forward pass -/

theorem run_model_state (T : Transformer τ F) (m : BaseModelForConditionalGeneration τ F)
    (ids : List Int) (past : Int) :
    (run_model T m ids past).2 =
      { m with
        transformer := (T.forward m.transformer ids past).2
        trace := m.trace ++ [Event.forward ids past] } := rfl

theorem generate_next_token_each_state (T : Transformer τ F) (ids : List Int) :
    ∀ (past : Int) (lm : Option (List F)) (m : BaseModelForConditionalGeneration τ F),
      ∃ t fw, (generate_next_token_each T ids past lm m).2 =
          { m with transformer := t, trace := m.trace ++ fw } ∧
        Event.sampled fw = [] ∧ Event.streamed fw = [] ∧ Event.shifts fw = [] := by
  induction ids with
  | nil =>
    intro past lm m
    exact ⟨m.transformer, [], by simp [generate_next_token_each], rfl, rfl, rfl⟩
  | cons id ids ih =>
    intro past lm m
    obtain ⟨t, fw, h, h1, h2, h3⟩ :=
      ih (past + 1) (some (run_model T m [id] past).1) (run_model T m [id] past).2
    refine ⟨t, Event.forward [id] past :: fw, ?_, ?_, ?_, ?_⟩
    · rw [generate_next_token_each, h, run_model_state]
      simp
    · simpa [Event.sampled] using h1
    · simpa [Event.streamed] using h2
    · simpa [Event.shifts] using h3

theorem generate_next_token_each_none (T : Transformer τ F) (ids : List Int) :
    ∀ (past : Int) (lm : Option (List F)) (m : BaseModelForConditionalGeneration τ F),
      (generate_next_token_each T ids past lm m).1 = none ↔ ids = [] ∧ lm = none := by
  induction ids with
  | nil => intro past lm m; simp [generate_next_token_each]
  | cons id ids ih => intro past lm m; simp [generate_next_token_each, ih]

theorem generate_next_token_state (T : Transformer τ F)
    (m : BaseModelForConditionalGeneration τ F) (ids : List Int) :
    ∃ t fw, (generate_next_token T m ids).2 =
        { m with transformer := t, trace := m.trace ++ fw } ∧
      Event.sampled fw = [] ∧ Event.streamed fw = [] ∧ Event.shifts fw = [] := by
  unfold generate_next_token
  split
  · exact ⟨_, [Event.forward ids (m.n_past + m.n_past_offset)], run_model_state T m ids _,
      rfl, rfl, rfl⟩
  · exact generate_next_token_each_state T ids _ none m

theorem generate_next_token_none (T : Transformer τ F)
    (m : BaseModelForConditionalGeneration τ F) (ids : List Int) :
    (generate_next_token T m ids).1 = none ↔ m.batch_input = false ∧ ids = [] := by
  unfold generate_next_token
  split
  · rename_i h; simp [h]
  · rename_i h; simp [generate_next_token_each_none, h]

/-! ## One loop iteration -/

theorem is_output_terminated_push (m : BaseModelForConditionalGeneration τ F)
    (out : List Int) (t keep_idx pop_output : Int) :
    is_output_terminated m (out ++ [t]) keep_idx pop_output =
      if t = m.terminate_token_id ∨ t = m.eos_token_id then (true, keep_idx, 1)
      else (false, (out.length : Int) + 1, pop_output) := by
  unfold is_output_terminated
  have hlast : (out ++ [t]).getD ((out ++ [t]).length - 1) 0 = t := by
    simp [List.getD_eq_getElem?_getD]
  simp only [hlast]
  by_cases h1 : t = m.terminate_token_id
  · simp [h1]
  · by_cases h2 : t = m.eos_token_id
    · simp [h1, h2]
    · simp [h1, h2]

theorem pop_outputs_length_le (n : Nat) : ∀ out : List Int, (pop_outputs n out).length ≤ out.length := by
  induction n with
  | zero => intro out; simp [pop_outputs]
  | succ n ih =>
    intro out
    exact le_trans (ih out.dropLast) (by simp)

theorem stream_outputs_none (out : List Int) (fuel : Nat) (next : Int) (tr : List (Event F)) :
    stream_outputs out next fuel next tr = (next, tr) := by
  cases fuel <;> simp [stream_outputs]

theorem stream_outputs_trace (out : List Int) (keep : Int) :
    ∀ (fuel : Nat) (next : Int) (tr : List (Event F)),
      ∃ puts, (stream_outputs out keep fuel next tr).2 = tr ++ puts ∧
        Event.sampled puts = [] ∧ Event.shifts puts = [] := by
  intro fuel
  induction fuel with
  | zero => intro next tr; exact ⟨[], by simp [stream_outputs], rfl, rfl⟩
  | succ fuel ih =>
    intro next tr
    unfold stream_outputs
    split
    · obtain ⟨puts, h, h1, h2⟩ := ih (next + 1) (tr ++ [Event.put [out.getD next.toNat 0]])
      exact ⟨Event.put [out.getD next.toNat 0] :: puts, by rw [h]; simp,
        by simpa [Event.sampled] using h1, by simpa [Event.shifts] using h2⟩
    · exact ⟨[], by simp, rfl, rfl⟩

/-- Accepting a terminator under the default `is_output_terminated`: the
token is pushed and popped again, nothing is streamed. -/
theorem generate_accept_stop (fam : Family τ ν F)
    (hfam : fam.is_output_terminated = is_output_terminated) (streamer : Bool)
    (s : GenerateState τ ν F) (m : BaseModelForConditionalGeneration τ F)
    (sampler : Sampler ν) (t : Int)
    (ht : t = m.terminate_token_id ∨ t = m.eos_token_id)
    (hnext : streamer = true → s.next_output_idx = (s.output_ids.length : Int)) :
    generate_accept fam streamer s m sampler t =
      { model := { m with n_past := m.n_past + (s.curr_input_ids.length : Int) }
        sampler := sampler
        curr_input_ids := [t]
        output_ids := s.output_ids
        completed := true
        next_output_idx := s.next_output_idx } := by
  unfold generate_accept
  simp only [hfam, is_output_terminated_push]
  cases streamer with
  | false => simp [ht, pop_outputs]
  | true =>
    have h := hnext rfl
    simp [ht, pop_outputs, h, stream_outputs]

/-- Accepting any other token under the default `is_output_terminated`: the
token is appended and, with a streamer, put once. -/
theorem generate_accept_emit (fam : Family τ ν F)
    (hfam : fam.is_output_terminated = is_output_terminated) (streamer : Bool)
    (s : GenerateState τ ν F) (m : BaseModelForConditionalGeneration τ F)
    (sampler : Sampler ν) (t : Int)
    (ht : ¬ (t = m.terminate_token_id ∨ t = m.eos_token_id))
    (hnext : streamer = true → s.next_output_idx = (s.output_ids.length : Int)) :
    generate_accept fam streamer s m sampler t =
      { model :=
          { m with
            n_past := m.n_past + (s.curr_input_ids.length : Int)
            trace := m.trace ++ (if streamer then [Event.put [t]] else []) }
        sampler := sampler
        curr_input_ids := [t]
        output_ids := s.output_ids ++ [t]
        completed := s.completed
        next_output_idx := if streamer then s.next_output_idx + 1 else s.next_output_idx } := by
  unfold generate_accept
  simp only [hfam, is_output_terminated_push]
  cases streamer with
  | false => simp [ht]
  | true =>
    have h := hnext rfl
    simp [ht, h, stream_outputs, List.getD_eq_getElem?_getD]

theorem generate_accept_fields (fam : Family τ ν F) (streamer : Bool)
    (s : GenerateState τ ν F) (m : BaseModelForConditionalGeneration τ F)
    (sampler : Sampler ν) (t : Int) :
    (generate_accept fam streamer s m sampler t).model.n_past =
        m.n_past + (s.curr_input_ids.length : Int) ∧
      (generate_accept fam streamer s m sampler t).model.max_length = m.max_length ∧
      (generate_accept fam streamer s m sampler t).model.terminate_token_id =
        m.terminate_token_id ∧
      (generate_accept fam streamer s m sampler t).model.eos_token_id = m.eos_token_id ∧
      (generate_accept fam streamer s m sampler t).model.batch_input = m.batch_input ∧
      (generate_accept fam streamer s m sampler t).model.n_past_offset = m.n_past_offset ∧
      (generate_accept fam streamer s m sampler t).model._seed = m._seed ∧
      (generate_accept fam streamer s m sampler t).model.logit_scale = m.logit_scale ∧
      (generate_accept fam streamer s m sampler t).model.aborted = m.aborted ∧
      (generate_accept fam streamer s m sampler t).curr_input_ids = [t] ∧
      (generate_accept fam streamer s m sampler t).output_ids.length ≤
        s.output_ids.length + 1 := by
  have hlen : ∀ (b : Bool) (n : Nat),
      (if b = true then pop_outputs n (s.output_ids ++ [t]) else s.output_ids ++ [t]).length ≤
        s.output_ids.length + 1 := by
    intro b n
    split
    · exact le_trans (pop_outputs_length_le n _) (by simp)
    · simp
  unfold generate_accept
  cases streamer with
  | false => simpa using hlen _ _
  | true => simpa using hlen _ _

theorem generate_body_none (fam : Family τ ν F) (streamer : Bool) (s : GenerateState τ ν F) :
    generate_body fam streamer s = none ↔
      s.model.batch_input = false ∧ s.curr_input_ids = [] := by
  rw [← generate_next_token_none fam.transformer s.model s.curr_input_ids]
  unfold generate_body
  split
  · rename_i h; simp [h]
  · rename_i lm h
    simp only [h]
    split <;> simp

theorem generate_body_some (fam : Family τ ν F) (streamer : Bool)
    (s s1 : GenerateState τ ν F) (h : generate_body fam streamer s = some s1) :
    ∃ lm tr fw t sampler,
      (generate_next_token fam.transformer s.model s.curr_input_ids).1 = some lm ∧
      (generate_next_token fam.transformer s.model s.curr_input_ids).2 =
        { s.model with transformer := tr, trace := s.model.trace ++ fw } ∧
      Event.sampled fw = [] ∧ Event.streamed fw = [] ∧ Event.shifts fw = [] ∧
      Sampler.sampling fam.samplers s.sampler lm = (t, sampler) ∧
      ((t = Sampler.ABORT ∧
          s1 = { s with
                 model :=
                   { s.model with
                     transformer := tr
                     trace := s.model.trace ++ fw ++ [Event.sampling lm t]
                     aborted := true }
                 sampler := sampler }) ∨
        (t ≠ Sampler.ABORT ∧
          s1 = generate_accept fam streamer s
                 { s.model with
                   transformer := tr
                   trace := s.model.trace ++ fw ++ [Event.sampling lm t] }
                 sampler t)) := by
  obtain ⟨tr, fw, hst, h1, h2, h3⟩ :=
    generate_next_token_state fam.transformer s.model s.curr_input_ids
  unfold generate_body at h
  split at h
  · exact absurd h (by simp)
  · rename_i lm hlm
    refine ⟨lm, tr, fw, (Sampler.sampling fam.samplers s.sampler lm).1,
      (Sampler.sampling fam.samplers s.sampler lm).2, hlm, hst, h1, h2, h3, rfl, ?_⟩
    rw [hst] at h
    by_cases ht : (Sampler.sampling fam.samplers s.sampler lm).1 = Sampler.ABORT
    · left
      refine ⟨ht, ?_⟩
      simpa [ht] using h.symm
    · right
      refine ⟨ht, ?_⟩
      simpa [ht] using h.symm

theorem generate_cond_true (gen_config : GenerationConfig F) (s : GenerateState τ ν F) :
    generate_cond gen_config s = true ↔
      s.model.aborted = false ∧ s.completed = false ∧
        s.model.n_past + (s.curr_input_ids.length : Int) < gen_config.max_length := by
  simp [generate_cond, and_assoc]

/-! ## The accounting invariant -/

theorem accounting_entry (fam : Family τ ν F) (m : BaseModelForConditionalGeneration τ F)
    (sampler : Sampler ν) (input_ids : List Int) (gen_config : GenerationConfig F)
    (continuous : Bool) :
    Accounting m input_ids gen_config continuous 0 0
      (generate_entry fam m sampler input_ids continuous) := by
  constructor <;> simp [generate_entry, generate_start]

theorem accounting_sum {m : BaseModelForConditionalGeneration τ F} {input_ids : List Int}
    {gen_config : GenerationConfig F} {continuous : Bool} {k c : Nat}
    {s : GenerateState τ ν F} (h : Accounting m input_ids gen_config continuous k c s) :
    s.model.n_past + (s.curr_input_ids.length : Int) =
      generate_start m continuous + (input_ids.length : Int) + (c : Int) := by
  have h1 := h.n_past
  have h2 := h.curr_input_ids
  by_cases hc : c = 0
  · simp only [hc, if_true] at h1 h2
    simp [h1, h2, hc]
  · simp only [hc, if_false] at h1 h2
    rw [h1, h2]
    push_cast
    ring

theorem accounting_step {fam : Family τ ν F} {streamer : Bool}
    {m : BaseModelForConditionalGeneration τ F} {input_ids : List Int}
    {gen_config : GenerationConfig F} {continuous : Bool} {k c : Nat}
    {s s1 : GenerateState τ ν F} (h : Accounting m input_ids gen_config continuous k c s)
    (hc : generate_cond gen_config s = true) (hb : generate_body fam streamer s = some s1) :
    ∃ c1, Accounting m input_ids gen_config continuous (k + 1) c1 s1 := by
  obtain ⟨hab, -, hlt⟩ := (generate_cond_true gen_config s).1 hc
  have hck : c = k := h.running hab
  have hsum := accounting_sum h
  have hit : ((k + 1 : Nat) : Int) ≤
      max 0 (gen_config.max_length - (generate_start m continuous + (input_ids.length : Int))) := by
    apply le_max_of_le_right
    push_cast
    omega
  obtain ⟨lm, tr, fw, t, sampler, -, -, -, -, -, -, hcase⟩ := generate_body_some fam streamer s s1 hb
  rcases hcase with ⟨-, rfl⟩ | ⟨-, rfl⟩
  · refine ⟨c, ?_⟩
    constructor
    · exact h.max_length
    · exact h.terminate_token_id
    · exact h.eos_token_id
    · exact h.batch_input
    · exact h.n_past_offset
    · exact h.seed
    · exact h.logit_scale
    · intro h0; simp at h0
    · intro _; omega
    · exact hit
    · exact h.n_past
    · exact h.curr_input_ids
    · exact h.output_len
  · obtain ⟨f1, f2, f3, f4, f5, f6, f7, f8, f9, f10, f11⟩ :=
      generate_accept_fields fam streamer s
        { s.model with
          transformer := tr
          trace := s.model.trace ++ fw ++ [Event.sampling lm t] } sampler t
    refine ⟨c + 1, ?_⟩
    constructor
    · rw [f2]; exact h.max_length
    · rw [f3]; exact h.terminate_token_id
    · rw [f4]; exact h.eos_token_id
    · rw [f5]; exact h.batch_input
    · rw [f6]; exact h.n_past_offset
    · rw [f7]; exact h.seed
    · rw [f8]; exact h.logit_scale
    · intro _; omega
    · intro h0; rw [f9] at h0; simp [hab] at h0
    · exact hit
    · rw [f1]
      simp only [Nat.succ_ne_zero, if_false]
      push_cast
      linarith
    · simp only [Nat.succ_ne_zero, if_false]
      rw [f10]; rfl
    · have := h.output_len
      omega

/-! ## The emission invariant (default `is_output_terminated`) -/

theorem emission_entry (fam : Family τ ν F) (m : BaseModelForConditionalGeneration τ F)
    (sampler : Sampler ν) (input_ids : List Int) (continuous streamer : Bool) :
    Emission m input_ids streamer [] none
      (generate_entry fam m sampler input_ids continuous) := by
  constructor
  · intro t ht; simp at ht
  · intro t ht; simp at ht
  · exact ⟨[], rfl, rfl, by simp [Event.streamed], rfl⟩
  · simp [generate_entry]
  · simp [generate_entry]
  · simp [generate_entry]
  · simp [generate_entry]
  · rfl
  · rfl

theorem emission_step {fam : Family τ ν F}
    (hfam : fam.is_output_terminated = is_output_terminated) {streamer : Bool}
    {m : BaseModelForConditionalGeneration τ F} {input_ids : List Int} {E : List Int}
    {s s1 : GenerateState τ ν F} {gen_config : GenerationConfig F}
    (h : Emission m input_ids streamer E none s)
    (hc : generate_cond gen_config s = true) (hb : generate_body fam streamer s = some s1) :
    ∃ lm t sampler,
      (generate_next_token fam.transformer s.model s.curr_input_ids).1 = some lm ∧
      Sampler.sampling fam.samplers s.sampler lm = (t, sampler) ∧
      ((t ≠ Sampler.ABORT ∧ t ≠ m.terminate_token_id ∧ t ≠ m.eos_token_id ∧
          Emission m input_ids streamer (E ++ [t]) none s1) ∨
        ((t = Sampler.ABORT ∨ t = m.terminate_token_id ∨ t = m.eos_token_id) ∧
          Emission m input_ids streamer E (some t) s1)) := by
  obtain ⟨hab, hcomp, -⟩ := (generate_cond_true gen_config s).1 hc
  obtain ⟨new, hnew, hsam, hstr, hshift⟩ := h.trace
  obtain ⟨lm, tr, fw, t, sampler, hlm, -, hf1, hf2, hf3, hsamp, hcase⟩ :=
    generate_body_some fam streamer s s1 hb
  have hnext : streamer = true → s.next_output_idx = (s.output_ids.length : Int) := by
    intro hs
    rw [h.next_output_idx, h.output_ids]
    simp [hs]
  refine ⟨lm, t, sampler, hlm, hsamp, ?_⟩
  rcases hcase with ⟨ht, rfl⟩ | ⟨ht, rfl⟩
  · right
    refine ⟨Or.inl ht, ?_⟩
    constructor
    · exact h.emitted
    · intro u hu
      simp only [Option.some.injEq] at hu
      exact Or.inl (hu ▸ ht)
    · refine ⟨new ++ fw ++ [Event.sampling lm t], ?_, ?_, ?_, ?_⟩
      · simp [hnew]
      · simp [Event.sampled_append, hsam, hf1, Event.sampled]
      · simp [Event.streamed_append, hstr, hf2, Event.streamed]
      · simp [Event.shifts_append, hshift, hf3, Event.shifts]
    · exact h.output_ids
    · simp [ht]
    · simp [hcomp, ht]
    · exact h.next_output_idx
    · exact h.terminate_token_id
    · exact h.eos_token_id
  · by_cases hterm : t = s.model.terminate_token_id ∨ t = s.model.eos_token_id
    · right
      have hterm2 : t = m.terminate_token_id ∨ t = m.eos_token_id := by
        rw [← h.terminate_token_id, ← h.eos_token_id]; exact hterm
      refine ⟨Or.inr hterm2, ?_⟩
      rw [generate_accept_stop fam hfam streamer s
        { s.model with
          transformer := tr
          trace := s.model.trace ++ fw ++ [Event.sampling lm t] } sampler t hterm hnext]
      constructor
      · exact h.emitted
      · intro u hu
        simp only [Option.some.injEq] at hu
        exact Or.inr (hu ▸ hterm2)
      · refine ⟨new ++ fw ++ [Event.sampling lm t], ?_, ?_, ?_, ?_⟩
        · simp [hnew]
        · simp [Event.sampled_append, hsam, hf1, Event.sampled]
        · simp [Event.streamed_append, hstr, hf2, Event.streamed]
        · simp [Event.shifts_append, hshift, hf3, Event.shifts]
      · exact h.output_ids
      · simp [hab, ht]
      · simp [ht]
      · exact h.next_output_idx
      · exact h.terminate_token_id
      · exact h.eos_token_id
    · left
      have hterm2 : ¬ (t = m.terminate_token_id ∨ t = m.eos_token_id) := by
        rw [← h.terminate_token_id, ← h.eos_token_id]; exact hterm
      push_neg at hterm2
      refine ⟨ht, hterm2.1, hterm2.2, ?_⟩
      rw [generate_accept_emit fam hfam streamer s
        { s.model with
          transformer := tr
          trace := s.model.trace ++ fw ++ [Event.sampling lm t] } sampler t hterm hnext]
      constructor
      · intro u hu
        rcases List.mem_append.1 hu with hu | hu
        · exact h.emitted u hu
        · simp only [List.mem_singleton] at hu
          subst hu
          exact ⟨ht, hterm2.1, hterm2.2⟩
      · intro u hu; simp at hu
      · refine ⟨new ++ fw ++ [Event.sampling lm t] ++
          (if streamer then [Event.put [t]] else []), ?_, ?_, ?_, ?_⟩
        · simp [hnew]
        · cases streamer <;>
            simp [Event.sampled_append, hsam, hf1, Event.sampled]
        · cases streamer <;>
            simp [Event.streamed_append, hstr, hf2, Event.streamed]
        · cases streamer <;>
            simp [Event.shifts_append, hshift, hf3, Event.shifts]
      · simp [h.output_ids]
      · simp [hab]
      · simp [hcomp]
      · cases streamer
        · simpa using h.next_output_idx
        · have := h.next_output_idx
          simp only [if_true] at this ⊢
          rw [this, List.length_append, List.length_singleton]
          push_cast
          ring
      · exact h.terminate_token_id
      · exact h.eos_token_id

/-! ## Iterating the loop -/

theorem generate_after_succ (fam : Family τ ν F) (gen_config : GenerationConfig F)
    (streamer : Bool) (k : Nat) :
    ∀ (s0 s2 : GenerateState τ ν F),
      generate_after fam gen_config streamer (k + 1) s0 = some s2 ↔
        ∃ s, generate_after fam gen_config streamer k s0 = some s ∧
          generate_cond gen_config s = true ∧ generate_body fam streamer s = some s2 := by
  induction k with
  | zero =>
    intro s0 s2
    simp only [generate_after]
    constructor
    · intro h
      by_cases hc : generate_cond gen_config s0 = true
      · rw [if_pos hc] at h
        cases hb : generate_body fam streamer s0 with
        | none => rw [hb] at h; exact absurd h (by simp)
        | some s1 =>
          rw [hb] at h
          exact ⟨s0, rfl, hc, by rw [hb]; exact h⟩
      · rw [if_neg hc] at h; exact absurd h (by simp)
    · rintro ⟨s, hs, hc, hb⟩
      simp only [Option.some.injEq] at hs
      subst hs
      rw [if_pos hc, hb]
  | succ k ih =>
    intro s0 s2
    rw [generate_after]
    by_cases hc : generate_cond gen_config s0 = true
    · rw [if_pos hc]
      cases hb : generate_body fam streamer s0 with
      | none =>
        constructor
        · intro h; exact absurd h (by simp)
        · rintro ⟨s, hs, -, -⟩
          rw [generate_after, if_pos hc, hb] at hs
          exact absurd hs (by simp)
      | some s1 =>
        simp only []
        rw [ih s1 s2]
        constructor
        · rintro ⟨s, hs, hcs, hbs⟩
          refine ⟨s, ?_, hcs, hbs⟩
          rw [generate_after, if_pos hc, hb]
          exact hs
        · rintro ⟨s, hs, hcs, hbs⟩
          refine ⟨s, ?_, hcs, hbs⟩
          rw [generate_after, if_pos hc, hb] at hs
          exact hs
    · rw [if_neg hc]
      constructor
      · intro h; exact absurd h (by simp)
      · rintro ⟨s, hs, -, -⟩
        rw [generate_after, if_neg hc] at hs
        exact absurd hs (by simp)

/-- After `k` iterations from loop entry the accounting invariant holds. -/
theorem accounting_after (fam : Family τ ν F) (m : BaseModelForConditionalGeneration τ F)
    (sampler : Sampler ν) (input_ids : List Int) (gen_config : GenerationConfig F)
    (continuous streamer : Bool) (k : Nat) :
    ∀ s, generate_after fam gen_config streamer k
        (generate_entry fam m sampler input_ids continuous) = some s →
      ∃ c, Accounting m input_ids gen_config continuous k c s := by
  induction k with
  | zero =>
    intro s hs
    simp only [generate_after, Option.some.injEq] at hs
    subst hs
    exact ⟨0, accounting_entry fam m sampler input_ids gen_config continuous⟩
  | succ k ih =>
    intro s hs
    obtain ⟨sp, hsp, hc, hb⟩ := (generate_after_succ fam gen_config streamer k _ s).1 hs
    obtain ⟨c, hacc⟩ := ih sp hsp
    exact accounting_step hacc hc hb

theorem emission_running {m : BaseModelForConditionalGeneration τ F} {input_ids : List Int}
    {streamer : Bool} {E : List Int} {tail : Option Int} {s : GenerateState τ ν F}
    {gen_config : GenerationConfig F} (hem : Emission m input_ids streamer E tail s)
    (hc : generate_cond gen_config s = true) : tail = none := by
  obtain ⟨hab, hcomp, -⟩ := (generate_cond_true gen_config s).1 hc
  cases tail with
  | none => rfl
  | some u =>
    exfalso
    by_cases hu : u = Sampler.ABORT
    · have := hem.aborted.2 (by rw [hu])
      rw [hab] at this
      exact absurd this (by simp)
    · have := hem.completed.2 ⟨u, rfl, hu⟩
      rw [hcomp] at this
      exact absurd this (by simp)

/-- After `k` iterations from loop entry, under the default
`is_output_terminated`, the emission invariant holds for `k` sampled tokens. -/
theorem emission_after (fam : Family τ ν F)
    (hfam : fam.is_output_terminated = is_output_terminated)
    (m : BaseModelForConditionalGeneration τ F)
    (sampler : Sampler ν) (input_ids : List Int) (gen_config : GenerationConfig F)
    (continuous streamer : Bool) (k : Nat) :
    ∀ s, generate_after fam gen_config streamer k
        (generate_entry fam m sampler input_ids continuous) = some s →
      ∃ E tail, Emission m input_ids streamer E tail s ∧
        E.length + tail.toList.length = k := by
  induction k with
  | zero =>
    intro s hs
    simp only [generate_after, Option.some.injEq] at hs
    subst hs
    exact ⟨[], none, emission_entry fam m sampler input_ids continuous streamer, rfl⟩
  | succ k ih =>
    intro s hs
    obtain ⟨sp, hsp, hc, hb⟩ := (generate_after_succ fam gen_config streamer k _ s).1 hs
    obtain ⟨E, tail, hem, hlen⟩ := ih sp hsp
    have htail := emission_running hem hc
    subst htail
    obtain ⟨lm, t, sampler1, -, -, hcase⟩ := emission_step hfam hem hc hb
    rcases hcase with ⟨-, -, -, h1⟩ | ⟨-, h1⟩
    · exact ⟨E ++ [t], none, h1, by simp at hlen ⊢; omega⟩
    · exact ⟨E, some t, h1, by simp at hlen ⊢; omega⟩

theorem generate_loop_after (fam : Family τ ν F) (gen_config : GenerationConfig F)
    (streamer : Bool) (fuel : Nat) :
    ∀ (s0 s : GenerateState τ ν F),
      generate_loop fam gen_config streamer fuel s0 = some s →
        ∃ k, k ≤ fuel ∧ generate_after fam gen_config streamer k s0 = some s ∧
          (generate_cond gen_config s = false ∨ k = fuel) := by
  induction fuel with
  | zero =>
    intro s0 s h
    simp only [generate_loop, Option.some.injEq] at h
    subst h
    exact ⟨0, le_refl _, rfl, Or.inr rfl⟩
  | succ fuel ih =>
    intro s0 s h
    rw [generate_loop] at h
    by_cases hc : generate_cond gen_config s0 = true
    · rw [if_pos hc] at h
      cases hb : generate_body fam streamer s0 with
      | none => rw [hb] at h; exact absurd h (by simp)
      | some s1 =>
        rw [hb] at h
        obtain ⟨k, hk, hafter, hexit⟩ := ih s1 s h
        refine ⟨k + 1, by omega, ?_, ?_⟩
        · rw [generate_after, if_pos hc, hb]; exact hafter
        · rcases hexit with h1 | h1
          · exact Or.inl h1
          · exact Or.inr (by omega)
    · rw [if_neg hc] at h
      simp only [Option.some.injEq] at h
      subst h
      exact ⟨0, by omega, rfl, Or.inl (by simpa using hc)⟩

theorem generate_loop_of_after (fam : Family τ ν F) (gen_config : GenerationConfig F)
    (streamer : Bool) (k : Nat) :
    ∀ (fuel : Nat) (s0 s : GenerateState τ ν F),
      generate_after fam gen_config streamer k s0 = some s →
        generate_cond gen_config s = false → k ≤ fuel →
          generate_loop fam gen_config streamer fuel s0 = some s := by
  induction k with
  | zero =>
    intro fuel s0 s h hc _
    simp only [generate_after, Option.some.injEq] at h
    subst h
    cases fuel with
    | zero => rfl
    | succ fuel => rw [generate_loop]; simp [hc]
  | succ k ih =>
    intro fuel s0 s h hc hk
    rw [generate_after] at h
    by_cases hc0 : generate_cond gen_config s0 = true
    · rw [if_pos hc0] at h
      cases hb : generate_body fam streamer s0 with
      | none => rw [hb] at h; exact absurd h (by simp)
      | some s1 =>
        rw [hb] at h
        cases fuel with
        | zero => omega
        | succ fuel =>
          rw [generate_loop, if_pos hc0, hb]
          exact ih fuel s1 s h hc (by omega)
    · rw [if_neg hc0] at h; exact absurd h (by simp)

/-! ## `generate` as a whole -/

theorem generate_fuel_entry (fam : Family τ ν F) (m : BaseModelForConditionalGeneration τ F)
    (sampler : Sampler ν) (input_ids : List Int) (gen_config : GenerationConfig F)
    (continuous : Bool) :
    generate_fuel gen_config (generate_entry fam m sampler input_ids continuous) =
      (gen_config.max_length -
        (generate_start m continuous + (input_ids.length : Int))).toNat := rfl

theorem accounting_le_fuel {m : BaseModelForConditionalGeneration τ F} {input_ids : List Int}
    {gen_config : GenerationConfig F} {continuous : Bool} {k c : Nat}
    {s : GenerateState τ ν F} (h : Accounting m input_ids gen_config continuous k c s) :
    k ≤ (gen_config.max_length -
      (generate_start m continuous + (input_ids.length : Int))).toNat := by
  have := h.iterations
  rcases le_max_iff.1 this with h0 | h1
  · omega
  · omega

theorem accounting_lt_fuel {m : BaseModelForConditionalGeneration τ F} {input_ids : List Int}
    {gen_config : GenerationConfig F} {continuous : Bool} {k c : Nat}
    {s : GenerateState τ ν F} (h : Accounting m input_ids gen_config continuous k c s)
    (hc : generate_cond gen_config s = true) :
    k < (gen_config.max_length -
      (generate_start m continuous + (input_ids.length : Int))).toNat := by
  obtain ⟨hab, -, hlt⟩ := (generate_cond_true gen_config s).1 hc
  have hck : c = k := h.running hab
  have hsum := accounting_sum h
  omega

/-- A call of `generate` that returns passed the checks and ran the loop for
some number `k` of iterations, up to a state in which the loop condition is
false. -/
theorem generate_returned (fam : Family τ ν F) (m m1 : BaseModelForConditionalGeneration τ F)
    (input_ids out : List Int) (gen_config : GenerationConfig F)
    (continuous streamer comp : Bool)
    (h : generate fam m input_ids gen_config continuous streamer =
      Outcome.returned (out, comp) m1) :
    gen_config.max_length ≤ m.max_length ∧ 0 ≤ gen_config.max_length ∧
      ∃ sampler k s,
        SamplerFactory.Create fam.samplers gen_config m._seed = Except.ok sampler ∧
        generate_after fam gen_config streamer k
          (generate_entry fam m sampler input_ids continuous) = some s ∧
        generate_cond gen_config s = false ∧
        out = s.output_ids ∧
        comp = (if s.model.aborted && !s.completed then true else s.completed) ∧
        m1 = s.model := by
  unfold generate at h
  by_cases hmax : gen_config.max_length ≤ m.max_length
  · rw [if_pos hmax] at h
    by_cases hneg : gen_config.max_length < 0
    · cases hcr : SamplerFactory.Create fam.samplers gen_config m._seed with
      | error msg => rw [hcr] at h; exact absurd h (by simp)
      | ok sampler => rw [hcr] at h; simp only [hneg, if_true] at h; exact absurd h (by simp)
    refine ⟨hmax, not_lt.1 hneg, ?_⟩
    cases hcr : SamplerFactory.Create fam.samplers gen_config m._seed with
    | error msg => rw [hcr] at h; exact absurd h (by simp)
    | ok sampler =>
      rw [hcr] at h
      simp only [hneg, if_false] at h
      cases hl : generate_loop fam gen_config streamer
          (generate_fuel gen_config (generate_entry fam m sampler input_ids continuous))
          (generate_entry fam m sampler input_ids continuous) with
      | none => rw [hl] at h; exact absurd h (by simp)
      | some s =>
        rw [hl] at h
        simp only [Outcome.returned.injEq, Prod.mk.injEq] at h
        obtain ⟨k, -, hafter, hexit⟩ := generate_loop_after fam gen_config streamer _ _ s hl
        refine ⟨sampler, k, s, rfl, hafter, ?_, h.1.1.symm, h.1.2.symm, h.2.symm⟩
        rcases hexit with h1 | h1
        · exact h1
        · obtain ⟨c, hacc⟩ :=
            accounting_after fam m sampler input_ids gen_config continuous streamer k s hafter
          by_contra hc
          have hlt := accounting_lt_fuel hacc (by simpa using hc)
          rw [generate_fuel_entry] at h1
          omega
  · rw [if_neg hmax] at h
    exact absurd h (by simp)

/-- Conversely, once nothing throws before the loop, a state reached by
iterating the loop in which the loop condition is false is the state `generate`
returns from. -/
theorem generate_of_after (fam : Family τ ν F) (m : BaseModelForConditionalGeneration τ F)
    (input_ids : List Int) (gen_config : GenerationConfig F)
    (continuous streamer : Bool) (sampler : Sampler ν) (k : Nat) (s : GenerateState τ ν F)
    (hmax : gen_config.max_length ≤ m.max_length) (h0 : 0 ≤ gen_config.max_length)
    (hcr : SamplerFactory.Create fam.samplers gen_config m._seed = Except.ok sampler)
    (hafter : generate_after fam gen_config streamer k
      (generate_entry fam m sampler input_ids continuous) = some s)
    (hc : generate_cond gen_config s = false) :
    generate fam m input_ids gen_config continuous streamer =
      Outcome.returned
        (s.output_ids, if s.model.aborted && !s.completed then true else s.completed)
        s.model := by
  obtain ⟨c, hacc⟩ :=
    accounting_after fam m sampler input_ids gen_config continuous streamer k s hafter
  have hk := accounting_le_fuel hacc
  have hl := generate_loop_of_after fam gen_config streamer k
    (generate_fuel gen_config (generate_entry fam m sampler input_ids continuous)) _ s
    hafter hc (by rw [generate_fuel_entry]; exact hk)
  unfold generate
  rw [if_pos hmax, hcr]
  simp only [not_lt.2 h0, if_false]
  rw [hl]

/-- A call that throws leaves the engine as it found it, except that
`aborted` has been reset when the throw comes from `reserve`. -/
theorem generate_raised_state (fam : Family τ ν F)
    (m m1 : BaseModelForConditionalGeneration τ F) (input_ids : List Int)
    (gen_config : GenerationConfig F) (continuous streamer : Bool) (msg : String)
    (h : generate fam m input_ids gen_config continuous streamer = Outcome.raised msg m1) :
    m1 = m ∨ (gen_config.max_length < 0 ∧ m1 = { m with aborted := false }) := by
  unfold generate at h
  split at h
  · split at h
    · simp only [Outcome.raised.injEq] at h
      exact Or.inl h.2.symm
    · simp only [] at h
      split at h
      · rename_i hneg
        simp only [Outcome.raised.injEq] at h
        exact Or.inr ⟨hneg, h.2.symm⟩
      · split at h
        · exact absurd h (by simp)
        · exact absurd h (by simp)
  · simp only [Outcome.raised.injEq] at h
    exact Or.inl h.2.symm

theorem SamplerFactory_Create_error (N : NonGreedySampler ν F)
    (gen_config : GenerationConfig F) (seed : Int) :
    (∃ msg, SamplerFactory.Create N gen_config seed = Except.error msg) ↔
      (gen_config.do_sample = true ∧ gen_config.sampling ≠ "top_p" ∧
        gen_config.sampling ≠ "tfs" ∧ gen_config.sampling ≠ "greedy") := by
  unfold SamplerFactory.Create
  by_cases h0 : gen_config.do_sample = true
  · by_cases h1 : gen_config.sampling = "top_p"
    · simp [h0, h1]
    · by_cases h2 : gen_config.sampling = "tfs"
      · simp [h0, h2]
      · by_cases h3 : gen_config.sampling = "greedy"
        · simp [h0, h3]
        · simp [h0, h1, h2, h3]
  · simp [h0]

/-- Which throw leaves what: the two checks leave the engine untouched, the
throw from `reserve` comes after `aborted = false`. -/
theorem generate_raised_cause (fam : Family τ ν F)
    (m m1 : BaseModelForConditionalGeneration τ F) (input_ids : List Int)
    (gen_config : GenerationConfig F) (continuous streamer : Bool) (msg : String)
    (h : generate fam m input_ids gen_config continuous streamer = Outcome.raised msg m1) :
    ((gen_config.max_length > m.max_length ∨
        (gen_config.do_sample = true ∧ gen_config.sampling ≠ "top_p" ∧
          gen_config.sampling ≠ "tfs" ∧ gen_config.sampling ≠ "greedy")) → m1 = m) ∧
      (gen_config.max_length ≤ m.max_length →
        ¬ (gen_config.do_sample = true ∧ gen_config.sampling ≠ "top_p" ∧
          gen_config.sampling ≠ "tfs" ∧ gen_config.sampling ≠ "greedy") →
        m1 = { m with aborted := false }) := by
  rw [← SamplerFactory_Create_error fam.samplers gen_config m._seed]
  unfold generate at h
  by_cases hmax : gen_config.max_length ≤ m.max_length
  · rw [if_pos hmax] at h
    cases hcr : SamplerFactory.Create fam.samplers gen_config m._seed with
    | error e =>
      rw [hcr] at h
      simp only [Outcome.raised.injEq] at h
      exact ⟨fun _ => h.2.symm, fun _ hn => absurd ⟨e, rfl⟩ hn⟩
    | ok sampler =>
      rw [hcr] at h
      simp only [] at h
      by_cases hneg : gen_config.max_length < 0
      · rw [if_pos hneg] at h
        simp only [Outcome.raised.injEq] at h
        refine ⟨?_, fun _ _ => h.2.symm⟩
        rintro (hgt | ⟨e, he⟩)
        · exact absurd hgt (not_lt.2 hmax)
        · cases he
      · rw [if_neg hneg] at h
        split at h
        · exact absurd h (by simp)
        · exact absurd h (by simp)
  · rw [if_neg hmax] at h
    simp only [Outcome.raised.injEq] at h
    exact ⟨fun _ => h.2.symm, fun hle => absurd hle hmax⟩

theorem generate_loop_none (fam : Family τ ν F) (gen_config : GenerationConfig F)
    (streamer : Bool) (fuel : Nat) :
    ∀ (s0 : GenerateState τ ν F),
      generate_loop fam gen_config streamer fuel s0 = none →
        ∃ k sp, generate_after fam gen_config streamer k s0 = some sp ∧
          generate_cond gen_config sp = true ∧ generate_body fam streamer sp = none := by
  induction fuel with
  | zero => intro s0 h; simp [generate_loop] at h
  | succ fuel ih =>
    intro s0 h
    rw [generate_loop] at h
    by_cases hc : generate_cond gen_config s0 = true
    · rw [if_pos hc] at h
      cases hb : generate_body fam streamer s0 with
      | none => exact ⟨0, s0, rfl, hc, hb⟩
      | some s1 =>
        rw [hb] at h
        obtain ⟨k, sp, hafter, hcs, hbs⟩ := ih s1 h
        refine ⟨k + 1, sp, ?_, hcs, hbs⟩
        rw [generate_after, if_pos hc, hb]
        exact hafter
    · rw [if_neg hc] at h
      exact absurd h (by simp)

/-- The behaviour of `generate` is undefined in exactly one case: nothing
throws before the loop, the forward pass is incremental (`batch_input` false),
the prompt is empty and the loop is entered, so that the null `lm_logits` is
dereferenced. -/
theorem generate_undefined_iff (fam : Family τ ν F)
    (m : BaseModelForConditionalGeneration τ F) (input_ids : List Int)
    (gen_config : GenerationConfig F) (continuous streamer : Bool) :
    generate fam m input_ids gen_config continuous streamer = Outcome.undefined ↔
      gen_config.max_length ≤ m.max_length ∧ 0 ≤ gen_config.max_length ∧
      (∃ sampler, SamplerFactory.Create fam.samplers gen_config m._seed = Except.ok sampler) ∧
      m.batch_input = false ∧ input_ids = [] ∧
      generate_start m continuous < gen_config.max_length := by
  unfold generate
  by_cases hmax : gen_config.max_length ≤ m.max_length
  · rw [if_pos hmax]
    cases hcr : SamplerFactory.Create fam.samplers gen_config m._seed with
    | error msg => simp
    | ok sampler =>
      by_cases hneg : gen_config.max_length < 0
      · simp [hneg]
      simp only [hneg, if_false]
      constructor
      · intro h
        cases hl : generate_loop fam gen_config streamer
            (generate_fuel gen_config (generate_entry fam m sampler input_ids continuous))
            (generate_entry fam m sampler input_ids continuous) with
        | some s => rw [hl] at h; exact absurd h (by simp)
        | none =>
          obtain ⟨k, sp, hafter, hc, hb⟩ := generate_loop_none fam gen_config streamer _ _ hl
          obtain ⟨c, hacc⟩ :=
            accounting_after fam m sampler input_ids gen_config continuous streamer k sp hafter
          obtain ⟨hab, -, hlt⟩ := (generate_cond_true gen_config sp).1 hc
          obtain ⟨hbatch, hcurr⟩ := (generate_body_none fam streamer sp).1 hb
          have hc0 : c = 0 := by
            by_contra hne
            have := hacc.curr_input_ids
            simp only [hne, if_false, hcurr, List.length_nil] at this
            exact absurd this (by simp)
          have hin := hacc.curr_input_ids
          simp only [hc0, if_true] at hin
          have hsum := accounting_sum hacc
          refine ⟨hmax, not_lt.1 hneg, ⟨sampler, rfl⟩, ?_, ?_, ?_⟩
          · rw [← hacc.batch_input]; exact hbatch
          · rw [← hin]; exact hcurr
          · rw [hc0] at hsum
            rw [← hin, hcurr] at hsum
            simp only [List.length_nil, Nat.cast_zero, add_zero] at hsum hlt
            omega
      · rintro ⟨-, -, -, hbatch, hin, hlt⟩
        have hc : generate_cond gen_config
            (generate_entry fam m sampler input_ids continuous) = true := by
          rw [generate_cond_true]
          refine ⟨rfl, rfl, ?_⟩
          simp only [generate_entry, hin, List.length_nil, Nat.cast_zero, add_zero]
          exact hlt
        have hb : generate_body fam streamer
            (generate_entry fam m sampler input_ids continuous) = none :=
          (generate_body_none fam streamer _).2 ⟨hbatch, hin⟩
        have hfuel : ∃ f, generate_fuel gen_config
            (generate_entry fam m sampler input_ids continuous) = f + 1 := by
          rw [generate_fuel_entry, hin]
          simp only [List.length_nil, Nat.cast_zero, add_zero]
          exact ⟨(gen_config.max_length - generate_start m continuous).toNat - 1, by omega⟩
        obtain ⟨f, hf⟩ := hfuel
        rw [hf, generate_loop, if_pos hc, hb]
  · rw [if_neg hmax]
    simp [hmax]

/-! ## The claims -/

/-- C1. Under the default `is_output_terminated`, the `output_ids` a call of
`generate` returns (continuous or not) is at least as long as `input_ids` and
starts with `input_ids`. -/
theorem generate_output_extends_input (fam : Family τ ν F)
    (hfam : fam.is_output_terminated = is_output_terminated)
    (m m1 : BaseModelForConditionalGeneration τ F) (input_ids out : List Int)
    (gen_config : GenerationConfig F) (continuous streamer comp : Bool)
    (h : generate fam m input_ids gen_config continuous streamer =
      Outcome.returned (out, comp) m1) :
    input_ids.length ≤ out.length ∧ out.take input_ids.length = input_ids := by
  obtain ⟨-, -, sampler, k, s, -, hafter, -, hout, -, -⟩ :=
    generate_returned fam m m1 input_ids out gen_config continuous streamer comp h
  obtain ⟨E, tail, hem, -⟩ :=
    emission_after fam hfam m sampler input_ids gen_config continuous streamer k s hafter
  rw [hout, hem.output_ids]
  simp

/-- C1, evaluated: a prompt `[1, 2]`, a sampler that yields `7`, `8` and then
aborts. -/
theorem generate_output_extends_input_witness :
    generate (toy.family [1, 5, 3, 2, 1] [7, 8]) (toy.model 10 0 (-10)) [1, 2]
        (toy.config 10 true "top_p") false true =
      Outcome.returned ([1, 2, 7, 8], true) toy.scripted_final ∧
    ([1, 2] : List Int).length ≤ ([1, 2, 7, 8] : List Int).length ∧
      ([1, 2, 7, 8] : List Int).take ([1, 2] : List Int).length = [1, 2] :=
  ⟨by decide,
    generate_output_extends_input (toy.family [1, 5, 3, 2, 1] [7, 8]) rfl (toy.model 10 0 (-10))
      toy.scripted_final [1, 2] [1, 2, 7, 8] (toy.config 10 true "top_p") false true true
      (by decide)⟩

/-- C2. With a streamer and the default `is_output_terminated`, the calls of
`streamer->put` made by a returning `generate` carry one token each, and in call
order they are exactly the entries of the returned `output_ids` after the first
`len(input_ids)`; these are, in the same order, the first tokens the sampler
returned in this call. -/
theorem generate_streams_emitted (fam : Family τ ν F)
    (hfam : fam.is_output_terminated = is_output_terminated)
    (m m1 : BaseModelForConditionalGeneration τ F) (input_ids out : List Int)
    (gen_config : GenerationConfig F) (continuous comp : Bool)
    (h : generate fam m input_ids gen_config continuous true =
      Outcome.returned (out, comp) m1) :
    ∃ new rest, m1.trace = m.trace ++ new ∧
      Event.streamed new = (out.drop input_ids.length).map (fun t => [t]) ∧
      Event.sampled new = out.drop input_ids.length ++ rest := by
  obtain ⟨-, -, sampler, k, s, -, hafter, -, hout, -, hm1⟩ :=
    generate_returned fam m m1 input_ids out gen_config continuous true comp h
  obtain ⟨E, tail, hem, -⟩ :=
    emission_after fam hfam m sampler input_ids gen_config continuous true k s hafter
  obtain ⟨new, hnew, hsam, hstr, -⟩ := hem.trace
  refine ⟨Event.set_ctx (input_ids.length : Int) :: new, tail.toList, ?_, ?_, ?_⟩
  · rw [hm1, hnew]
  · rw [hout, hem.output_ids]
    simpa [Event.streamed] using hstr
  · rw [hout, hem.output_ids]
    simpa [Event.sampled] using hsam

/-- C2, evaluated: prompt `[1]`, cap `4`, greedy sampling over logits whose
largest entry is at index `1`. -/
theorem generate_streams_emitted_witness :
    generate (toy.family [1, 5, 3, 2, 1] []) (toy.model 10 0 (-10)) [1]
        (toy.config 4 false "greedy") false true =
      Outcome.returned ([1, 1, 1, 1], false) toy.capped_final ∧
    ∃ new rest, toy.capped_final.trace = (toy.model 10 0 (-10)).trace ++ new ∧
      Event.streamed new = (([1, 1, 1, 1] : List Int).drop 1).map (fun t => [t]) ∧
      Event.sampled new = ([1, 1, 1, 1] : List Int).drop 1 ++ rest :=
  ⟨by decide,
    generate_streams_emitted (toy.family [1, 5, 3, 2, 1] []) rfl (toy.model 10 0 (-10))
      toy.capped_final [1] [1, 1, 1, 1] (toy.config 4 false "greedy") false false (by decide)⟩

/-! ### Stopping -/

theorem emission_stopped {m : BaseModelForConditionalGeneration τ F} {input_ids : List Int}
    {streamer : Bool} {E : List Int} {t : Int} {s : GenerateState τ ν F}
    (gen_config : GenerationConfig F) (hem : Emission m input_ids streamer E (some t) s) :
    generate_cond gen_config s = false ∧
      (if s.model.aborted && !s.completed then true else s.completed) = true := by
  by_cases hu : t = Sampler.ABORT
  · have h1 := hem.aborted.2 (by rw [hu])
    have h2 : s.completed = false := by
      by_contra hcomp
      obtain ⟨u, hu1, hu2⟩ := hem.completed.1 (by simpa using hcomp)
      simp only [Option.some.injEq] at hu1
      exact hu2 (hu1 ▸ hu)
    simp [generate_cond, h1, h2]
  · have h2 := hem.completed.2 ⟨t, rfl, hu⟩
    simp [generate_cond, h2]

/-- The iteration in which the sampler returns `ABORT` or a terminator is the
last one: `generate` returns what `output_ids` held before it, with
`completed = true`. -/
theorem generate_stop (fam : Family τ ν F)
    (hfam : fam.is_output_terminated = is_output_terminated)
    (m : BaseModelForConditionalGeneration τ F) (input_ids : List Int)
    (gen_config : GenerationConfig F) (continuous streamer : Bool)
    (sampler : Sampler ν) (k : Nat) (sp : GenerateState τ ν F) (lm : List F)
    (hmax : gen_config.max_length ≤ m.max_length) (h0 : 0 ≤ gen_config.max_length)
    (hcr : SamplerFactory.Create fam.samplers gen_config m._seed = Except.ok sampler)
    (hafter : generate_after fam gen_config streamer k
      (generate_entry fam m sampler input_ids continuous) = some sp)
    (hcond : generate_cond gen_config sp = true)
    (hlm : (generate_next_token fam.transformer sp.model sp.curr_input_ids).1 = some lm)
    (hbad : (Sampler.sampling fam.samplers sp.sampler lm).1 = Sampler.ABORT ∨
      (Sampler.sampling fam.samplers sp.sampler lm).1 = m.terminate_token_id ∨
      (Sampler.sampling fam.samplers sp.sampler lm).1 = m.eos_token_id) :
    ∃ m1, generate fam m input_ids gen_config continuous streamer =
        Outcome.returned (sp.output_ids, true) m1 ∧
      Event.streamed m1.trace = Event.streamed sp.model.trace ∧
      Event.sampled m1.trace =
        Event.sampled sp.model.trace ++ [(Sampler.sampling fam.samplers sp.sampler lm).1] := by
  obtain ⟨E, tail, hem, -⟩ :=
    emission_after fam hfam m sampler input_ids gen_config continuous streamer k sp hafter
  have htail := emission_running hem hcond
  subst htail
  have hsome : ∃ s1, generate_body fam streamer sp = some s1 := by
    cases hb : generate_body fam streamer sp with
    | none =>
      have := (generate_body_none fam streamer sp).1 hb
      have h2 := (generate_next_token_none fam.transformer sp.model sp.curr_input_ids).2 this
      rw [hlm] at h2
      exact absurd h2 (by simp)
    | some s1 => exact ⟨s1, rfl⟩
  obtain ⟨s1, hb⟩ := hsome
  obtain ⟨lm1, t, sampler1, hlm1, hsamp, hcase⟩ := emission_step hfam hem hcond hb
  have hlmeq : lm1 = lm := by
    rw [hlm] at hlm1
    simpa using hlm1.symm
  subst hlmeq
  have ht : (Sampler.sampling fam.samplers sp.sampler lm1).1 = t := by rw [hsamp]
  rw [ht] at hbad ⊢
  rcases hcase with ⟨h1, h2, h3, -⟩ | ⟨-, hem1⟩
  · rcases hbad with hb1 | hb1 | hb1
    · exact absurd hb1 h1
    · exact absurd hb1 h2
    · exact absurd hb1 h3
  · obtain ⟨hc1, hcomp1⟩ := emission_stopped gen_config hem1
    have hafter1 : generate_after fam gen_config streamer (k + 1)
        (generate_entry fam m sampler input_ids continuous) = some s1 :=
      (generate_after_succ fam gen_config streamer k _ s1).2 ⟨sp, hafter, hcond, hb⟩
    have hgen := generate_of_after fam m input_ids gen_config continuous streamer sampler
      (k + 1) s1 hmax h0 hcr hafter1 hc1
    rw [hcomp1, hem1.output_ids, ← hem.output_ids] at hgen
    obtain ⟨new, hnew, hsam, hstr, -⟩ := hem.trace
    obtain ⟨new1, hnew1, hsam1, hstr1, -⟩ := hem1.trace
    refine ⟨s1.model, hgen, ?_, ?_⟩
    · rw [hnew, hnew1, Event.streamed_append, Event.streamed_append]
      simp [Event.streamed, hstr, hstr1]
    · rw [hnew, hnew1, Event.sampled_append, Event.sampled_append]
      simp [Event.sampled, hsam, hsam1]

/-- C3. Under the default `is_output_terminated`: (1) if, in a call that got
past the checks and `reserve`, in the iteration after `k` completed ones, the
sampler returns `eos_token_id` or `terminate_token_id`,
then `generate` returns with `completed = true`, its `output_ids` is what it was
before that iteration, nothing more is streamed, and that token is the last one
sampled; (2) no entry of a returned `output_ids` after the prompt equals
`eos_token_id` or `terminate_token_id`. -/
theorem generate_terminator_stops (fam : Family τ ν F)
    (hfam : fam.is_output_terminated = is_output_terminated)
    (m : BaseModelForConditionalGeneration τ F) (input_ids : List Int)
    (gen_config : GenerationConfig F) (continuous streamer : Bool) :
    (∀ (sampler : Sampler ν) (k : Nat) (sp : GenerateState τ ν F) (lm : List F),
      gen_config.max_length ≤ m.max_length → 0 ≤ gen_config.max_length →
      SamplerFactory.Create fam.samplers gen_config m._seed = Except.ok sampler →
      generate_after fam gen_config streamer k
        (generate_entry fam m sampler input_ids continuous) = some sp →
      generate_cond gen_config sp = true →
      (generate_next_token fam.transformer sp.model sp.curr_input_ids).1 = some lm →
      ((Sampler.sampling fam.samplers sp.sampler lm).1 = m.eos_token_id ∨
        (Sampler.sampling fam.samplers sp.sampler lm).1 = m.terminate_token_id) →
      ∃ m1, generate fam m input_ids gen_config continuous streamer =
          Outcome.returned (sp.output_ids, true) m1 ∧
        Event.streamed m1.trace = Event.streamed sp.model.trace ∧
        Event.sampled m1.trace =
          Event.sampled sp.model.trace ++ [(Sampler.sampling fam.samplers sp.sampler lm).1]) ∧
    (∀ (out : List Int) (comp : Bool) (m1 : BaseModelForConditionalGeneration τ F),
      generate fam m input_ids gen_config continuous streamer =
        Outcome.returned (out, comp) m1 →
      ∀ x ∈ out.drop input_ids.length, x ≠ m.eos_token_id ∧ x ≠ m.terminate_token_id) := by
  constructor
  · intro sampler k sp lm hmax h0 hcr hafter hcond hlm hterm
    exact generate_stop fam hfam m input_ids gen_config continuous streamer sampler k sp lm
      hmax h0 hcr hafter hcond hlm (by tauto)
  · intro out comp m1 h x hx
    obtain ⟨-, -, sampler, k, s, -, hafter, -, hout, -, -⟩ :=
      generate_returned fam m m1 input_ids out gen_config continuous streamer comp h
    obtain ⟨E, tail, hem, -⟩ :=
      emission_after fam hfam m sampler input_ids gen_config continuous streamer k s hafter
    rw [hout, hem.output_ids] at hx
    simp only [List.drop_left] at hx
    have := hem.emitted x hx
    exact ⟨this.2.2, this.2.1⟩

/-- C3, evaluated (scenario "greedy EOS stop"): greedy sampling, logits
`[1, 2, 3, 4, 5]` at every step, `eos_token_id = 4`, input `[0]`: `generate`
returns `[0]` with `completed = true`, `aborted = false`, nothing streamed. -/
theorem generate_terminator_stops_witness :
    (generate (toy.family [1, 2, 3, 4, 5] []) (toy.model 10 4 (-10)) [0]
        (toy.config 10 false "greedy") false true =
      Outcome.returned ([0], true) toy.eos_final ∧
      toy.eos_final.aborted = false ∧ Event.streamed toy.eos_final.trace = []) ∧
    (∃ m1, generate (toy.family [1, 2, 3, 4, 5] []) (toy.model 10 4 (-10)) [0]
        (toy.config 10 false "greedy") false true = Outcome.returned ([0], true) m1 ∧
      Event.streamed m1.trace = [] ∧ Event.sampled m1.trace = [4]) :=
  ⟨by decide,
    (generate_terminator_stops (toy.family [1, 2, 3, 4, 5] []) rfl (toy.model 10 4 (-10)) [0]
      (toy.config 10 false "greedy") false true).1 Sampler.Greedy 0
      (generate_entry (toy.family [1, 2, 3, 4, 5] []) (toy.model 10 4 (-10)) Sampler.Greedy
        [0] false)
      [1, 2, 3, 4, 5] (by decide) (by decide) rfl rfl (by decide) rfl (by decide)⟩

/-! ### The cap on emitted tokens -/

/-- C4. For every returning call of `generate` (any family), the number of
emitted tokens `len(output_ids) - len(input_ids)` is at most
`max(0, gen_config.max_length - (n0 + len(input_ids)))`, where `n0` is `0` for a
non-continuous call and the retained `n_past` for a continuous one; under the
default `is_output_terminated`, when no token sampled in the call is `ABORT` or
a terminator, it is equal to that bound. -/
theorem generate_emitted_count (fam : Family τ ν F)
    (m m1 : BaseModelForConditionalGeneration τ F) (input_ids out : List Int)
    (gen_config : GenerationConfig F) (continuous streamer comp : Bool)
    (h : generate fam m input_ids gen_config continuous streamer =
      Outcome.returned (out, comp) m1) :
    (out.length : Int) - (input_ids.length : Int) ≤
        max 0 (gen_config.max_length - (generate_start m continuous + (input_ids.length : Int))) ∧
      (fam.is_output_terminated = is_output_terminated →
        (∀ new, m1.trace = m.trace ++ new → ∀ t ∈ Event.sampled new,
          t ≠ Sampler.ABORT ∧ t ≠ m.eos_token_id ∧ t ≠ m.terminate_token_id) →
        (out.length : Int) - (input_ids.length : Int) =
          max 0 (gen_config.max_length -
            (generate_start m continuous + (input_ids.length : Int)))) := by
  obtain ⟨-, -, sampler, k, s, -, hafter, hexit, hout, -, hm1⟩ :=
    generate_returned fam m m1 input_ids out gen_config continuous streamer comp h
  obtain ⟨c, hacc⟩ :=
    accounting_after fam m sampler input_ids gen_config continuous streamer k s hafter
  have hck : c ≤ k := by
    cases hab : s.model.aborted with
    | false => exact le_of_eq (hacc.running hab)
    | true => have := hacc.stopped hab; omega
  have hit := hacc.iterations
  have hlen := hacc.output_len
  constructor
  · rw [hout]
    have h1 : ((s.output_ids.length : Int) - (input_ids.length : Int)) ≤ (k : Int) := by omega
    exact le_trans h1 hit
  · intro hfam hgood
    obtain ⟨E, tail, hem, hk⟩ :=
      emission_after fam hfam m sampler input_ids gen_config continuous streamer k s hafter
    obtain ⟨new, hnew, hsam, -, -⟩ := hem.trace
    have htail : tail = none := by
      cases tail with
      | none => rfl
      | some u =>
        exfalso
        have hu := hgood (Event.set_ctx (input_ids.length : Int) :: new) (by rw [hm1, hnew]) u
          (by simp [Event.sampled, hsam])
        rcases hem.stop u rfl with h1 | h1 | h1
        · exact hu.1 h1
        · exact hu.2.2 h1
        · exact hu.2.1 h1
    subst htail
    have hab : s.model.aborted = false := by
      by_contra hne
      have := hem.aborted.1 (by simpa using hne)
      exact absurd this (by simp)
    have hcomp : s.completed = false := by
      by_contra hne
      obtain ⟨u, hu, -⟩ := hem.completed.1 (by simpa using hne)
      exact absurd hu (by simp)
    have hge : gen_config.max_length ≤ s.model.n_past + (s.curr_input_ids.length : Int) := by
      by_contra hlt
      have : generate_cond gen_config s = true :=
        (generate_cond_true gen_config s).2 ⟨hab, hcomp, by omega⟩
      rw [hexit] at this
      exact absurd this (by simp)
    have hsum := accounting_sum hacc
    have hc : c = k := hacc.running hab
    have hE : (out.length : Int) - (input_ids.length : Int) = (k : Int) := by
      rw [hout, hem.output_ids, List.length_append]
      simp only [Option.toList, List.length_nil, add_zero] at hk
      push_cast
      omega
    rw [hE]
    apply le_antisymm hit
    apply max_le
    · omega
    · omega

/-- C4, evaluated (scenario "max-length cap"): non-continuous, input `[1]`,
`max_length = 4`, a model whose argmax is always `1` (not eos): `generate`
returns `[1, 1, 1, 1]` and streams `[1]`, `[1]`, `[1]`. -/
theorem generate_emitted_count_witness :
    (generate (toy.family [1, 5, 3, 2, 1] []) (toy.model 10 0 (-10)) [1]
        (toy.config 4 false "greedy") false true =
      Outcome.returned ([1, 1, 1, 1], false) toy.capped_final ∧
      Event.streamed toy.capped_final.trace = [[1], [1], [1]]) ∧
    ((([1, 1, 1, 1] : List Int).length : Int) - (([1] : List Int).length : Int) ≤
        max 0 ((toy.config 4 false "greedy").max_length -
          (generate_start (toy.model 10 0 (-10)) false + (([1] : List Int).length : Int))) ∧
      ((toy.family [1, 5, 3, 2, 1] []).is_output_terminated = is_output_terminated →
        (∀ new, toy.capped_final.trace = (toy.model 10 0 (-10)).trace ++ new →
          ∀ t ∈ Event.sampled new,
            t ≠ Sampler.ABORT ∧ t ≠ (toy.model 10 0 (-10)).eos_token_id ∧
              t ≠ (toy.model 10 0 (-10)).terminate_token_id) →
        (([1, 1, 1, 1] : List Int).length : Int) - (([1] : List Int).length : Int) =
          max 0 ((toy.config 4 false "greedy").max_length -
            (generate_start (toy.model 10 0 (-10)) false + (([1] : List Int).length : Int))))) :=
  ⟨by decide,
    generate_emitted_count (toy.family [1, 5, 3, 2, 1] []) (toy.model 10 0 (-10))
      toy.capped_final [1] [1, 1, 1, 1] (toy.config 4 false "greedy") false true false
      (by decide)⟩

/-! ### Errors -/

/-- C5 as stated fails: with `max_length` within the model's limit, `generate`
still throws when `do_sample` is set and the sampling algorithm is unknown; and
with a negative `max_length` it throws from `reserve`, after `aborted` has been
reset from `true` to `false`. -/
theorem generate_raises_iff_counterexample :
    ¬ ((∃ msg m1, generate (toy.family [1, 5, 3, 2, 1] []) (toy.model 10 0 (-10)) [1]
          (toy.config 4 true "nucleus") false true = Outcome.raised msg m1) ↔
        (toy.config 4 true "nucleus").max_length > (toy.model 10 0 (-10)).max_length) ∧
    generate (toy.family [1, 5, 3, 2, 1] []) { toy.model 10 0 (-10) with aborted := true } [1]
        (toy.config (-1) false "greedy") false true =
      Outcome.raised "vector::reserve" (toy.model 10 0 (-10)) := by
  refine ⟨?_, by decide⟩
  intro h
  have h1 := h.1 ⟨"unknown sampling algorithm: nucleus", toy.model 10 0 (-10), by decide⟩
  revert h1
  decide

/-- C5, amended. `generate` throws if and only if `gen_config.max_length`
exceeds the model's `max_length`, or `SamplerFactory::Create` rejects the
sampling algorithm (`do_sample` with a name other than "top_p", "tfs",
"greedy"), or `gen_config.max_length` is negative (`reserve`); when it throws,
no forward pass has run, nothing has been streamed and `n_past` is unchanged:
the engine is exactly as before the call, except that a negative `max_length`
that passes both checks throws after `aborted` has been reset to `false`: a
throw from either check leaves the engine as it was, and a throw when both
checks pass leaves it with `aborted = false` and nothing else changed. -/
theorem generate_raises_iff (fam : Family τ ν F)
    (m : BaseModelForConditionalGeneration τ F) (input_ids : List Int)
    (gen_config : GenerationConfig F) (continuous streamer : Bool) :
    ((∃ msg m1, generate fam m input_ids gen_config continuous streamer =
          Outcome.raised msg m1) ↔
        (gen_config.max_length > m.max_length ∨
          (gen_config.do_sample = true ∧ gen_config.sampling ≠ "top_p" ∧
            gen_config.sampling ≠ "tfs" ∧ gen_config.sampling ≠ "greedy") ∨
          gen_config.max_length < 0)) ∧
      (∀ msg m1, generate fam m input_ids gen_config continuous streamer =
          Outcome.raised msg m1 →
        m1.trace = m.trace ∧ m1.transformer = m.transformer ∧ m1.n_past = m.n_past ∧
          (m1 = m ∨ (gen_config.max_length < 0 ∧ m1 = { m with aborted := false })) ∧
          ((gen_config.max_length > m.max_length ∨
              (gen_config.do_sample = true ∧ gen_config.sampling ≠ "top_p" ∧
                gen_config.sampling ≠ "tfs" ∧ gen_config.sampling ≠ "greedy")) → m1 = m) ∧
          (gen_config.max_length ≤ m.max_length →
            ¬ (gen_config.do_sample = true ∧ gen_config.sampling ≠ "top_p" ∧
              gen_config.sampling ≠ "tfs" ∧ gen_config.sampling ≠ "greedy") →
            m1 = { m with aborted := false })) := by
  constructor
  · rw [← SamplerFactory_Create_error fam.samplers gen_config m._seed]
    unfold generate
    by_cases hmax : gen_config.max_length ≤ m.max_length
    · rw [if_pos hmax]
      have hng : ¬ gen_config.max_length > m.max_length := not_lt.2 hmax
      cases hcr : SamplerFactory.Create fam.samplers gen_config m._seed with
      | error msg => simp [hng]
      | ok sampler =>
        by_cases hneg : gen_config.max_length < 0
        · simp [hneg]
        · simp only [hng, hneg, false_or, or_false, if_false]
          constructor
          · rintro ⟨msg, m1, h⟩
            split at h
            · exact absurd h (by simp)
            · exact absurd h (by simp)
          · rintro ⟨msg, h⟩
            exact absurd h (by simp)
    · rw [if_neg hmax]
      have hgt : gen_config.max_length > m.max_length := not_le.1 hmax
      simp [hgt]
  · intro msg m1 h
    have hc := generate_raised_cause fam m m1 input_ids gen_config continuous streamer msg h
    rcases generate_raised_state fam m m1 input_ids gen_config continuous streamer msg h
      with h1 | ⟨hneg, h1⟩
    · refine ⟨?_, ?_, ?_, Or.inl h1, hc⟩ <;> rw [h1]
    · refine ⟨?_, ?_, ?_, Or.inr ⟨hneg, h1⟩, hc⟩ <;> rw [h1]

/-! ### Abort -/

theorem stream_outputs_drop (out : List Int) (keep : Int) (fuel : Nat) (next : Int)
    (tr : List (Event F)) :
    (stream_outputs out keep fuel next tr).2 =
        tr ++ (stream_outputs out keep fuel next tr).2.drop tr.length ∧
      Event.sampled ((stream_outputs out keep fuel next tr).2.drop tr.length) = [] := by
  obtain ⟨puts, h, h1, -⟩ := stream_outputs_trace out keep fuel next tr
  rw [h]
  simp [h1]

/-- For every family: accepting a token only adds `put` calls to the trace,
and unless the output is declared terminated the token stays appended. -/
theorem generate_accept_running (fam : Family τ ν F) (streamer : Bool)
    (s : GenerateState τ ν F) (m : BaseModelForConditionalGeneration τ F)
    (sampler : Sampler ν) (t : Int) :
    ∃ puts, (generate_accept fam streamer s m sampler t).model.trace = m.trace ++ puts ∧
      Event.sampled puts = [] ∧
      ((generate_accept fam streamer s m sampler t).completed = false →
        (generate_accept fam streamer s m sampler t).output_ids = s.output_ids ++ [t]) := by
  refine ⟨(generate_accept fam streamer s m sampler t).model.trace.drop m.trace.length,
    ?_, ?_, ?_⟩
  · unfold generate_accept
    cases streamer
    · simp
    · simp only [if_true]
      exact (stream_outputs_drop _ _ _ _ _).1
  · unfold generate_accept
    cases streamer
    · simp [Event.sampled]
    · simp only [if_true]
      exact (stream_outputs_drop _ _ _ _ _).2
  · by_cases hr : (fam.is_output_terminated
        { m with n_past := m.n_past + (s.curr_input_ids.length : Int) }
        (s.output_ids ++ [t]) 0 0).1 = true
    · cases streamer <;> simp [generate_accept, hr]
    · cases streamer <;> simp [generate_accept, hr]

/-- For every family: after `k` iterations the sampler has been called `k`
times in this call, and as long as the loop has neither aborted nor completed,
`output_ids` is the prompt followed by all the tokens sampled. -/
theorem pushed_after (fam : Family τ ν F) (m : BaseModelForConditionalGeneration τ F)
    (sampler : Sampler ν) (input_ids : List Int) (gen_config : GenerationConfig F)
    (continuous streamer : Bool) (k : Nat) :
    ∀ s, generate_after fam gen_config streamer k
        (generate_entry fam m sampler input_ids continuous) = some s →
      ∃ new, s.model.trace = m.trace ++ Event.set_ctx (input_ids.length : Int) :: new ∧
        (Event.sampled new).length = k ∧
        (s.model.aborted = false → s.completed = false →
          s.output_ids = input_ids ++ Event.sampled new) := by
  induction k with
  | zero =>
    intro s hs
    simp only [generate_after, Option.some.injEq] at hs
    subst hs
    exact ⟨[], rfl, rfl, fun _ _ => by simp [generate_entry, Event.sampled]⟩
  | succ k ih =>
    intro s hs
    obtain ⟨sp, hsp, hc, hb⟩ := (generate_after_succ fam gen_config streamer k _ s).1 hs
    obtain ⟨new, hnew, hlen, hout⟩ := ih sp hsp
    obtain ⟨hab, hcomp, -⟩ := (generate_cond_true gen_config sp).1 hc
    have hout1 := hout hab hcomp
    obtain ⟨lm, tr, fw, t, sampler1, -, -, hf1, -, -, -, hcase⟩ :=
      generate_body_some fam streamer sp s hb
    rcases hcase with ⟨-, rfl⟩ | ⟨-, rfl⟩
    · refine ⟨new ++ fw ++ [Event.sampling lm t], by simp [hnew], ?_, ?_⟩
      · simp [Event.sampled_append, hf1, Event.sampled, hlen]
      · intro h0; simp at h0
    · obtain ⟨puts, hp, hs1, hkeep⟩ := generate_accept_running fam streamer sp
        { sp.model with
          transformer := tr
          trace := sp.model.trace ++ fw ++ [Event.sampling lm t] } sampler1 t
      refine ⟨new ++ fw ++ [Event.sampling lm t] ++ puts, ?_, ?_, ?_⟩
      · rw [hp]; simp [hnew]
      · simp [Event.sampled_append, hf1, hs1, Event.sampled, hlen]
      · intro _ hcomp1
        rw [hkeep hcomp1, hout1]
        simp [Event.sampled_append, hf1, hs1, Event.sampled]

/-- C6. If, in a call that got past the checks and `reserve`, the sampler
returns `ABORT` in the iteration that follows `k` completed ones (the
`k+1`-th), `generate` returns with `aborted = true` and
`completed = true`; the returned `output_ids` is `input_ids` followed by
exactly the `k` tokens sampled in the earlier iterations; nothing is streamed
beyond what was streamed before that iteration; `n_past` is what it was before
that iteration; and the `ABORT` is the last value the sampler returns. -/
theorem generate_abort (fam : Family τ ν F)
    (m : BaseModelForConditionalGeneration τ F) (input_ids : List Int)
    (gen_config : GenerationConfig F) (continuous streamer : Bool)
    (sampler : Sampler ν) (k : Nat) (sp : GenerateState τ ν F) (lm : List F)
    (hmax : gen_config.max_length ≤ m.max_length) (h0 : 0 ≤ gen_config.max_length)
    (hcr : SamplerFactory.Create fam.samplers gen_config m._seed = Except.ok sampler)
    (hafter : generate_after fam gen_config streamer k
      (generate_entry fam m sampler input_ids continuous) = some sp)
    (hcond : generate_cond gen_config sp = true)
    (hlm : (generate_next_token fam.transformer sp.model sp.curr_input_ids).1 = some lm)
    (habort : (Sampler.sampling fam.samplers sp.sampler lm).1 = Sampler.ABORT) :
    ∃ m1 new, generate fam m input_ids gen_config continuous streamer =
        Outcome.returned (input_ids ++ Event.sampled new, true) m1 ∧
      m1.aborted = true ∧
      sp.model.trace = m.trace ++ Event.set_ctx (input_ids.length : Int) :: new ∧
      (Event.sampled new).length = k ∧
      Event.streamed m1.trace = Event.streamed sp.model.trace ∧
      m1.n_past = sp.model.n_past ∧
      Event.sampled m1.trace = Event.sampled sp.model.trace ++ [Sampler.ABORT] := by
  obtain ⟨hab, hcomp, -⟩ := (generate_cond_true gen_config sp).1 hcond
  obtain ⟨new, hnew, hlen, hout⟩ :=
    pushed_after fam m sampler input_ids gen_config continuous streamer k sp hafter
  have hout1 := hout hab hcomp
  have hsome : ∃ s1, generate_body fam streamer sp = some s1 := by
    cases hb : generate_body fam streamer sp with
    | none =>
      have := (generate_body_none fam streamer sp).1 hb
      have h2 := (generate_next_token_none fam.transformer sp.model sp.curr_input_ids).2 this
      rw [hlm] at h2
      exact absurd h2 (by simp)
    | some s1 => exact ⟨s1, rfl⟩
  obtain ⟨s1, hb⟩ := hsome
  obtain ⟨lm1, tr, fw, t, sampler1, hlm1, -, hf1, hf2, -, hsamp, hcase⟩ :=
    generate_body_some fam streamer sp s1 hb
  have hlmeq : lm1 = lm := by
    rw [hlm] at hlm1
    simpa using hlm1.symm
  subst hlmeq
  have ht : t = Sampler.ABORT := by rw [← habort, hsamp]
  rcases hcase with ⟨-, hs1⟩ | ⟨hne, -⟩
  · have hafter1 : generate_after fam gen_config streamer (k + 1)
        (generate_entry fam m sampler input_ids continuous) = some s1 :=
      (generate_after_succ fam gen_config streamer k _ s1).2 ⟨sp, hafter, hcond, hb⟩
    have hc1 : generate_cond gen_config s1 = false := by
      rw [hs1]; simp [generate_cond]
    have hgen := generate_of_after fam m input_ids gen_config continuous streamer sampler
      (k + 1) s1 hmax h0 hcr hafter1 hc1
    refine ⟨s1.model, new, ?_, ?_, hnew, hlen, ?_, ?_, ?_⟩
    · rw [hgen, hs1]
      simp [hcomp, hout1]
    · rw [hs1]
    · rw [hs1]
      simp [Event.streamed_append, hf2, Event.streamed]
    · rw [hs1]
    · rw [hs1]
      simp [Event.sampled_append, hf1, Event.sampled, ht]
  · exact absurd ht hne

/-- C6, evaluated: prompt `[1, 2]`, a sampler that yields `7`, `8` and aborts in
the third iteration: `generate` returns `[1, 2, 7, 8]` with `completed = true`,
`aborted = true`, `n_past = 3`, having streamed `[7]`, `[8]`. -/
theorem generate_abort_witness :
    (generate_after (toy.family [1, 5, 3, 2, 1] [7, 8]) (toy.config 10 true "top_p") true 2
        (generate_entry (toy.family [1, 5, 3, 2, 1] [7, 8]) (toy.model 10 0 (-10))
          (Sampler.NonGreedy [7, 8]) [1, 2] false) = some toy.scripted_before_abort ∧
      generate (toy.family [1, 5, 3, 2, 1] [7, 8]) (toy.model 10 0 (-10)) [1, 2]
        (toy.config 10 true "top_p") false true =
          Outcome.returned ([1, 2, 7, 8], true) toy.scripted_final ∧
      Event.streamed toy.scripted_final.trace = [[7], [8]]) ∧
    ∃ m1 new, generate (toy.family [1, 5, 3, 2, 1] [7, 8]) (toy.model 10 0 (-10)) [1, 2]
        (toy.config 10 true "top_p") false true =
          Outcome.returned ([1, 2] ++ Event.sampled new, true) m1 ∧
      m1.aborted = true ∧
      toy.scripted_before_abort.model.trace =
        (toy.model 10 0 (-10)).trace ++ Event.set_ctx (([1, 2] : List Int).length : Int) :: new ∧
      (Event.sampled new).length = 2 ∧
      Event.streamed m1.trace = Event.streamed toy.scripted_before_abort.model.trace ∧
      m1.n_past = toy.scripted_before_abort.model.n_past ∧
      Event.sampled m1.trace =
        Event.sampled toy.scripted_before_abort.model.trace ++ [Sampler.ABORT] :=
  ⟨by decide,
    generate_abort (toy.family [1, 5, 3, 2, 1] [7, 8]) (toy.model 10 0 (-10)) [1, 2]
      (toy.config 10 true "top_p") false true (Sampler.NonGreedy [7, 8]) 2
      toy.scripted_before_abort [1, 5, 3, 2, 1] (by decide) (by decide) rfl (by decide)
      (by decide) (by decide) (by decide)⟩

/-! ### Cache accounting -/

/-- C7. In a non-continuous call of `generate` (any family), after `N >= 1`
loop iterations none of which aborted, `n_past = len(input_ids) + N - 1`. -/
theorem generate_n_past_after (fam : Family τ ν F)
    (m : BaseModelForConditionalGeneration τ F) (sampler : Sampler ν) (input_ids : List Int)
    (gen_config : GenerationConfig F) (streamer : Bool) (N : Nat)
    (s : GenerateState τ ν F) (hN : 1 ≤ N)
    (hafter : generate_after fam gen_config streamer N
      (generate_entry fam m sampler input_ids false) = some s)
    (hab : s.model.aborted = false) :
    s.model.n_past = (input_ids.length : Int) + (N : Int) - 1 := by
  obtain ⟨c, hacc⟩ :=
    accounting_after fam m sampler input_ids gen_config false streamer N s hafter
  have hc : c = N := hacc.running hab
  have hn := hacc.n_past
  have hc0 : c ≠ 0 := by omega
  simp only [hc0, if_false, generate_start] at hn
  rw [hn, hc]
  simp

/-- C7, evaluated: prompt `[1, 2]`, two iterations that sample `7` and `8`. -/
theorem generate_n_past_after_witness :
    (generate_after (toy.family [1, 5, 3, 2, 1] [7, 8]) (toy.config 10 true "top_p") true 2
        (generate_entry (toy.family [1, 5, 3, 2, 1] [7, 8]) (toy.model 10 0 (-10))
          (Sampler.NonGreedy [7, 8]) [1, 2] false) = some toy.scripted_before_abort ∧
      toy.scripted_before_abort.model.aborted = false) ∧
    toy.scripted_before_abort.model.n_past =
      ((([1, 2] : List Int).length : Nat) : Int) + ((2 : Nat) : Int) - 1 :=
  ⟨by decide,
    generate_n_past_after (toy.family [1, 5, 3, 2, 1] [7, 8]) (toy.model 10 0 (-10))
      (Sampler.NonGreedy [7, 8]) [1, 2] (toy.config 10 true "top_p") true 2
      toy.scripted_before_abort (by decide) (by decide) (by decide)⟩

theorem generate_n_past_le (fam : Family τ ν F)
    (m m1 : BaseModelForConditionalGeneration τ F) (input_ids out : List Int)
    (gen_config : GenerationConfig F) (continuous streamer comp : Bool)
    (h : generate fam m input_ids gen_config continuous streamer =
      Outcome.returned (out, comp) m1)
    (hn : m.n_past ≤ m.max_length) (h0 : 0 ≤ m.max_length) :
    m1.n_past ≤ m1.max_length ∧ m1.max_length = m.max_length := by
  obtain ⟨hmax, -, sampler, k, s, -, hafter, -, -, -, hm1⟩ :=
    generate_returned fam m m1 input_ids out gen_config continuous streamer comp h
  obtain ⟨c, hacc⟩ :=
    accounting_after fam m sampler input_ids gen_config continuous streamer k s hafter
  have hck : c ≤ k := by
    cases hab : s.model.aborted with
    | false => exact le_of_eq (hacc.running hab)
    | true => have := hacc.stopped hab; omega
  have hit := hacc.iterations
  have hnp := hacc.n_past
  have hstart : generate_start m continuous ≤ m.max_length := by
    unfold generate_start
    split
    · exact hn
    · exact h0
  rw [hm1]
  refine ⟨?_, hacc.max_length⟩
  rw [hacc.max_length, hnp]
  split
  · exact hstart
  · rename_i hc0
    rcases le_max_iff.1 hit with h1 | h1
    · omega
    · omega

theorem shift_memory_n_past_le (T : Transformer τ F)
    (m : BaseModelForConditionalGeneration τ F) (keep : Int)
    (hn : m.n_past ≤ m.max_length) :
    (shift_memory T m keep).n_past ≤ (shift_memory T m keep).max_length ∧
      (shift_memory T m keep).max_length = m.max_length := by
  unfold shift_memory
  split
  · exact ⟨hn, rfl⟩
  · refine ⟨?_, rfl⟩
    show keep ≤ m.max_length
    omega

theorem run_calls_n_past_le (fam : Family τ ν F) (calls : List (Call F)) :
    ∀ (m m1 : BaseModelForConditionalGeneration τ F),
      m.n_past ≤ m.max_length → 0 ≤ m.max_length → run_calls fam calls m = some m1 →
        m1.n_past ≤ m1.max_length ∧ m1.max_length = m.max_length := by
  induction calls with
  | nil =>
    intro m m1 hn _ h
    simp only [run_calls, Option.some.injEq] at h
    subst h
    exact ⟨hn, rfl⟩
  | cons call rest ih =>
    intro m m1 hn h0 h
    cases call with
    | generate input_ids gen_config continuous streamer =>
      simp only [run_calls] at h
      cases hg : generate fam m input_ids gen_config continuous streamer with
      | returned v m2 =>
        rw [hg] at h
        obtain ⟨h1, h2⟩ := generate_n_past_le fam m m2 input_ids v.1 gen_config continuous
          streamer v.2 hg hn h0
        obtain ⟨h3, h4⟩ := ih m2 m1 h1 (by rw [h2]; exact h0) h
        exact ⟨h3, by rw [h4, h2]⟩
      | raised msg m2 =>
        rw [hg] at h
        rcases generate_raised_state fam m m2 input_ids gen_config continuous streamer msg hg
          with h2 | ⟨-, h2⟩
        · subst h2
          exact ih m2 m1 hn h0 h
        · subst h2
          exact ih { m with aborted := false } m1 hn h0 h
      | undefined =>
        rw [hg] at h
        exact absurd h (by simp)
    | shift_memory keep =>
      simp only [run_calls] at h
      obtain ⟨h1, h2⟩ := shift_memory_n_past_le fam.transformer m keep hn
      obtain ⟨h3, h4⟩ := ih _ m1 h1 (by rw [h2]; exact h0) h
      exact ⟨h3, by rw [h4, h2]⟩

/-- C8. Starting from `n_past = 0` on a model with `config.max_length >= 0`,
after any sequence of `generate` calls (continuous or not, none of undefined
behaviour) and `shift_memory` calls, `n_past <= config.max_length`, and
`config.max_length` is what it was. -/
theorem n_past_le_max_length (fam : Family τ ν F) (calls : List (Call F))
    (m m1 : BaseModelForConditionalGeneration τ F)
    (hn : m.n_past = 0) (h0 : 0 ≤ m.max_length) (h : run_calls fam calls m = some m1) :
    m1.n_past ≤ m1.max_length ∧ m1.max_length = m.max_length :=
  run_calls_n_past_le fam calls m m1 (by rw [hn]; exact h0) h0 h

/-- C8, evaluated: `generate([1, 2])`, `shift_memory(1)`, a continuous
`generate([3])`, all with cap `4` on a model of `max_length = 10`. -/
theorem n_past_le_max_length_witness :
    run_calls (toy.family [1, 5, 3, 2, 1] [])
        [Call.generate [1, 2] (toy.config 4 false "greedy") false false,
          Call.shift_memory 1,
          Call.generate [3] (toy.config 4 false "greedy") true true]
        (toy.model 10 0 (-10)) = some toy.shifted_final ∧
    toy.shifted_final.n_past ≤ toy.shifted_final.max_length ∧
      toy.shifted_final.max_length = (toy.model 10 0 (-10)).max_length :=
  ⟨by decide,
    n_past_le_max_length (toy.family [1, 5, 3, 2, 1] [])
      [Call.generate [1, 2] (toy.config 4 false "greedy") false false,
        Call.shift_memory 1,
        Call.generate [3] (toy.config 4 false "greedy") true true]
      (toy.model 10 0 (-10)) toy.shifted_final rfl (by decide) (by decide)⟩

/-! ### The pending input -/

/-- C9 as stated fails: a prompt longer than the model's `max_length` is not
rejected, so at loop entry `n_past + len(curr_input_ids)` exceeds
`config.max_length` (here `0 + 3 > 2`; the call returns the prompt as is). -/
theorem generate_pending_bound_counterexample :
    generate (toy.family [1, 5, 3, 2, 1] []) (toy.model 2 0 (-10)) [1, 2, 3]
        (toy.config 2 false "greedy") false true =
      Outcome.returned ([1, 2, 3], false)
        { toy.model 2 0 (-10) with trace := [Event.set_ctx 3] } ∧
    ¬ (∀ (k : Nat) (s : GenerateState Unit (List Int) Int),
      generate_after (toy.family [1, 5, 3, 2, 1] []) (toy.config 2 false "greedy") true k
        (generate_entry (toy.family [1, 5, 3, 2, 1] []) (toy.model 2 0 (-10)) Sampler.Greedy
          [1, 2, 3] false) = some s →
      s.model.n_past + (s.curr_input_ids.length : Int) ≤ s.model.max_length) :=
  ⟨by decide, fun h => absurd (h 0 _ rfl) (by decide)⟩

/-- C9, amended. In every call of `generate` that passed the `max_length`
check (any family, any prompt): each time the loop condition is evaluated after
an iteration, `n_past + len(curr_input_ids) <= gen_config.max_length <=
config.max_length`; at loop entry `n_past + len(curr_input_ids)` is
`n0 + len(input_ids)`, so the bound holds there exactly when the prompt fits. -/
theorem generate_pending_bound (fam : Family τ ν F)
    (m : BaseModelForConditionalGeneration τ F) (sampler : Sampler ν) (input_ids : List Int)
    (gen_config : GenerationConfig F) (continuous streamer : Bool) (k : Nat)
    (s : GenerateState τ ν F) (hmax : gen_config.max_length ≤ m.max_length)
    (hafter : generate_after fam gen_config streamer k
      (generate_entry fam m sampler input_ids continuous) = some s) :
    (1 ≤ k →
      s.model.n_past + (s.curr_input_ids.length : Int) ≤ gen_config.max_length ∧
      s.model.n_past + (s.curr_input_ids.length : Int) ≤ s.model.max_length) ∧
    (k = 0 →
      (s.model.n_past + (s.curr_input_ids.length : Int) ≤ s.model.max_length ↔
        generate_start m continuous + (input_ids.length : Int) ≤ m.max_length)) := by
  obtain ⟨c, hacc⟩ :=
    accounting_after fam m sampler input_ids gen_config continuous streamer k s hafter
  have hck : c ≤ k := by
    cases hab : s.model.aborted with
    | false => exact le_of_eq (hacc.running hab)
    | true => have := hacc.stopped hab; omega
  have hit := hacc.iterations
  have hsum := accounting_sum hacc
  have hml := hacc.max_length
  constructor
  · intro hk
    have h1 : s.model.n_past + (s.curr_input_ids.length : Int) ≤ gen_config.max_length := by
      rcases le_max_iff.1 hit with h1 | h1
      · omega
      · omega
    exact ⟨h1, by rw [hml]; exact le_trans h1 hmax⟩
  · intro hk
    have hc0 : c = 0 := by omega
    rw [hsum, hml, hc0]
    simp

/-- C9, evaluated: prompt `[1, 2]`, cap `10`, after two iterations. -/
theorem generate_pending_bound_witness :
    ((toy.config 10 true "top_p").max_length ≤ (toy.model 10 0 (-10)).max_length ∧
      generate_after (toy.family [1, 5, 3, 2, 1] [7, 8]) (toy.config 10 true "top_p") true 2
        (generate_entry (toy.family [1, 5, 3, 2, 1] [7, 8]) (toy.model 10 0 (-10))
          (Sampler.NonGreedy [7, 8]) [1, 2] false) = some toy.scripted_before_abort) ∧
    ((1 ≤ 2 →
      toy.scripted_before_abort.model.n_past +
          (toy.scripted_before_abort.curr_input_ids.length : Int) ≤
        (toy.config 10 true "top_p").max_length ∧
      toy.scripted_before_abort.model.n_past +
          (toy.scripted_before_abort.curr_input_ids.length : Int) ≤
        toy.scripted_before_abort.model.max_length) ∧
    (2 = 0 →
      (toy.scripted_before_abort.model.n_past +
          (toy.scripted_before_abort.curr_input_ids.length : Int) ≤
        toy.scripted_before_abort.model.max_length ↔
        generate_start (toy.model 10 0 (-10)) false + (([1, 2] : List Int).length : Int) ≤
          (toy.model 10 0 (-10)).max_length))) :=
  ⟨by decide,
    generate_pending_bound (toy.family [1, 5, 3, 2, 1] [7, 8]) (toy.model 10 0 (-10))
      (Sampler.NonGreedy [7, 8]) [1, 2] (toy.config 10 true "top_p") false true 2
      toy.scripted_before_abort (by decide) (by decide)⟩

/-! ### `shift_memory` -/

/-- C10. `shift_memory(keep)` with `keep >= n_past` leaves the engine as it is
(no call reaches the transformer); with `keep < n_past` it calls
`transformer.shift_cache(n_past - keep, n_past)` exactly once, with the old
`n_past` (so `shift > 0`, and `shift <= total` whenever `keep >= 0`), and leaves
`n_past = keep`. -/
theorem shift_memory_spec (T : Transformer τ F) (m : BaseModelForConditionalGeneration τ F)
    (keep : Int) :
    (keep ≥ m.n_past → shift_memory T m keep = m) ∧
    (keep < m.n_past →
      (shift_memory T m keep).trace =
        m.trace ++ [Event.shift_cache (m.n_past - keep) m.n_past] ∧
      (shift_memory T m keep).transformer =
        T.shift_cache m.transformer (m.n_past - keep) m.n_past ∧
      (shift_memory T m keep).n_past = keep ∧
      0 < m.n_past - keep ∧
      (0 ≤ keep → m.n_past - keep ≤ m.n_past)) := by
  constructor
  · intro h
    unfold shift_memory
    rw [if_pos h]
  · intro h
    unfold shift_memory
    rw [if_neg (not_le.2 h)]
    refine ⟨rfl, rfl, rfl, ?_, ?_⟩
    · omega
    · intro hk; omega

/-- C10, evaluated on an engine with `n_past = 3`: `shift_memory(5)` changes
nothing, `shift_memory(1)` calls `shift_cache(2, 3)` once and sets `n_past = 1`. -/
theorem shift_memory_spec_witness :
    shift_memory (toy.constant_logits [1, 5, 3, 2, 1]) toy.capped_final 5 = toy.capped_final ∧
    Event.shifts (shift_memory (toy.constant_logits [1, 5, 3, 2, 1]) toy.capped_final 1).trace =
      [(2, 3)] ∧
    (shift_memory (toy.constant_logits [1, 5, 3, 2, 1]) toy.capped_final 1).n_past = 1 :=
  ⟨(shift_memory_spec (toy.constant_logits [1, 5, 3, 2, 1]) toy.capped_final 5).1 (by decide),
    by decide, by decide⟩

end BaseModelForConditionalGeneration

/-! ## `GreedySampler` and `SamplerFactory` -/

section greedy

variable {F : Type} [LinearOrderedRing F]

/-- The scan of `std::max_element`, started after a processed prefix `pre`
whose first largest entry `v` sits at index `largest`, ends on the first
largest entry of the whole range. -/
theorem max_element_scan_spec (xs : List F) :
    ∀ (pre : List F) (largest : Nat) (v : F),
      pre[largest]? = some v →
      (∀ (j : Nat) (x : F), pre[j]? = some x → x ≤ v) →
      (∀ (j : Nat) (x : F), j < largest → pre[j]? = some x → x < v) →
      ∃ w, (pre ++ xs)[max_element_scan xs pre.length largest v]? = some w ∧
        (∀ (j : Nat) (x : F), (pre ++ xs)[j]? = some x → x ≤ w) ∧
        (∀ (j : Nat) (x : F), j < max_element_scan xs pre.length largest v →
          (pre ++ xs)[j]? = some x → x < w) := by
  induction xs with
  | nil =>
    intro pre largest v h1 h2 h3
    refine ⟨v, ?_, ?_, ?_⟩
    · simpa [max_element_scan] using h1
    · simpa using h2
    · simpa [max_element_scan] using h3
  | cons y ys ih =>
    intro pre largest v h1 h2 h3
    have hlt : largest < pre.length := by
      by_contra hge
      rw [List.getElem?_eq_none (not_lt.1 hge)] at h1
      exact absurd h1 (by simp)
    have happ : pre ++ y :: ys = (pre ++ [y]) ++ ys := by simp
    have hlen : (pre ++ [y]).length = pre.length + 1 := by simp
    have hcases : ∀ (j : Nat) (x : F), (pre ++ [y])[j]? = some x → pre[j]? = some x ∨ x = y := by
      intro j x hx
      by_cases hj : j < pre.length
      · left
        rw [List.getElem?_append_left hj] at hx
        exact hx
      · right
        rw [List.getElem?_append_right (not_lt.1 hj)] at hx
        cases hjj : j - pre.length with
        | zero => rw [hjj] at hx; simpa using hx.symm
        | succ n => rw [hjj] at hx; simp at hx
    unfold max_element_scan
    by_cases hv : v < y
    · rw [if_pos hv, happ, ← hlen]
      apply ih (pre ++ [y]) pre.length y
      · simp
      · intro j x hx
        rcases hcases j x hx with h | h
        · exact le_of_lt (lt_of_le_of_lt (h2 j x h) hv)
        · exact le_of_eq h
      · intro j x hj hx
        rw [List.getElem?_append_left hj] at hx
        exact lt_of_le_of_lt (h2 j x hx) hv
    · rw [if_neg hv, happ, ← hlen]
      apply ih (pre ++ [y]) largest v
      · rw [List.getElem?_append_left hlt]
        exact h1
      · intro j x hx
        rcases hcases j x hx with h | h
        · exact h2 j x h
        · rw [h]; exact not_lt.1 hv
      · intro j x hj hx
        rw [List.getElem?_append_left (lt_trans hj hlt)] at hx
        exact h3 j x hj hx

/-- C11. For every logit vector with `vocab_size >= 1`, `GreedySampler::sampling`
returns an index `i` in `[0, vocab_size)` whose logit `w` is at least every
logit and strictly above every logit at a smaller index (the smallest index of
a largest logit); the logits buffer is left as it was and so is the sampler
object. -/
theorem GreedySampler_sampling_argmax (logits : List F) (h : 1 ≤ logits.length) :
    ∃ (i : Nat) (w : F), GreedySampler.sampling logits = (i : Int) ∧
      i < logits.length ∧ logits[i]? = some w ∧
      (∀ (j : Nat) (x : F), logits[j]? = some x → x ≤ w) ∧
      (∀ (j : Nat) (x : F), j < i → logits[j]? = some x → x < w) ∧
      (GreedySampler.run logits).2 = logits ∧
      (∀ (ν : Type) (N : NonGreedySampler ν F),
        Sampler.sampling N Sampler.Greedy logits = ((i : Int), Sampler.Greedy)) := by
  cases logits with
  | nil => simp at h
  | cons x xs =>
    obtain ⟨w, hw, hmax, hfirst⟩ := max_element_scan_spec xs [x] 0 x (by simp)
      (by
        intro j y hy
        cases j with
        | zero => simp at hy; exact le_of_eq hy.symm
        | succ n => simp at hy)
      (by intro j y hj; omega)
    simp only [List.length_singleton, List.singleton_append] at hw hmax hfirst
    refine ⟨max_element_scan xs 1 0 x, w, rfl, ?_, hw, hmax, hfirst, rfl, ?_⟩
    · by_contra hge
      rw [List.getElem?_eq_none (not_lt.1 hge)] at hw
      exact absurd hw (by simp)
    · intro ν N
      rfl

/-- C11, evaluated: over `[1, 5, 3, 5, 1]` the first of the two largest
entries, index `1`, is returned. -/
theorem GreedySampler_sampling_argmax_witness :
    GreedySampler.sampling ([1, 5, 3, 5, 1] : List Int) = 1 ∧
    ∃ (i : Nat) (w : Int), GreedySampler.sampling ([1, 5, 3, 5, 1] : List Int) = (i : Int) ∧
      i < ([1, 5, 3, 5, 1] : List Int).length ∧ ([1, 5, 3, 5, 1] : List Int)[i]? = some w ∧
      (∀ (j : Nat) (x : Int), ([1, 5, 3, 5, 1] : List Int)[j]? = some x → x ≤ w) ∧
      (∀ (j : Nat) (x : Int), j < i → ([1, 5, 3, 5, 1] : List Int)[j]? = some x → x < w) ∧
      (GreedySampler.run ([1, 5, 3, 5, 1] : List Int)).2 = [1, 5, 3, 5, 1] ∧
      (∀ (ν : Type) (N : NonGreedySampler ν Int),
        Sampler.sampling N Sampler.Greedy [1, 5, 3, 5, 1] = ((i : Int), Sampler.Greedy)) :=
  ⟨by decide, GreedySampler_sampling_argmax [1, 5, 3, 5, 1] (by decide)⟩

/-- C13. With `do_sample` set, `SamplerFactory::Create` returns a seeded
`TopPSampler` (temperature, presence_penalty, top_k, top_p) for "top_p", a
seeded `FreeTailSampler` (temperature, presence_penalty, top_k, tfs_z) for
"tfs", a `GreedySampler` for "greedy", and throws for every other name; and it
throws in no other case, whatever `do_sample` is. -/
theorem SamplerFactory_Create_do_sample {ν : Type} (N : NonGreedySampler ν F)
    (gen_config : GenerationConfig F) (seed : Int) (h : gen_config.do_sample = true) :
    (gen_config.sampling = "top_p" →
      SamplerFactory.Create N gen_config seed =
        Except.ok (Sampler.NonGreedy (N.seed (N.TopPSampler gen_config.temperature
          gen_config.presence_penalty gen_config.top_k gen_config.top_p) seed))) ∧
    (gen_config.sampling = "tfs" →
      SamplerFactory.Create N gen_config seed =
        Except.ok (Sampler.NonGreedy (N.seed (N.FreeTailSampler gen_config.temperature
          gen_config.presence_penalty gen_config.top_k gen_config.tfs_z) seed))) ∧
    (gen_config.sampling = "greedy" →
      SamplerFactory.Create N gen_config seed = Except.ok Sampler.Greedy) ∧
    (gen_config.sampling ≠ "top_p" → gen_config.sampling ≠ "tfs" →
      gen_config.sampling ≠ "greedy" →
      SamplerFactory.Create N gen_config seed =
        Except.error ("unknown sampling algorithm: " ++ gen_config.sampling)) ∧
    (∀ (gc : GenerationConfig F) (seed1 : Int),
      (∃ msg, SamplerFactory.Create N gc seed1 = Except.error msg) ↔
        (gc.do_sample = true ∧ gc.sampling ≠ "top_p" ∧ gc.sampling ≠ "tfs" ∧
          gc.sampling ≠ "greedy")) := by
  refine ⟨?_, ?_, ?_, ?_, ?_⟩
  · intro h1
    simp [SamplerFactory.Create, h, h1]
  · intro h1
    have h2 : gen_config.sampling ≠ "top_p" := by rw [h1]; decide
    simp [SamplerFactory.Create, h, h1]
  · intro h1
    have h2 : gen_config.sampling ≠ "top_p" := by rw [h1]; decide
    have h3 : gen_config.sampling ≠ "tfs" := by rw [h1]; decide
    simp [SamplerFactory.Create, h, h1]
  · intro h1 h2 h3
    simp [SamplerFactory.Create, h, h1, h2, h3]
  · intro gc seed1
    exact BaseModelForConditionalGeneration.SamplerFactory_Create_error N gc seed1

/-- C13, evaluated on the samplers of this file: "tfs" with seed `7` gives the
seeded `FreeTailSampler`, the unknown name "nucleus" an error. -/
theorem SamplerFactory_Create_do_sample_witness :
    (toy.sampling_config 4 "tfs" (3 / 2) 0 1).do_sample = true ∧
      SamplerFactory.Create (NonGreedyObject.samplers toy.lib)
          (toy.sampling_config 4 "tfs" (3 / 2) 0 1) 7 =
        Except.ok (Sampler.NonGreedy ((NonGreedyObject.samplers toy.lib).seed
          ((NonGreedyObject.samplers toy.lib).FreeTailSampler 1 (3 / 2) 0 1) 7)) ∧
      (∃ msg, SamplerFactory.Create (NonGreedyObject.samplers toy.lib)
          (toy.sampling_config 4 "nucleus" (3 / 2) 0 1) 7 = Except.error msg) :=
  ⟨rfl,
    (SamplerFactory_Create_do_sample (NonGreedyObject.samplers toy.lib)
      (toy.sampling_config 4 "tfs" (3 / 2) 0 1) 7 rfl).2.1 rfl,
    ((SamplerFactory_Create_do_sample (NonGreedyObject.samplers toy.lib)
      (toy.sampling_config 4 "tfs" (3 / 2) 0 1) 7 rfl).2.2.2.2
      (toy.sampling_config 4 "nucleus" (3 / 2) 0 1) 7).2
      ⟨rfl, by decide, by decide, by decide⟩⟩

end greedy

/-! ## The steps of `NonGreedySampler::sampling` -/

section steps

variable {F G : Type} [LinearOrderedField F]

theorem max_element_is_max (l : List F) (h : l ≠ []) :
    ∃ w, l[max_element l]? = some w ∧ ∀ (j : Nat) (x : F), l[j]? = some x → x ≤ w := by
  cases l with
  | nil => exact absurd rfl h
  | cons x xs =>
    obtain ⟨w, hw, hmax, -⟩ := max_element_scan_spec xs [x] 0 x (by simp)
      (by
        intro j y hy
        cases j with
        | zero => simp at hy; exact le_of_eq hy.symm
        | succ n => simp at hy)
      (by intro j y hj; omega)
    exact ⟨w, hw, hmax⟩

theorem max_score_is_max (ts : List (TokenIdScore F)) (h : ts ≠ []) :
    NonGreedy.max_score ts ∈ ts.map TokenIdScore.score ∧
      ∀ t ∈ ts, t.score ≤ NonGreedy.max_score ts := by
  obtain ⟨w, hw, hmax⟩ := max_element_is_max (ts.map TokenIdScore.score) (by simpa using h)
  have hmx : NonGreedy.max_score ts = w := by
    unfold NonGreedy.max_score
    rw [List.getD_eq_getElem?_getD, hw]
    rfl
  rw [hmx]
  constructor
  · exact List.getElem?_mem hw
  · intro t ht
    obtain ⟨j, hj, hjt⟩ := List.getElem_of_mem ht
    apply hmax j
    rw [List.getElem?_map, List.getElem?_eq_getElem hj, hjt]
    rfl

theorem foldl_add_score (l : List (TokenIdScore F)) :
    ∀ init : F, l.foldl (fun acc t => acc + t.score) init =
      init + (l.map TokenIdScore.score).sum := by
  induction l with
  | nil => intro init; simp
  | cons t ts ih => intro init; simp [ih, add_assoc]

/-- The value of `sampling_softmax_inplace` on a non-empty range, in closed
form. -/
theorem sampling_softmax_inplace_eq (exp : F → F) (ts : List (TokenIdScore F))
    (h : ts ≠ []) :
    NonGreedy.sampling_softmax_inplace exp ts =
      some (ts.map (fun t =>
        { t with
          score := exp (t.score - NonGreedy.max_score ts) *
            (1 / (ts.map (fun u => exp (u.score - NonGreedy.max_score ts))).sum) })) := by
  have hlen : ¬ ts.length < 1 := by
    cases ts with
    | nil => exact absurd rfl h
    | cons t ts => simp
  unfold NonGreedy.sampling_softmax_inplace
  rw [if_neg hlen]
  simp only [foldl_add_score, zero_add, List.map_map]
  rfl

theorem sampling_softmax_inplace_none (exp : F → F) (ts : List (TokenIdScore F)) :
    NonGreedy.sampling_softmax_inplace exp ts = none ↔ ts = [] := by
  constructor
  · intro h
    by_contra hne
    rw [sampling_softmax_inplace_eq exp ts hne] at h
    exact absurd h (by simp)
  · intro h
    subst h
    rfl

/-- C17. On a non-empty range `sampling_softmax_inplace` replaces each score
`s_i` by `exp(s_i - max_j s_j) / sum_k exp(s_k - max_j s_j)`, with `exp` any
positive function: `max` is one of the scores, every exponent argument is
`<= 0`, every resulting score lies in `[0, 1]`, the resulting scores sum to `1`,
and the ids are left as they were. -/
theorem sampling_softmax_inplace_spec (exp : F → F) (hexp : ∀ x, 0 < exp x)
    (ts : List (TokenIdScore F)) (h : ts ≠ []) :
    ∃ r, NonGreedy.sampling_softmax_inplace exp ts = some r ∧
      r = ts.map (fun t =>
        { t with
          score := exp (t.score - NonGreedy.max_score ts) /
            (ts.map (fun u => exp (u.score - NonGreedy.max_score ts))).sum }) ∧
      NonGreedy.max_score ts ∈ ts.map TokenIdScore.score ∧
      (∀ t ∈ ts, t.score - NonGreedy.max_score ts ≤ 0) ∧
      (∀ t ∈ r, 0 ≤ t.score ∧ t.score ≤ 1) ∧
      (r.map TokenIdScore.score).sum = 1 ∧
      r.map TokenIdScore.id = ts.map TokenIdScore.id := by
  obtain ⟨hmem, hmax⟩ := max_score_is_max ts h
  have hpos : 0 < (ts.map (fun u => exp (u.score - NonGreedy.max_score ts))).sum := by
    apply List.sum_pos
    · intro x hx
      obtain ⟨u, -, rfl⟩ := List.mem_map.1 hx
      exact hexp _
    · simpa using h
  refine ⟨_, sampling_softmax_inplace_eq exp ts h, ?_, hmem, ?_, ?_, ?_, ?_⟩
  · apply List.map_congr_left
    intro t _
    rw [mul_one_div]
  · intro t ht
    have := hmax t ht
    linarith
  · intro t ht
    obtain ⟨u, hu, rfl⟩ := List.mem_map.1 ht
    simp only []
    rw [mul_one_div]
    constructor
    · exact le_of_lt (div_pos (hexp _) hpos)
    · rw [div_le_one hpos]
      apply List.single_le_sum
      · intro x hx
        obtain ⟨v, -, rfl⟩ := List.mem_map.1 hx
        exact le_of_lt (hexp _)
      · exact List.mem_map.2 ⟨u, hu, rfl⟩
  · rw [List.map_map]
    have : (TokenIdScore.score ∘ fun t : TokenIdScore F =>
        { t with
          score := exp (t.score - NonGreedy.max_score ts) *
            (1 / (ts.map (fun u => exp (u.score - NonGreedy.max_score ts))).sum) }) =
        fun t => exp (t.score - NonGreedy.max_score ts) *
          (1 / (ts.map (fun u => exp (u.score - NonGreedy.max_score ts))).sum) := rfl
    rw [this, List.sum_map_mul_right, mul_one_div, div_self (ne_of_gt hpos)]
  · rw [List.map_map]
    rfl

/-- C17, evaluated in real arithmetic: the scores `0, 0` become a distribution
over the ids `3, 8`. -/
theorem sampling_softmax_inplace_spec_witness :
    ([{ id := 3, score := 0 }, { id := 8, score := 0 }] : List (TokenIdScore ℝ)) ≠ [] ∧
    ∃ r, NonGreedy.sampling_softmax_inplace Real.exp
        ([{ id := 3, score := 0 }, { id := 8, score := 0 }] : List (TokenIdScore ℝ)) = some r ∧
      r = ([{ id := 3, score := 0 }, { id := 8, score := 0 }] : List (TokenIdScore ℝ)).map
        (fun t =>
          { t with
            score := Real.exp (t.score - NonGreedy.max_score
                ([{ id := 3, score := 0 }, { id := 8, score := 0 }] : List (TokenIdScore ℝ))) /
              (([{ id := 3, score := 0 }, { id := 8, score := 0 }] :
                List (TokenIdScore ℝ)).map (fun u => Real.exp (u.score - NonGreedy.max_score
                  ([{ id := 3, score := 0 }, { id := 8, score := 0 }] :
                    List (TokenIdScore ℝ))))).sum }) ∧
      NonGreedy.max_score
          ([{ id := 3, score := 0 }, { id := 8, score := 0 }] : List (TokenIdScore ℝ)) ∈
        ([{ id := 3, score := 0 }, { id := 8, score := 0 }] : List (TokenIdScore ℝ)).map
          TokenIdScore.score ∧
      (∀ t ∈ ([{ id := 3, score := 0 }, { id := 8, score := 0 }] : List (TokenIdScore ℝ)),
        t.score - NonGreedy.max_score
          ([{ id := 3, score := 0 }, { id := 8, score := 0 }] : List (TokenIdScore ℝ)) ≤ 0) ∧
      (∀ t ∈ r, 0 ≤ t.score ∧ t.score ≤ 1) ∧
      (r.map TokenIdScore.score).sum = 1 ∧
      r.map TokenIdScore.id =
        ([{ id := 3, score := 0 }, { id := 8, score := 0 }] : List (TokenIdScore ℝ)).map
          TokenIdScore.id :=
  ⟨by simp,
    sampling_softmax_inplace_spec Real.exp Real.exp_pos
      [{ id := 3, score := 0 }, { id := 8, score := 0 }] (by simp)⟩

/-! ### Top-k -/

theorem scale_temperature_length (st : NonGreedy F G) (logits : List F) :
    (NonGreedy.scale_temperature st logits).length = logits.length := by
  unfold NonGreedy.scale_temperature
  split <;> simp

theorem penalize_from_length (st : NonGreedy F G) (logits : List F) :
    ∀ i, (NonGreedy.penalize_from st i logits).length = logits.length := by
  induction logits with
  | nil => intro i; rfl
  | cons x xs ih => intro i; simp [NonGreedy.penalize_from, ih]

theorem apply_presence_penalty_length (st : NonGreedy F G) (logits : List F) :
    (NonGreedy.apply_presence_penalty st logits).length = logits.length := by
  unfold NonGreedy.apply_presence_penalty
  split
  · exact penalize_from_length st logits 0
  · rfl

theorem token_scores_from_length (logits : List F) :
    ∀ i, (NonGreedy.token_scores_from i logits).length = logits.length := by
  induction logits with
  | nil => intro i; rfl
  | cons x xs ih => intro i; simp [NonGreedy.token_scores_from, ih]

/-- C14. In `NonGreedySampler::sampling`, for every `top_k > 0` and every
`vocab_size >= 0`, the candidate list after the top-k step has exactly
`min(top_k, vocab_size)` entries (`std::nth_element` rearranges its range). -/
theorem top_k_candidates_length (lib : StdLib F G)
    (hnth : ∀ n l, (lib.nth_element n l).length = l.length)
    (obj : NonGreedyObject F G) (logits : List F) (htop : 0 < obj.base.top_k) :
    ((NonGreedyObject.candidates lib obj logits).length : Int) =
      min obj.base.top_k (logits.length : Int) := by
  have hlen : (NonGreedy.token_scores_from 0
      (NonGreedy.apply_presence_penalty obj.base
        (NonGreedy.scale_temperature obj.base logits))).length = logits.length := by
    rw [token_scores_from_length, apply_presence_penalty_length, scale_temperature_length]
  unfold NonGreedyObject.candidates NonGreedy.top_k_step
  rw [hlen]
  by_cases hk : obj.base.top_k < (logits.length : Int)
  · rw [if_pos ⟨htop, hk⟩, List.length_take, hnth, hlen, min_eq_left (le_of_lt hk)]
    omega
  · rw [if_neg (fun h => hk h.2), hlen, min_eq_right (not_lt.1 hk)]

/-- C14, evaluated: `top_k = 2` over four logits leaves two candidates. -/
theorem top_k_candidates_length_witness :
    (0 < (NonGreedyObject.TopP (NonGreedy.create toy.lib 1 1 2) 1).base.top_k ∧
      (NonGreedyObject.candidates toy.lib
        (NonGreedyObject.TopP (NonGreedy.create toy.lib 1 1 2) 1) [1, 3, 0, 2]).map
          TokenIdScore.id = [1, 3]) ∧
    ((NonGreedyObject.candidates toy.lib
        (NonGreedyObject.TopP (NonGreedy.create toy.lib 1 1 2) 1) [1, 3, 0, 2]).length : Int) =
      min (NonGreedyObject.TopP (NonGreedy.create toy.lib 1 1 2) 1).base.top_k
        (([1, 3, 0, 2] : List ℚ).length : Int) :=
  ⟨by decide!,
    top_k_candidates_length toy.lib
      (by
        intro n l
        show (toy.sort_desc l).length = l.length
        induction l with
        | nil => rfl
        | cons t ts ih =>
          have hins : ∀ (u : TokenIdScore ℚ) (us : List (TokenIdScore ℚ)),
              (toy.insert_desc u us).length = us.length + 1 := by
            intro u us
            induction us with
            | nil => rfl
            | cons v vs ihv =>
              unfold toy.insert_desc
              split
              · rfl
              · simp [ihv]
          rw [toy.sort_desc, hins, ih]
          rfl)
      (NonGreedyObject.TopP (NonGreedy.create toy.lib 1 1 2) 1) [1, 3, 0, 2] (by decide)⟩

/-! ### Top-p -/

theorem TopPSampler_truncate_spec (top_p : F) (l : List (TokenIdScore F)) :
    ∀ c : F, c < top_p → top_p ≤ c + (l.map TokenIdScore.score).sum →
      ∃ n, 1 ≤ n ∧ n ≤ l.length ∧ TopPSampler.truncate top_p c l = l.take n ∧
        top_p ≤ c + ((l.take n).map TokenIdScore.score).sum ∧
        c + ((l.take (n - 1)).map TokenIdScore.score).sum < top_p := by
  induction l with
  | nil =>
    intro c h1 h2
    simp at h2
    exact absurd h1 (not_lt.2 h2)
  | cons t ts ih =>
    intro c h1 h2
    unfold TopPSampler.truncate
    by_cases ht : c + t.score ≥ top_p
    · refine ⟨1, le_refl _, by simp, ?_, ?_, ?_⟩
      · rw [if_pos ht]; rfl
      · simpa using ht
      · simpa using h1
    · rw [if_neg ht]
      obtain ⟨n, hn1, hn2, heq, hge, hlt⟩ := ih (c + t.score) (not_le.1 ht)
        (by simpa [add_assoc] using h2)
      refine ⟨n + 1, by omega, by simp; omega, ?_, ?_, ?_⟩
      · rw [heq]; rfl
      · simpa [add_assoc] using hge
      · obtain ⟨k, rfl⟩ : ∃ k, n = k + 1 := ⟨n - 1, by omega⟩
        simpa [add_assoc] using hlt

/-- C15. For `TopPSampler::do_sampling` with `0 < top_p < 1` on a non-empty
candidate list, in exact arithmetic with a positive `exp`: with `probs` the
softmax probabilities of the whole sorted candidate list, the retained
candidates are the first `n >= 1` of them, their probabilities sum to at least
`top_p`, and without the last retained one the sum is below `top_p`. -/
theorem TopPSampler_nucleus (exp : F → F) (hexp : ∀ x, 0 < exp x)
    (sort : List (TokenIdScore F) → List (TokenIdScore F)) (top_p : F)
    (ts : List (TokenIdScore F)) (hsort : (sort ts).Perm ts)
    (h0 : 0 < top_p) (h1 : top_p < 1) (hne : ts ≠ []) :
    ∃ probs r n, NonGreedy.sampling_softmax_inplace exp (sort ts) = some probs ∧
      TopPSampler.do_sampling exp sort top_p ts = some r ∧
      1 ≤ n ∧ n ≤ probs.length ∧
      r.map TokenIdScore.id = (probs.take n).map TokenIdScore.id ∧
      top_p ≤ ((probs.take n).map TokenIdScore.score).sum ∧
      ((probs.take (n - 1)).map TokenIdScore.score).sum < top_p := by
  have hsne : sort ts ≠ [] := by
    intro h
    rw [h] at hsort
    exact hne (List.Perm.nil_eq hsort).symm
  obtain ⟨probs, hprobs, -, -, -, -, hsum, hids⟩ :=
    sampling_softmax_inplace_spec exp hexp (sort ts) hsne
  obtain ⟨n, hn1, hn2, heq, hge, hlt⟩ := TopPSampler_truncate_spec top_p probs 0 h0
    (by rw [hsum, zero_add]; exact le_of_lt h1)
  have htne : probs.take n ≠ [] := by
    intro h
    have hlen := congrArg List.length h
    rw [List.length_take] at hlen
    simp only [List.length_nil] at hlen
    omega
  obtain ⟨r, hr, -, -, -, -, -, hrid⟩ :=
    sampling_softmax_inplace_spec exp hexp (probs.take n) htne
  refine ⟨probs, r, n, hprobs, ?_, hn1, hn2, hrid, ?_, ?_⟩
  · unfold TopPSampler.do_sampling
    rw [if_pos ⟨h0, h1⟩, hprobs]
    simp only []
    rw [heq, hr]
  · simpa using hge
  · simpa using hlt

/-- C15, evaluated in real arithmetic: two equal candidates with
`top_p = 3/4`. -/
theorem TopPSampler_nucleus_witness :
    ((fun l : List (TokenIdScore ℝ) => l)
        ([{ id := 0, score := 1 }, { id := 1, score := 1 }] : List (TokenIdScore ℝ))).Perm
      [{ id := 0, score := 1 }, { id := 1, score := 1 }] ∧
    ∃ probs r n, NonGreedy.sampling_softmax_inplace Real.exp
        ((fun l : List (TokenIdScore ℝ) => l)
          ([{ id := 0, score := 1 }, { id := 1, score := 1 }] : List (TokenIdScore ℝ))) =
        some probs ∧
      TopPSampler.do_sampling Real.exp (fun l => l) (3 / 4)
        ([{ id := 0, score := 1 }, { id := 1, score := 1 }] : List (TokenIdScore ℝ)) = some r ∧
      1 ≤ n ∧ n ≤ probs.length ∧
      r.map TokenIdScore.id = (probs.take n).map TokenIdScore.id ∧
      (3 / 4 : ℝ) ≤ ((probs.take n).map TokenIdScore.score).sum ∧
      ((probs.take (n - 1)).map TokenIdScore.score).sum < (3 / 4 : ℝ) :=
  ⟨List.Perm.refl _,
    TopPSampler_nucleus Real.exp Real.exp_pos (fun l => l) (3 / 4)
      [{ id := 0, score := 1 }, { id := 1, score := 1 }] (List.Perm.refl _)
      (by norm_num) (by norm_num) (by simp)⟩

/-! ### Presence penalty -/

theorem penalize_from_getElem (st : NonGreedy F G) (logits : List F) :
    ∀ (i0 j : Nat) (L : F), logits[j]? = some L →
      (NonGreedy.penalize_from st i0 logits)[j]? =
        some (if ((i0 + j : Nat) : Int) ∈ st.g then
          L * (if L > 0 then st.inv_presence_penalty else st.presence_penalty) else L) := by
  induction logits with
  | nil => intro i0 j L h; simp at h
  | cons x xs ih =>
    intro i0 j L h
    cases j with
    | zero =>
      simp only [List.getElem?_cons_zero, Option.some.injEq] at h
      subst h
      simp [NonGreedy.penalize_from]
    | succ j =>
      simp only [List.getElem?_cons_succ] at h
      have := ih (i0 + 1) j L h
      simp only [NonGreedy.penalize_from, List.getElem?_cons_succ]
      rw [this]
      have : i0 + 1 + j = i0 + (j + 1) := by omega
      rw [this]

theorem apply_presence_penalty_getElem (st : NonGreedy F G) (logits : List F)
    (hen : st.presence_penalty_en = true)
    (hinv : st.inv_presence_penalty = 1 / st.presence_penalty)
    (i : Nat) (L : F) (hL : logits[i]? = some L) :
    (NonGreedy.apply_presence_penalty st logits)[i]? =
      some (if (i : Int) ∈ st.g then
        (if L > 0 then L / st.presence_penalty else L * st.presence_penalty) else L) := by
  unfold NonGreedy.apply_presence_penalty
  rw [if_pos hen, penalize_from_getElem st logits 0 i L hL, hinv]
  simp only [zero_add]
  by_cases hg : (i : Int) ∈ st.g
  · by_cases hpos : L > 0
    · simp [hg, hpos, div_eq_mul_inv]
    · simp [hg, hpos]
  · simp [hg]

theorem create_presence_penalty (lib : StdLib F G) (temperature presence_penalty : F)
    (top_k : Int) :
    ((NonGreedy.create lib temperature presence_penalty top_k).presence_penalty_en = true ↔
        abs (presence_penalty - 1) > 1 / 100000) ∧
      (NonGreedy.create lib temperature presence_penalty top_k).presence_penalty =
        presence_penalty ∧
      (abs (presence_penalty - 1) > 1 / 100000 →
        (NonGreedy.create lib temperature presence_penalty top_k).inv_presence_penalty =
          1 / presence_penalty) := by
  refine ⟨by simp [NonGreedy.create], rfl, ?_⟩
  intro h
  show (if abs (presence_penalty - 1) > 1 / 100000 then 1 / presence_penalty else 0) =
    1 / presence_penalty
  rw [if_pos h]

/-- C18 as stated fails: with `presence_penalty = 3/2` (enabled) and token `0`
emitted, the logit `3` of token `0` becomes `2`, of smaller magnitude. -/
theorem presence_penalty_magnitude_counterexample :
    ({ NonGreedy.create toy.lib 1 (3 / 2) 0 with g := {0} } : NonGreedy ℚ Nat).presence_penalty_en
        = true ∧
      (1 : ℚ) < ({ NonGreedy.create toy.lib 1 (3 / 2) 0 with g := {0} } :
        NonGreedy ℚ Nat).presence_penalty ∧
      NonGreedy.apply_presence_penalty
        ({ NonGreedy.create toy.lib 1 (3 / 2) 0 with g := {0} } : NonGreedy ℚ Nat) [3] = [2] ∧
      ¬ (abs (2 : ℚ) ≥ abs (3 : ℚ)) := by
  decide!

/-- C18, amended. In `NonGreedySampler::sampling` with the penalty enabled and
`presence_penalty > 1`, for every token id in the emitted set `g` the logit
after the presence-penalty step is at most the logit before it; its magnitude
is at least the old one when the old logit is `<= 0`, and strictly smaller
when the old logit is positive (the logit is then divided by the penalty). -/
theorem presence_penalty_magnitude (st : NonGreedy F G) (logits : List F)
    (hen : st.presence_penalty_en = true)
    (hinv : st.inv_presence_penalty = 1 / st.presence_penalty)
    (hpp : 1 < st.presence_penalty) (i : Nat) (L new : F) (hi : (i : Int) ∈ st.g)
    (hL : logits[i]? = some L)
    (hnew : (NonGreedy.apply_presence_penalty st logits)[i]? = some new) :
    new ≤ L ∧ (L ≤ 0 → abs new ≥ abs L) ∧ (0 < L → abs new < abs L) := by
  rw [apply_presence_penalty_getElem st logits hen hinv i L hL, if_pos hi] at hnew
  simp only [Option.some.injEq] at hnew
  have hp0 : 0 < st.presence_penalty := lt_trans zero_lt_one hpp
  by_cases hpos : L > 0
  · rw [if_pos hpos] at hnew
    have hlt : new < L := by
      rw [← hnew]
      exact div_lt_self hpos hpp
    have hnp : 0 < new := by
      rw [← hnew]
      exact div_pos hpos hp0
    refine ⟨le_of_lt hlt, ?_, ?_⟩
    · intro hle
      exact absurd hpos (not_lt.2 hle)
    · intro _
      rw [abs_of_pos hnp, abs_of_pos hpos]
      exact hlt
  · rw [if_neg hpos] at hnew
    have hle : L ≤ 0 := not_lt.1 hpos
    have hnl : new ≤ L := by
      rw [← hnew]
      nlinarith
    refine ⟨hnl, ?_, ?_⟩
    · intro _
      rw [abs_of_nonpos hle, abs_of_nonpos (le_trans hnl hle)]
      linarith
    · intro h
      exact absurd h hpos

/-- C18, evaluated: after token `0` was emitted from the logits `[3, 1]` with
penalty `3/2`, its logit `3` becomes `2`. -/
theorem presence_penalty_magnitude_witness :
    (toy.penalizing_after.base.presence_penalty_en = true ∧
      toy.penalizing_after.base.inv_presence_penalty =
        1 / toy.penalizing_after.base.presence_penalty ∧
      1 < toy.penalizing_after.base.presence_penalty ∧
      ((0 : Nat) : Int) ∈ toy.penalizing_after.base.g ∧
      ([3, 1] : List ℚ)[0]? = some 3 ∧
      (NonGreedy.apply_presence_penalty toy.penalizing_after.base [3, 1])[0]? = some 2) ∧
    ((2 : ℚ) ≤ 3 ∧ ((3 : ℚ) ≤ 0 → abs (2 : ℚ) ≥ abs (3 : ℚ)) ∧
      ((0 : ℚ) < 3 → abs (2 : ℚ) < abs (3 : ℚ))) :=
  ⟨by decide!,
    presence_penalty_magnitude toy.penalizing_after.base [3, 1] (by decide!) (by decide!)
      (by decide!) 0 3 2 (by decide!) (by decide!) (by decide!)⟩

/-- C19. In `NonGreedySampler::sampling` with the presence penalty enabled (a
sampler constructed with `|presence_penalty - 1| > 1e-5` has the flag set and
`inv_presence_penalty = 1 / presence_penalty`), the penalty step maps the logit
`L` of every id in the emitted set `g` to `L / presence_penalty` when `L > 0` and
to `L * presence_penalty` when `L <= 0`, and leaves the logit of every other id
as it is; hence for `presence_penalty > 1` every emitted id has
`new_logit <= old_logit`. -/
theorem presence_penalty_step (st : NonGreedy F G) (logits : List F)
    (hen : st.presence_penalty_en = true)
    (hinv : st.inv_presence_penalty = 1 / st.presence_penalty) :
    (∀ (i : Nat) (L : F), logits[i]? = some L →
      (NonGreedy.apply_presence_penalty st logits)[i]? =
        some (if (i : Int) ∈ st.g then
          (if L > 0 then L / st.presence_penalty else L * st.presence_penalty) else L)) ∧
    (1 < st.presence_penalty →
      ∀ (i : Nat) (L new : F), (i : Int) ∈ st.g → logits[i]? = some L →
        (NonGreedy.apply_presence_penalty st logits)[i]? = some new → new ≤ L) ∧
    (∀ (lib : StdLib F G) (temperature presence_penalty : F) (top_k : Int),
      abs (presence_penalty - 1) > 1 / 100000 →
        (NonGreedy.create lib temperature presence_penalty top_k).presence_penalty_en = true ∧
        (NonGreedy.create lib temperature presence_penalty top_k).inv_presence_penalty =
          1 / (NonGreedy.create lib temperature presence_penalty top_k).presence_penalty) := by
  refine ⟨?_, ?_, ?_⟩
  · intro i L hL
    exact apply_presence_penalty_getElem st logits hen hinv i L hL
  · intro hpp i L new hi hL hnew
    rw [apply_presence_penalty_getElem st logits hen hinv i L hL, if_pos hi] at hnew
    simp only [Option.some.injEq] at hnew
    have hp0 : 0 < st.presence_penalty := lt_trans zero_lt_one hpp
    rw [← hnew]
    by_cases hpos : L > 0
    · rw [if_pos hpos]
      exact le_of_lt (div_lt_self hpos hpp)
    · rw [if_neg hpos]
      have hle : L ≤ 0 := not_lt.1 hpos
      nlinarith
  · intro lib temperature presence_penalty top_k h
    obtain ⟨h1, h2, h3⟩ := create_presence_penalty lib temperature presence_penalty top_k
    exact ⟨h1.2 h, by rw [h2]; exact h3 h⟩

/-- C19, evaluated (scenario "presence penalty"): `presence_penalty = 1.5`,
temperature `1`; step 1 over the logits `[3, 1]` emits token `0`, whose logit
`3 > 0` is `3 / 1.5 = 2` after the penalty step of step 2, the logit of token
`1` staying `1`. -/
theorem presence_penalty_step_witness :
    (NonGreedyObject.sampling toy.lib toy.penalizing [3, 1] = some (0, toy.penalizing_after) ∧
      NonGreedy.apply_presence_penalty toy.penalizing_after.base
        (NonGreedy.scale_temperature toy.penalizing_after.base [3, 1]) = [3 / (3 / 2), 1] ∧
      toy.penalizing_after.base.presence_penalty_en = true ∧
      toy.penalizing_after.base.inv_presence_penalty =
        1 / toy.penalizing_after.base.presence_penalty) ∧
    (∀ (i : Nat) (L : ℚ), ([3, 1] : List ℚ)[i]? = some L →
      (NonGreedy.apply_presence_penalty toy.penalizing_after.base [3, 1])[i]? =
        some (if (i : Int) ∈ toy.penalizing_after.base.g then
          (if L > 0 then L / toy.penalizing_after.base.presence_penalty
            else L * toy.penalizing_after.base.presence_penalty) else L)) :=
  ⟨by decide!,
    (presence_penalty_step toy.penalizing_after.base [3, 1] (by decide!) (by decide!)).1⟩

end steps

/-! ## The emitted set during `generate` -/

section emitted

variable {τ F G : Type} [LinearOrderedField F]

theorem NonGreedyObject.base_with_base (obj : NonGreedyObject F G) (b : NonGreedy F G) :
    (obj.with_base b).base = b := by
  cases obj <;> rfl

theorem NonGreedyObject.do_sampling_base (lib : StdLib F G) (obj obj1 : NonGreedyObject F G)
    (ts r : List (TokenIdScore F))
    (h : NonGreedyObject.do_sampling lib obj ts = some (r, obj1)) : obj1.base = obj.base := by
  cases obj with
  | TopP base top_p =>
    cases hr : TopPSampler.do_sampling lib.exp lib.sort top_p ts with
    | none => simp [NonGreedyObject.do_sampling, hr] at h
    | some r1 =>
      simp only [NonGreedyObject.do_sampling, hr, Option.some.injEq, Prod.mk.injEq] at h
      rw [← h.2, NonGreedyObject.base]
  | FreeTail base z snd_d =>
    cases hr : FreeTailSampler.do_sampling lib.exp lib.sort z snd_d ts with
    | none => simp [NonGreedyObject.do_sampling, hr] at h
    | some r1 =>
      simp only [NonGreedyObject.do_sampling, hr, Option.some.injEq, Prod.mk.injEq] at h
      rw [← h.2]
      rfl

/-- A `sampling` call that returns a token other than `ABORT` inserts it into
the emitted set `g`; one that returns `ABORT` leaves `g` as it is. -/
theorem NonGreedyObject.sampling_g (lib : StdLib F G) (obj obj1 : NonGreedyObject F G)
    (logits : List F) (t : Int)
    (h : NonGreedyObject.sampling lib obj logits = some (t, obj1)) :
    (t = Sampler.ABORT ∧ obj1.base.g = obj.base.g) ∨ obj1.base.g = insert t obj.base.g := by
  unfold NonGreedyObject.sampling at h
  split at h
  · exact absurd h (by simp)
  · rename_i ts obj2 hdo
    have hbase := NonGreedyObject.do_sampling_base lib obj obj2 _ ts hdo
    split at h
    · simp only [Option.some.injEq, Prod.mk.injEq] at h
      left
      refine ⟨h.1.symm, ?_⟩
      rw [← h.2, NonGreedyObject.base_with_base, hbase]
    · simp only [] at h
      split at h
      · exact absurd h (by simp)
      · simp only [Option.some.injEq, Prod.mk.injEq] at h
        right
        rw [← h.2, NonGreedyObject.base_with_base, ← h.1, hbase]

theorem NonGreedyObject.samplers_sampling_g (lib : StdLib F G)
    (obj obj1 : NonGreedyObject F G) (logits : List F) (t : Int)
    (h : (NonGreedyObject.samplers lib).sampling obj logits = (t, obj1))
    (ht : t ≠ Sampler.ABORT) : obj1.base.g = insert t obj.base.g := by
  simp only [NonGreedyObject.samplers] at h
  split at h
  · simp only [Prod.mk.injEq] at h
    exact absurd h.1.symm ht
  · rename_i r hr
    subst h
    rcases NonGreedyObject.sampling_g lib obj obj1 logits t hr with ⟨h1, -⟩ | h1
    · exact absurd h1 ht
    · exact h1

/-- Every non-greedy sampler `SamplerFactory::Create` returns starts with an
empty emitted set. -/
theorem SamplerFactory_Create_g (lib : StdLib F G) (gen_config : GenerationConfig F)
    (seed : Int) (obj : NonGreedyObject F G)
    (h : SamplerFactory.Create (NonGreedyObject.samplers lib) gen_config seed =
      Except.ok (Sampler.NonGreedy obj)) : obj.base.g = ∅ := by
  unfold SamplerFactory.Create at h
  split at h
  · split at h
    · simp only [Except.ok.injEq, Sampler.NonGreedy.injEq] at h
      rw [← h]
      rfl
    · split at h
      · simp only [Except.ok.injEq, Sampler.NonGreedy.injEq] at h
        rw [← h]
        rfl
      · split at h
        · exact absurd h (by simp)
        · exact absurd h (by simp)
  · exact absurd h (by simp)

theorem generate_accept_sampler {ν : Type} (fam : Family τ ν F) (streamer : Bool)
    (s : GenerateState τ ν F) (m : BaseModelForConditionalGeneration τ F)
    (sampler : Sampler ν) (t : Int) :
    (BaseModelForConditionalGeneration.generate_accept fam streamer s m sampler t).sampler =
        sampler ∧
      (BaseModelForConditionalGeneration.generate_accept fam streamer s m sampler t).model.aborted
        = m.aborted := by
  unfold BaseModelForConditionalGeneration.generate_accept
  cases streamer <;> simp

/-- After `k` iterations of a call with a non-greedy sampler, the sampler is
still a non-greedy object, it has been called `k` times, and unless the call
has aborted its emitted set holds exactly the tokens returned so far. -/
theorem emitted_set_after (lib : StdLib F G) (fam : Family τ (NonGreedyObject F G) F)
    (hs : fam.samplers = NonGreedyObject.samplers lib)
    (m : BaseModelForConditionalGeneration τ F) (input_ids : List Int)
    (gen_config : GenerationConfig F) (continuous streamer : Bool)
    (obj0 : NonGreedyObject F G) (hg : obj0.base.g = ∅) (k : Nat) :
    ∀ sp, BaseModelForConditionalGeneration.generate_after fam gen_config streamer k
        (BaseModelForConditionalGeneration.generate_entry fam m (Sampler.NonGreedy obj0)
          input_ids continuous) = some sp →
      ∃ obj new, sp.sampler = Sampler.NonGreedy obj ∧
        sp.model.trace = m.trace ++ Event.set_ctx (input_ids.length : Int) :: new ∧
        (Event.sampled new).length = k ∧
        (sp.model.aborted = false → obj.base.g = (Event.sampled new).toFinset) := by
  induction k with
  | zero =>
    intro sp hsp
    simp only [BaseModelForConditionalGeneration.generate_after, Option.some.injEq] at hsp
    subst hsp
    exact ⟨obj0, [], rfl, rfl, rfl, fun _ => by simp [Event.sampled, hg]⟩
  | succ k ih =>
    intro s1 hs1
    obtain ⟨sp, hsp, hc, hb⟩ :=
      (BaseModelForConditionalGeneration.generate_after_succ fam gen_config streamer k _ s1).1 hs1
    obtain ⟨obj, new, hobj, hnew, hlen, hgs⟩ := ih sp hsp
    obtain ⟨hab, -, -⟩ := (BaseModelForConditionalGeneration.generate_cond_true gen_config sp).1 hc
    have hgsp := hgs hab
    obtain ⟨lm, tr, fw, t, sampler1, -, -, hf1, -, -, hsamp, hcase⟩ :=
      BaseModelForConditionalGeneration.generate_body_some fam streamer sp s1 hb
    rw [hobj, hs] at hsamp
    simp only [Sampler.sampling, Prod.mk.injEq] at hsamp
    obtain ⟨ht, hsam1⟩ := hsamp
    rcases hcase with ⟨-, rfl⟩ | ⟨hne, rfl⟩
    · refine ⟨((NonGreedyObject.samplers lib).sampling obj lm).2,
        new ++ fw ++ [Event.sampling lm t], hsam1.symm, by simp [hnew], ?_, ?_⟩
      · simp [Event.sampled_append, hf1, Event.sampled, hlen]
      · intro h0
        simp at h0
    · obtain ⟨puts, hp, hs1p, -⟩ :=
        BaseModelForConditionalGeneration.generate_accept_running fam streamer sp
          { sp.model with
            transformer := tr
            trace := sp.model.trace ++ fw ++ [Event.sampling lm t] } sampler1 t
      obtain ⟨hsm, -⟩ := generate_accept_sampler fam streamer sp
          { sp.model with
            transformer := tr
            trace := sp.model.trace ++ fw ++ [Event.sampling lm t] } sampler1 t
      refine ⟨((NonGreedyObject.samplers lib).sampling obj lm).2,
        new ++ fw ++ [Event.sampling lm t] ++ puts, ?_, ?_, ?_, ?_⟩
      · rw [hsm, ← hsam1]
      · rw [hp]; simp [hnew]
      · simp [Event.sampled_append, hf1, hs1p, Event.sampled, hlen]
      · intro _
        have hins := NonGreedyObject.samplers_sampling_g lib obj
          ((NonGreedyObject.samplers lib).sampling obj lm).2 lm t
          (by rw [← ht]) hne
        rw [hins, hgsp]
        simp only [Event.sampled_append, hf1, hs1p, Event.sampled, List.append_nil,
          List.nil_append]
        ext x
        simp [or_comm]

/-- C20. At every sampling call made inside a `generate` call with a
non-greedy sampler (the loop condition holds after `k` iterations), the
emitted set `g` is exactly the set of the `k` token ids the sampler returned
earlier in that same call; it is empty right after `SamplerFactory::Create`,
hence at the first sampling of every call, continuous or not. -/
theorem emitted_set_in_generate (lib : StdLib F G) (fam : Family τ (NonGreedyObject F G) F)
    (hs : fam.samplers = NonGreedyObject.samplers lib)
    (m : BaseModelForConditionalGeneration τ F) (input_ids : List Int)
    (gen_config : GenerationConfig F) (continuous streamer : Bool)
    (obj0 : NonGreedyObject F G) (k : Nat)
    (sp : GenerateState τ (NonGreedyObject F G) F)
    (hcr : SamplerFactory.Create fam.samplers gen_config m._seed =
      Except.ok (Sampler.NonGreedy obj0))
    (hafter : BaseModelForConditionalGeneration.generate_after fam gen_config streamer k
      (BaseModelForConditionalGeneration.generate_entry fam m (Sampler.NonGreedy obj0)
        input_ids continuous) = some sp)
    (hcond : BaseModelForConditionalGeneration.generate_cond gen_config sp = true) :
    obj0.base.g = ∅ ∧
      ∃ obj new, sp.sampler = Sampler.NonGreedy obj ∧
        sp.model.trace = m.trace ++ Event.set_ctx (input_ids.length : Int) :: new ∧
        (Event.sampled new).length = k ∧
        obj.base.g = (Event.sampled new).toFinset ∧
        (k = 0 → obj.base.g = ∅) := by
  rw [hs] at hcr
  have hg := SamplerFactory_Create_g lib gen_config m._seed obj0 hcr
  obtain ⟨obj, new, hobj, hnew, hlen, hgs⟩ :=
    emitted_set_after lib fam hs m input_ids gen_config continuous streamer obj0 hg k sp hafter
  obtain ⟨hab, -, -⟩ := (BaseModelForConditionalGeneration.generate_cond_true gen_config sp).1 hcond
  refine ⟨hg, obj, new, hobj, hnew, hlen, hgs hab, ?_⟩
  intro hk
  rw [hgs hab]
  rw [hk] at hlen
  rw [List.length_eq_zero.1 hlen]
  rfl

/-- C20, evaluated: prompt `[5]`, logits `[3, 1]`, a `TopPSampler`; at the second
sampling call the emitted set is `{0}`, the token sampled in the first. -/
theorem emitted_set_in_generate_witness :
    (SamplerFactory.Create (toy.sampling_family [3, 1]).samplers
        (toy.sampling_config 4 "top_p" (3 / 2) 0 1) (toy.rational_model 10 7 (-10))._seed =
        Except.ok (Sampler.NonGreedy toy.penalizing) ∧
      BaseModelForConditionalGeneration.generate_after (toy.sampling_family [3, 1])
        (toy.sampling_config 4 "top_p" (3 / 2) 0 1) true 1
        (BaseModelForConditionalGeneration.generate_entry (toy.sampling_family [3, 1])
          (toy.rational_model 10 7 (-10)) (Sampler.NonGreedy toy.penalizing) [5] true) =
        some toy.sampling_after_one ∧
      BaseModelForConditionalGeneration.generate_cond
        (toy.sampling_config 4 "top_p" (3 / 2) 0 1) toy.sampling_after_one = true ∧
      toy.penalizing_after.base.g = {0}) ∧
    (toy.penalizing.base.g = ∅ ∧
      ∃ obj new, toy.sampling_after_one.sampler = Sampler.NonGreedy obj ∧
        toy.sampling_after_one.model.trace =
          (toy.rational_model 10 7 (-10)).trace ++
            Event.set_ctx (([5] : List Int).length : Int) :: new ∧
        (Event.sampled new).length = 1 ∧
        obj.base.g = (Event.sampled new).toFinset ∧
        (1 = 0 → obj.base.g = ∅)) :=
  ⟨⟨rfl, by decide!, by decide!, by decide!⟩,
    emitted_set_in_generate toy.lib (toy.sampling_family [3, 1]) rfl
      (toy.rational_model 10 7 (-10)) [5] (toy.sampling_config 4 "top_p" (3 / 2) 0 1) true true
      toy.penalizing 1 toy.sampling_after_one rfl (by decide!) (by decide!)⟩

end emitted

/-! ## Greedy determinism -/

namespace BaseModelForConditionalGeneration

variable {τ ν F : Type} [LinearOrderedRing F]

theorem generate_next_token_each_seed (T : Transformer τ F) (x : Int) (ids : List Int) :
    ∀ (past : Int) (lm : Option (List F)) (m : BaseModelForConditionalGeneration τ F),
      generate_next_token_each T ids past lm (m.with_seed x) =
        ((generate_next_token_each T ids past lm m).1,
          (generate_next_token_each T ids past lm m).2.with_seed x) := by
  induction ids with
  | nil => intro past lm m; rfl
  | cons id ids ih =>
    intro past lm m
    have hr : run_model T (m.with_seed x) [id] past =
        ((run_model T m [id] past).1, (run_model T m [id] past).2.with_seed x) := rfl
    simp only [generate_next_token_each]
    rw [hr]
    exact ih (past + 1) _ _

theorem generate_next_token_seed (T : Transformer τ F) (x : Int)
    (m : BaseModelForConditionalGeneration τ F) (ids : List Int) :
    generate_next_token T (m.with_seed x) ids =
      ((generate_next_token T m ids).1, (generate_next_token T m ids).2.with_seed x) := by
  unfold generate_next_token
  by_cases hb : m.batch_input = true
  · have hb1 : (m.with_seed x).batch_input = true := hb
    rw [if_pos hb, if_pos hb1]
    rfl
  · have hb1 : ¬ (m.with_seed x).batch_input = true := hb
    rw [if_neg hb, if_neg hb1]
    exact generate_next_token_each_seed T x ids _ none m

theorem generate_accept_seed (fam : Family τ ν F)
    (hseed : ∀ (m : BaseModelForConditionalGeneration τ F) (x : Int) (out : List Int)
      (keep_idx pop_output : Int),
      fam.is_output_terminated (m.with_seed x) out keep_idx pop_output =
        fam.is_output_terminated m out keep_idx pop_output)
    (streamer : Bool) (s : GenerateState τ ν F) (m : BaseModelForConditionalGeneration τ F)
    (sampler : Sampler ν) (t x : Int) :
    generate_accept fam streamer (s.with_seed x) (m.with_seed x) sampler t =
      (generate_accept fam streamer s m sampler t).with_seed x := by
  have h := hseed { m with n_past := m.n_past + (s.curr_input_ids.length : Int) } x
    (s.output_ids ++ [t]) 0 0
  unfold generate_accept
  simp only [GenerateState.with_seed, with_seed] at h ⊢
  rw [h]
  cases streamer <;> rfl

theorem generate_body_seed (fam : Family τ ν F)
    (hseed : ∀ (m : BaseModelForConditionalGeneration τ F) (x : Int) (out : List Int)
      (keep_idx pop_output : Int),
      fam.is_output_terminated (m.with_seed x) out keep_idx pop_output =
        fam.is_output_terminated m out keep_idx pop_output)
    (streamer : Bool) (s : GenerateState τ ν F) (x : Int) :
    generate_body fam streamer (s.with_seed x) =
      (generate_body fam streamer s).map (fun r => r.with_seed x) := by
  have hg := generate_next_token_seed fam.transformer x s.model s.curr_input_ids
  unfold generate_body
  have h1 : (s.with_seed x).model = s.model.with_seed x := rfl
  have h2 : (s.with_seed x).curr_input_ids = s.curr_input_ids := rfl
  have h3 : (s.with_seed x).sampler = s.sampler := rfl
  rw [h1, h2, h3, hg]
  simp only []
  cases hlm : (generate_next_token fam.transformer s.model s.curr_input_ids).1 with
  | none => rfl
  | some lm =>
    simp only [Option.map]
    by_cases ht : (Sampler.sampling fam.samplers s.sampler lm).1 = Sampler.ABORT
    · rw [if_pos ht, if_pos ht]
      rfl
    · rw [if_neg ht, if_neg ht]
      congr 1
      exact generate_accept_seed fam hseed streamer s
        { (generate_next_token fam.transformer s.model s.curr_input_ids).2 with
          trace := (generate_next_token fam.transformer s.model s.curr_input_ids).2.trace ++
            [Event.sampling lm (Sampler.sampling fam.samplers s.sampler lm).1] }
        (Sampler.sampling fam.samplers s.sampler lm).2
        (Sampler.sampling fam.samplers s.sampler lm).1 x

theorem generate_loop_seed (fam : Family τ ν F)
    (hseed : ∀ (m : BaseModelForConditionalGeneration τ F) (x : Int) (out : List Int)
      (keep_idx pop_output : Int),
      fam.is_output_terminated (m.with_seed x) out keep_idx pop_output =
        fam.is_output_terminated m out keep_idx pop_output)
    (gen_config : GenerationConfig F) (streamer : Bool) (x : Int) (fuel : Nat) :
    ∀ s : GenerateState τ ν F,
      generate_loop fam gen_config streamer fuel (s.with_seed x) =
        (generate_loop fam gen_config streamer fuel s).map (fun r => r.with_seed x) := by
  induction fuel with
  | zero => intro s; rfl
  | succ fuel ih =>
    intro s
    have hc : generate_cond gen_config (s.with_seed x) = generate_cond gen_config s := rfl
    rw [generate_loop, generate_loop, hc, generate_body_seed fam hseed streamer s x]
    by_cases hcs : generate_cond gen_config s = true
    · rw [if_pos hcs, if_pos hcs]
      cases generate_body fam streamer s with
      | none => rfl
      | some s1 => exact ih s1
    · rw [if_neg hcs, if_neg hcs]
      rfl

theorem generate_loop_config (fam : Family τ ν F) (gc1 gc2 : GenerationConfig F)
    (hmax : gc1.max_length = gc2.max_length) (streamer : Bool) (fuel : Nat) :
    ∀ s : GenerateState τ ν F,
      generate_loop fam gc1 streamer fuel s = generate_loop fam gc2 streamer fuel s := by
  induction fuel with
  | zero => intro s; rfl
  | succ fuel ih =>
    intro s
    have hc : generate_cond gc1 s = generate_cond gc2 s := by
      unfold generate_cond
      rw [hmax]
    rw [generate_loop, generate_loop, hc]
    by_cases hcs : generate_cond gc2 s = true
    · rw [if_pos hcs, if_pos hcs]
      cases generate_body fam streamer s with
      | none => rfl
      | some s1 => exact ih s1
    · rw [if_neg hcs, if_neg hcs]

theorem SamplerFactory_Create_greedy (N : NonGreedySampler ν F)
    (gen_config : GenerationConfig F) (seed : Int) (h : gen_config.do_sample = false) :
    SamplerFactory.Create N gen_config seed = Except.ok Sampler.Greedy := by
  simp [SamplerFactory.Create, h]

/-- C12. When `do_sample` is false, `SamplerFactory::Create` returns a
`GreedySampler` whatever `gen_config.sampling` is (unknown names included, no
error) and whatever the seed; so two calls of `generate` that agree on
`max_length` behave alike for all values of the seed, `sampling`,
`temperature`, `presence_penalty`, `top_k`, `top_p`, `tfs_z`: same returned
`output_ids` and `completed` (or same error), same engine state up to the
stored seed. The family's `is_output_terminated` is assumed not to read the
seed, as the default one. -/
theorem generate_greedy_independent (fam : Family τ ν F)
    (hseed : ∀ (m : BaseModelForConditionalGeneration τ F) (x : Int) (out : List Int)
      (keep_idx pop_output : Int),
      fam.is_output_terminated (m.with_seed x) out keep_idx pop_output =
        fam.is_output_terminated m out keep_idx pop_output)
    (m : BaseModelForConditionalGeneration τ F) (input_ids : List Int)
    (gc1 gc2 : GenerationConfig F) (continuous streamer : Bool) (seed : Int)
    (h1 : gc1.do_sample = false) (h2 : gc2.do_sample = false)
    (hmax : gc1.max_length = gc2.max_length) :
    SamplerFactory.Create fam.samplers gc1 m._seed = Except.ok Sampler.Greedy ∧
      SamplerFactory.Create fam.samplers gc2 seed = Except.ok Sampler.Greedy ∧
      generate fam (m.with_seed seed) input_ids gc2 continuous streamer =
        (generate fam m input_ids gc1 continuous streamer).map_state
          (fun r => r.with_seed seed) := by
  have hc1 := SamplerFactory_Create_greedy fam.samplers gc1 m._seed h1
  have hc2 := SamplerFactory_Create_greedy fam.samplers gc2 seed h2
  refine ⟨hc1, hc2, ?_⟩
  have hc3 : SamplerFactory.Create fam.samplers gc2 (m.with_seed seed)._seed =
      Except.ok Sampler.Greedy := hc2
  have hml : (m.with_seed seed).max_length = m.max_length := rfl
  unfold generate
  rw [hc1, hc3, hml, ← hmax]
  by_cases hle : gc1.max_length ≤ m.max_length
  · rw [if_pos hle, if_pos hle]
    simp only []
    by_cases hneg : gc1.max_length < 0
    · rw [if_pos hneg, if_pos hneg]
      rfl
    · rw [if_neg hneg, if_neg hneg]
      have hentry : generate_entry fam (m.with_seed seed) Sampler.Greedy input_ids continuous =
          (generate_entry fam m Sampler.Greedy input_ids continuous).with_seed seed := rfl
      have hfuel : generate_fuel gc2
          ((generate_entry fam m Sampler.Greedy input_ids continuous).with_seed seed) =
          generate_fuel gc1 (generate_entry fam m Sampler.Greedy input_ids continuous) := by
        unfold generate_fuel
        rw [hmax]
        rfl
      rw [hentry, hfuel, generate_loop_seed fam hseed gc2 streamer seed,
        ← generate_loop_config fam gc1 gc2 hmax streamer]
      cases generate_loop fam gc1 streamer
          (generate_fuel gc1 (generate_entry fam m Sampler.Greedy input_ids continuous))
          (generate_entry fam m Sampler.Greedy input_ids continuous) with
      | none => rfl
      | some s => rfl
  · rw [if_neg hle, if_neg hle]
    rfl

/-- C12, evaluated: greedy calls with seed `0` / sampling "greedy" and with seed
`42` / the unknown sampling name "nucleus", other options changed too. -/
theorem generate_greedy_independent_witness :
    ((toy.config 4 false "greedy").do_sample = false ∧
      ({ toy.config 4 false "nucleus" with temperature := 7, top_k := 3, top_p := 0 } :
        GenerationConfig Int).do_sample = false ∧
      generate (toy.family [1, 5, 3, 2, 1] []) (toy.model 10 0 (-10)) [1]
          (toy.config 4 false "greedy") false true =
        Outcome.returned ([1, 1, 1, 1], false) toy.capped_final) ∧
    (SamplerFactory.Create (toy.family [1, 5, 3, 2, 1] []).samplers
        (toy.config 4 false "greedy") (toy.model 10 0 (-10))._seed = Except.ok Sampler.Greedy ∧
      SamplerFactory.Create (toy.family [1, 5, 3, 2, 1] []).samplers
        ({ toy.config 4 false "nucleus" with temperature := 7, top_k := 3, top_p := 0 } :
          GenerationConfig Int) 42 = Except.ok Sampler.Greedy ∧
      generate (toy.family [1, 5, 3, 2, 1] []) ((toy.model 10 0 (-10)).with_seed 42) [1]
          ({ toy.config 4 false "nucleus" with temperature := 7, top_k := 3, top_p := 0 } :
            GenerationConfig Int) false true =
        (generate (toy.family [1, 5, 3, 2, 1] []) (toy.model 10 0 (-10)) [1]
          (toy.config 4 false "greedy") false true).map_state (fun r => r.with_seed 42)) :=
  ⟨by decide,
    generate_greedy_independent (toy.family [1, 5, 3, 2, 1] []) (fun _ _ _ _ _ => rfl)
      (toy.model 10 0 (-10)) [1] (toy.config 4 false "greedy")
      ({ toy.config 4 false "nucleus" with temperature := 7, top_k := 3, top_p := 0 } :
        GenerationConfig Int) false true 42 rfl rfl rfl⟩

end BaseModelForConditionalGeneration


/-! ## The weights of the nucleus -/

section nucleus_weights

/-- The softmax of two candidates whose first score is the larger one. -/
theorem softmax_pair (p0 p1 : ℝ) (i j : Int) (h : p1 ≤ p0) :
    NonGreedy.sampling_softmax_inplace Real.exp [⟨i, p0⟩, ⟨j, p1⟩] =
      some [⟨i, 1 / (1 + Real.exp (p1 - p0))⟩,
        ⟨j, Real.exp (p1 - p0) * (1 / (1 + Real.exp (p1 - p0)))⟩] := by
  have hmx : NonGreedy.max_score [(⟨i, p0⟩ : TokenIdScore ℝ), ⟨j, p1⟩] = p0 := by
    simp [NonGreedy.max_score, max_element, max_element_scan, not_lt.mpr h]
  simp [NonGreedy.sampling_softmax_inplace, hmx]

/-- C16. `TopPSampler::do_sampling` at logits `[2, 1, 0, -1]`, temperature 1,
`top_p = 4/5` (the list is already in descending order, so `std::sort` leaves it
as it is). The first softmax gives probabilities `p0, p1, p2, p3` proportional to
`exp(logit)` and the nucleus is ids `0, 1`; the second softmax is applied to
these probabilities, so the weights handed to the draw satisfy
`w1 = exp (p1 - p0) * w0` and `w0 < 7/10`, whereas the renormalised
probability `p0 / (p0 + p1)` is above `73/100`. -/
theorem TopPSampler_weights_softmax_twice :
    ∃ p0 p1 p2 p3 w0 w1 : ℝ,
      NonGreedy.sampling_softmax_inplace Real.exp
          [⟨0, 2⟩, ⟨1, 1⟩, ⟨2, 0⟩, ⟨3, -1⟩] =
        some [⟨0, p0⟩, ⟨1, p1⟩, ⟨2, p2⟩, ⟨3, p3⟩] ∧
      p1 = Real.exp (-1) * p0 ∧
      TopPSampler.do_sampling Real.exp (fun l => l) (4 / 5)
          [⟨0, 2⟩, ⟨1, 1⟩, ⟨2, 0⟩, ⟨3, -1⟩] =
        some [⟨0, w0⟩, ⟨1, w1⟩] ∧
      w0 + w1 = 1 ∧
      w1 = Real.exp (p1 - p0) * w0 ∧
      w0 < 7 / 10 ∧ 73 / 100 < p0 / (p0 + p1) := by
  have ha0 : 0 < Real.exp (-1) := Real.exp_pos _
  have he1 := Real.exp_one_gt_d9
  have he2 := Real.exp_one_lt_d9
  have hinv : Real.exp (-1) * Real.exp 1 = 1 := by
    rw [← Real.exp_add]; simp
  have hb : Real.exp (-2) = Real.exp (-1) * Real.exp (-1) := by
    rw [← Real.exp_add]; norm_num
  have hc : Real.exp (-3) = Real.exp (-1) * Real.exp (-2) := by
    rw [← Real.exp_add]; norm_num
  have hlo : (3 : ℝ) / 11 < Real.exp (-1) := by nlinarith
  have hhi : Real.exp (-1) < 368 / 1000 := by nlinarith
  have hmx : NonGreedy.max_score
      [(⟨0, 2⟩ : TokenIdScore ℝ), ⟨1, 1⟩, ⟨2, 0⟩, ⟨3, -1⟩] = 2 := by
    simp [NonGreedy.max_score, max_element, max_element_scan]
    norm_num
  have hS : 0 < 1 + Real.exp (-1) + Real.exp (-2) + Real.exp (-3) := by positivity
  obtain ⟨S, hSdef⟩ : ∃ S : ℝ, S = 1 + Real.exp (-1) + Real.exp (-2) + Real.exp (-3) := ⟨_, rfl⟩
  rw [← hSdef] at hS
  have hsm : NonGreedy.sampling_softmax_inplace Real.exp
      [(⟨0, 2⟩ : TokenIdScore ℝ), ⟨1, 1⟩, ⟨2, 0⟩, ⟨3, -1⟩] =
      some [⟨0, 1 / S⟩, ⟨1, Real.exp (-1) * (1 / S)⟩, ⟨2, Real.exp (-2) * (1 / S)⟩,
        ⟨3, Real.exp (-3) * (1 / S)⟩] := by
    rw [NonGreedy.sampling_softmax_inplace, if_neg (by simp), hmx]
    simp only [List.map, List.foldl]
    norm_num
    exact hSdef.symm
  have hp0 : 0 < 1 / S := by positivity
  have hSa : 1 + Real.exp (-1) < S := by
    rw [hSdef]
    have := Real.exp_pos (-2)
    have := Real.exp_pos (-3)
    linarith
  have hSb : S * 4 ≤ 5 * (1 + Real.exp (-1)) := by
    rw [hSdef, hc, hb]
    nlinarith
  have h1 : ¬ ((0 : ℝ) + 1 / S ≥ 4 / 5) := by
    rw [zero_add, ge_iff_le, not_le, div_lt_div_iff₀ hS (by norm_num)]
    linarith
  have h2 : (0 : ℝ) + 1 / S + Real.exp (-1) * (1 / S) ≥ 4 / 5 := by
    have : (0 : ℝ) + 1 / S + Real.exp (-1) * (1 / S) = (1 + Real.exp (-1)) / S := by
      field_simp
    rw [this, ge_iff_le, div_le_div_iff₀ (by norm_num) hS]
    linarith
  have h3 : Real.exp (-1) * (1 / S) ≤ 1 / S := by
    have : Real.exp (-1) ≤ 1 := by linarith
    exact mul_le_of_le_one_left hp0.le this
  have hdo : TopPSampler.do_sampling Real.exp (fun l => l) (4 / 5)
      [(⟨0, 2⟩ : TokenIdScore ℝ), ⟨1, 1⟩, ⟨2, 0⟩, ⟨3, -1⟩] =
      some [⟨0, 1 / (1 + Real.exp (Real.exp (-1) * (1 / S) - 1 / S))⟩,
        ⟨1, Real.exp (Real.exp (-1) * (1 / S) - 1 / S) *
          (1 / (1 + Real.exp (Real.exp (-1) * (1 / S) - 1 / S)))⟩] := by
    rw [TopPSampler.do_sampling, if_pos ⟨by norm_num, by norm_num⟩]
    simp only [hsm, TopPSampler.truncate]
    rw [if_neg h1, if_pos h2]
    exact softmax_pair _ _ 0 1 h3
  have hE := Real.add_one_le_exp (Real.exp (-1) * (1 / S) - 1 / S)
  have hEpos := Real.exp_pos (Real.exp (-1) * (1 / S) - 1 / S)
  refine ⟨_, _, _, _, _, _, hsm, rfl, hdo, ?_, rfl, ?_, ?_⟩
  · field_simp
  · rw [div_lt_div_iff₀ (by positivity) (by norm_num)]
    have hx : (1 - Real.exp (-1)) * (1 / S) < 4 / 7 := by
      rw [mul_one_div, div_lt_div_iff₀ hS (by norm_num)]
      nlinarith
    nlinarith
  · have : 1 / S / (1 / S + Real.exp (-1) * (1 / S)) = 1 / (1 + Real.exp (-1)) := by
      field_simp
    rw [this, div_lt_div_iff₀ (by norm_num) (by positivity)]
    linarith

end nucleus_weights

/-! ## Termination tests -/

section termination

variable {τ F : Type} [LinearOrderedRing F]

/-- The entry `output_ids[output_ids.size() - 1]` is the last one. -/
theorem getD_length_sub_one (l : List Int) (h : l ≠ []) :
    l.getD (l.length - 1) 0 = l.getLast h := by
  rw [List.getD_eq_getElem?_getD, List.getLast_eq_getElem]
  have hlt : l.length - 1 < l.length := by
    have := List.length_pos.2 h
    omega
  rw [List.getElem?_eq_getElem hlt]
  rfl

/-- C24. The default `is_output_terminated(output_ids, keep_idx, pop_output)`
returns true if and only if `output_ids` is non-empty and its last entry equals
`terminate_token_id` or `tokenizer->eos_token_id`; when it returns true it sets
`pop_output = 1`; when it returns false on a non-empty `output_ids` it sets
`keep_idx = len(output_ids)` and leaves `pop_output` as it is; on an empty
`output_ids` it returns false and changes neither. -/
theorem is_output_terminated_spec (m : BaseModelForConditionalGeneration τ F)
    (output_ids : List Int) (keep_idx pop_output : Int) :
    ((BaseModelForConditionalGeneration.is_output_terminated m output_ids keep_idx
        pop_output).1 = true ↔
      ∃ h : output_ids ≠ [], output_ids.getLast h = m.terminate_token_id ∨
        output_ids.getLast h = m.eos_token_id) ∧
    ((BaseModelForConditionalGeneration.is_output_terminated m output_ids keep_idx
        pop_output).1 = true →
      (BaseModelForConditionalGeneration.is_output_terminated m output_ids keep_idx
        pop_output).2.2 = 1) ∧
    ((BaseModelForConditionalGeneration.is_output_terminated m output_ids keep_idx
        pop_output).1 = false → output_ids ≠ [] →
      (BaseModelForConditionalGeneration.is_output_terminated m output_ids keep_idx
        pop_output).2 = ((output_ids.length : Int), pop_output)) ∧
    (output_ids = [] →
      BaseModelForConditionalGeneration.is_output_terminated m output_ids keep_idx
        pop_output = (false, keep_idx, pop_output)) := by
  by_cases he : output_ids = []
  · subst he
    simp [BaseModelForConditionalGeneration.is_output_terminated]
  · have hlen : ¬ output_ids.length < 1 := by
      have := List.length_pos.2 he
      omega
    have hlast := getD_length_sub_one output_ids he
    unfold BaseModelForConditionalGeneration.is_output_terminated
    rw [if_neg hlen]
    simp only [hlast]
    by_cases h1 : output_ids.getLast he = m.terminate_token_id
    · rw [if_pos h1]
      simp [he, h1]
    · rw [if_neg h1]
      by_cases h2 : output_ids.getLast he = m.eos_token_id
      · rw [if_pos h2]
        simp [he, h2]
      · rw [if_neg h2]
        simp [he, h1, h2]

theorem match_output_sequence_from_iff :
    ∀ (x0 x1 : List Int), x0.length = x1.length →
      (BaseModelForConditionalGeneration.match_output_sequence_from x0 x1 = true ↔ x0 = x1) := by
  intro x0
  induction x0 with
  | nil =>
    intro x1 h
    cases x1 with
    | nil => simp [BaseModelForConditionalGeneration.match_output_sequence_from]
    | cons y ys => simp at h
  | cons x xs ih =>
    intro x1 h
    cases x1 with
    | nil => simp at h
    | cons y ys =>
      have hl : xs.length = ys.length := by simpa using h
      by_cases hxy : x = y
      · subst hxy
        simp [BaseModelForConditionalGeneration.match_output_sequence_from, ih ys hl]
      · simp [BaseModelForConditionalGeneration.match_output_sequence_from, hxy]

/-- C25. For all integer lists, `match_output_sequence(output_ids, pattern)`
returns true if and only if `pattern` is a suffix of `output_ids` (there is a
list `p` with `output_ids = p ++ pattern`); it is true for the empty pattern and
false whenever `pattern` is longer than `output_ids`. -/
theorem match_output_sequence_iff_suffix (output_ids pattern : List Int) :
    (BaseModelForConditionalGeneration.match_output_sequence output_ids pattern = true ↔
      ∃ p, output_ids = p ++ pattern) ∧
    BaseModelForConditionalGeneration.match_output_sequence output_ids [] = true ∧
    (output_ids.length < pattern.length →
      BaseModelForConditionalGeneration.match_output_sequence output_ids pattern = false) := by
  refine ⟨?_, ?_, ?_⟩
  · unfold BaseModelForConditionalGeneration.match_output_sequence
    by_cases hlt : output_ids.length < pattern.length
    · rw [if_pos hlt]
      constructor
      · intro h
        cases h
      · rintro ⟨p, hp⟩
        rw [hp, List.length_append] at hlt
        omega
    · rw [if_neg hlt]
      have hlen : (output_ids.drop (output_ids.length - pattern.length)).length =
          pattern.length := by
        rw [List.length_drop]
        omega
      rw [match_output_sequence_from_iff _ _ hlen]
      constructor
      · intro h
        refine ⟨output_ids.take (output_ids.length - pattern.length), ?_⟩
        nth_rewrite 2 [← h]
        rw [List.take_append_drop]
      · rintro ⟨p, hp⟩
        rw [hp, List.length_append, Nat.add_sub_cancel, List.drop_left]
  · unfold BaseModelForConditionalGeneration.match_output_sequence
    simp [BaseModelForConditionalGeneration.match_output_sequence_from]
  · intro hlt
    unfold BaseModelForConditionalGeneration.match_output_sequence
    rw [if_pos hlt]

end termination

/-! ## Model types -/

/-- C28. `get_model_purpose` returns `TextEmbedding` exactly for
`MODEL_TYPE_BCE_Embedding` and `MODEL_TYPE_BGE_M3`, `Ranker` exactly for
`MODEL_TYPE_BCE_ReRanker` and `MODEL_TYPE_BGE_ReRanker_M3`, and `Chat` for every
other value; every model type whose value is below `0x10000100` has purpose
`Chat`. -/
theorem get_model_purpose_spec (model_type : Int) :
    (get_model_purpose model_type = ModelPurpose.TextEmbedding ↔
      model_type = MODEL_TYPE_BCE_Embedding ∨ model_type = MODEL_TYPE_BGE_M3) ∧
    (get_model_purpose model_type = ModelPurpose.Ranker ↔
      model_type = MODEL_TYPE_BCE_ReRanker ∨ model_type = MODEL_TYPE_BGE_ReRanker_M3) ∧
    (get_model_purpose model_type = ModelPurpose.Chat ↔
      model_type ≠ MODEL_TYPE_BCE_Embedding ∧ model_type ≠ MODEL_TYPE_BGE_M3 ∧
        model_type ≠ MODEL_TYPE_BCE_ReRanker ∧ model_type ≠ MODEL_TYPE_BGE_ReRanker_M3) ∧
    (model_type < 0x10000100 → get_model_purpose model_type = ModelPurpose.Chat) := by
  unfold get_model_purpose
  by_cases h1 : model_type = MODEL_TYPE_BCE_Embedding ∨ model_type = MODEL_TYPE_BGE_M3
  · rw [if_pos h1]
    refine ⟨by simp [h1], ?_, ?_, ?_⟩
    · simp only [false_iff, reduceCtorEq]
      rcases h1 with h | h <;> rw [h] <;> decide
    · simp only [false_iff, reduceCtorEq]
      rcases h1 with h | h <;> rw [h] <;> decide
    · intro hlt
      rcases h1 with h | h <;> rw [h] at hlt <;> exact absurd hlt (by decide)
  · rw [if_neg h1]
    by_cases h2 : model_type = MODEL_TYPE_BCE_ReRanker ∨ model_type = MODEL_TYPE_BGE_ReRanker_M3
    · rw [if_pos h2]
      refine ⟨by simp [h1], by simp [h2], ?_, ?_⟩
      · simp only [false_iff, reduceCtorEq]
        rcases h2 with h | h <;> rw [h] <;> decide
      · intro hlt
        rcases h2 with h | h <;> rw [h] at hlt <;> exact absurd hlt (by decide)
    · rw [if_neg h2]
      refine ⟨by simp [h1], by simp [h2], ?_, fun _ => rfl⟩
      simp only [true_iff]
      exact ⟨fun h => h1 (Or.inl h), fun h => h1 (Or.inr h), fun h => h2 (Or.inl h),
        fun h => h2 (Or.inr h)⟩


/-! ## The loader -/

section loader

theorem char_ofNat_eq (b n : Nat) (hn : n.isValidChar) (h0 : n ≠ 0) :
    Char.ofNat b = Char.ofNat n ↔ b = n := by
  constructor
  · intro h
    by_cases hb : b.isValidChar
    · have := congrArg Char.toNat h
      simpa [Char.ofNat, hb, hn, Char.toNat, Char.ofNatAux] using this
    · have := congrArg Char.toNat h
      simp [Char.ofNat, hb, hn, Char.toNat, Char.ofNatAux] at this
      exact absurd this.symm h0
  · intro h
    rw [h]

theorem magic_iff (l : List Nat) :
    String.mk (l.map Char.ofNat) = "ggml" ↔ l = [103, 103, 109, 108] := by
  have hs : "ggml" =
      String.mk [Char.ofNat 103, Char.ofNat 103, Char.ofNat 109, Char.ofNat 108] := by decide
  have key : l.map Char.ofNat =
      [Char.ofNat 103, Char.ofNat 103, Char.ofNat 109, Char.ofNat 108] ↔
      l = [103, 103, 109, 108] := by
    rcases l with _ | ⟨a, _ | ⟨b, _ | ⟨c, _ | ⟨d, _ | ⟨e, l⟩⟩⟩⟩⟩ <;>
      simp [char_ofNat_eq _ _ (by decide : Nat.isValidChar 103) (by decide),
        char_ofNat_eq _ _ (by decide : Nat.isValidChar 109) (by decide),
        char_ofNat_eq _ _ (by decide : Nat.isValidChar 108) (by decide)]
  rw [hs]
  constructor
  · intro h
    exact key.1 (congrArg String.data h)
  · intro h
    rw [key.2 h]

theorem ModelFactory_load_magic (loader : ModelLoader) (max_length : Int)
    (h : 4 ≤ loader.data.length) (hm : loader.data.take 4 ≠ [103, 103, 109, 108]) :
    ModelFactory.load loader max_length =
      LoadStep.raised "model file is broken (bad magic)" { loader with ptr := 4 } := by
  have hm1 : ¬ String.mk ((loader.data.map Char.ofNat).take 4) = "ggml" := by
    rw [← List.map_take, magic_iff]
    exact hm
  simp [ModelFactory.load, ModelLoader.seek, ModelLoader.read_string, h, hm1]

theorem ModelFactory_load_header (loader : ModelLoader) (max_length : Int)
    (h : 12 ≤ loader.data.length) (hm : loader.data.take 4 = [103, 103, 109, 108]) :
    ModelFactory.load loader max_length =
      ModelFactory.load_dispatch (int32_le ((loader.data.drop 4).take 4))
        (int32_le ((loader.data.drop 8).take 4))
        { loader with
          ptr := 12
          model_type := int32_le ((loader.data.drop 4).take 4)
          version := int32_le ((loader.data.drop 8).take 4) } max_length := by
  have hm1 : String.mk ((loader.data.map Char.ofNat).take 4) = "ggml" := by
    rw [← List.map_take, magic_iff]
    exact hm
  have h4 : 4 ≤ loader.data.length := by omega
  have h8 : 8 ≤ loader.data.length := by omega
  simp [ModelFactory.load, ModelLoader.seek, ModelLoader.read_string,
    ModelLoader.read_basic_int, h, h4, h8, hm1]

theorem load_switch_miss (model_type version : Int) (loader : ModelLoader) (a : args) :
    ∀ es : List ModelEntry, (∀ e ∈ es, model_type ≠ e.model_type) →
      ModelFactory.load_switch model_type version loader a es =
        LoadStep.raised ("invalid model type " ++ toString model_type) loader := by
  intro es
  induction es with
  | nil => intro _; rfl
  | cons e es ih =>
    intro h
    rw [ModelFactory.load_switch, if_neg (h e (List.mem_cons_self _ _))]
    exact ih (fun e1 he1 => h e1 (List.mem_cons_of_mem _ he1))

theorem load_switch_hit (model_type version : Int) (loader : ModelLoader) (a : args) :
    ∀ es : List ModelEntry, (es.map ModelEntry.model_type).Nodup →
      ∀ e ∈ es, model_type = e.model_type →
        ModelFactory.load_switch model_type version loader a es =
          if version = e.ver then LoadStep.load_model e.ns loader a
          else
            LoadStep.raised
              ("only support version " ++ toString e.ver ++ " for now but got " ++
                toString version) loader := by
  intro es
  induction es with
  | nil => intro _ e he; cases he
  | cons e0 es ih =>
    intro hnd e he hmt
    rw [List.map_cons, List.nodup_cons] at hnd
    rcases List.mem_cons.1 he with h | h
    · subst h
      rw [ModelFactory.load_switch, if_pos hmt]
    · have hne : model_type ≠ e0.model_type := by
        intro h0
        apply hnd.1
        rw [← h0, hmt]
        exact List.mem_map_of_mem _ h
      rw [ModelFactory.load_switch, if_neg hne]
      exact ih hnd.2 e h hmt

theorem ALL_MODELS_nodup : (ALL_MODELS.map ModelEntry.model_type).Nodup := by
  decide

/-- What the dispatch does, by cases on the table. -/
theorem load_dispatch_cases (model_type version : Int) (loader : ModelLoader)
    (max_length : Int) :
    (∃ e ∈ ALL_MODELS, model_type = e.model_type ∧ version = e.ver ∧
      ModelFactory.load_dispatch model_type version loader max_length =
        LoadStep.load_model e.ns loader { max_length := max_length }) ∨
    ((¬ ∃ e ∈ ALL_MODELS, model_type = e.model_type ∧ version = e.ver) ∧
      ∃ msg, ModelFactory.load_dispatch model_type version loader max_length =
        LoadStep.raised msg loader) := by
  by_cases hex : ∃ e ∈ ALL_MODELS, model_type = e.model_type
  · obtain ⟨e, he, hmt⟩ := hex
    have hhit := load_switch_hit model_type version loader { max_length := max_length }
      ALL_MODELS ALL_MODELS_nodup e he hmt
    by_cases hv : version = e.ver
    · left
      refine ⟨e, he, hmt, hv, ?_⟩
      rw [ModelFactory.load_dispatch, hhit, if_pos hv]
    · right
      have hd : ModelFactory.load_dispatch model_type version loader max_length =
          LoadStep.raised
            ("only support version " ++ toString e.ver ++ " for now but got " ++
              toString version) loader := by
        rw [ModelFactory.load_dispatch, hhit, if_neg hv]
      refine ⟨?_, _, hd⟩
      rintro ⟨e1, he1, hmt1, hv1⟩
      have hsame : e1 = e := by
        have hinj := List.inj_on_of_nodup_map ALL_MODELS_nodup he1 he
        exact hinj (hmt1.symm.trans hmt)
      rw [hsame] at hv1
      exact hv hv1
  · right
    have hd : ModelFactory.load_dispatch model_type version loader max_length =
        LoadStep.raised ("invalid model type " ++ toString model_type) loader := by
      rw [ModelFactory.load_dispatch]
      exact load_switch_miss model_type version loader _ ALL_MODELS
        (fun e he hmt => hex ⟨e, he, hmt⟩)
    refine ⟨?_, _, hd⟩
    rintro ⟨e, he, hmt, -⟩
    exact hex ⟨e, he, hmt⟩

/-- C26. On a file that holds the 12 header bytes, `ModelFactory::load` reaches
the construction of a (config, tokenizer, model) triple, the `load_model` call
of a dispatch entry, if and only if the first four bytes are "ggml", the `int32`
at bytes 4..8 is the model type of an `ALL_MODELS` entry and the `int32` at
bytes 8..12 is that entry's version; the entry reached is the one of that model
type; in every other case an error is raised. Every entry has version 1 except
`QWEN`, which has 2. With a bad magic the error is raised right after the four
bytes are read, `model_type` and `version` being untouched. -/
theorem ModelFactory_load_spec (loader : ModelLoader) (max_length : Int) :
    (12 ≤ loader.data.length →
      ((∃ ns l a, ModelFactory.load loader max_length = LoadStep.load_model ns l a) ↔
        (loader.data.take 4 = [103, 103, 109, 108] ∧
          ∃ e ∈ ALL_MODELS, int32_le ((loader.data.drop 4).take 4) = e.model_type ∧
            int32_le ((loader.data.drop 8).take 4) = e.ver)) ∧
      (∀ ns l a, ModelFactory.load loader max_length = LoadStep.load_model ns l a →
        a.max_length = max_length ∧
        l.model_type = int32_le ((loader.data.drop 4).take 4) ∧
        l.version = int32_le ((loader.data.drop 8).take 4) ∧
        ∃ e ∈ ALL_MODELS, e.ns = ns ∧ e.model_type = l.model_type ∧ e.ver = l.version) ∧
      ((¬ ∃ ns l a, ModelFactory.load loader max_length = LoadStep.load_model ns l a) →
        ∃ msg l, ModelFactory.load loader max_length = LoadStep.raised msg l)) ∧
    (∀ e ∈ ALL_MODELS, e.ver = if e.model_type = MODEL_TYPE_QWEN then 2 else 1) ∧
    (4 ≤ loader.data.length → loader.data.take 4 ≠ [103, 103, 109, 108] →
      ModelFactory.load loader max_length =
        LoadStep.raised "model file is broken (bad magic)" { loader with ptr := 4 }) := by
  refine ⟨?_, by decide, ModelFactory_load_magic loader max_length⟩
  intro h12
  by_cases hm : loader.data.take 4 = [103, 103, 109, 108]
  · have hload := ModelFactory_load_header loader max_length h12 hm
    rcases load_dispatch_cases (int32_le ((loader.data.drop 4).take 4))
        (int32_le ((loader.data.drop 8).take 4))
        { loader with
          ptr := 12
          model_type := int32_le ((loader.data.drop 4).take 4)
          version := int32_le ((loader.data.drop 8).take 4) } max_length with
      ⟨e, he, hmt, hv, hd⟩ | ⟨hno, msg, hd⟩
    · rw [hd] at hload
      refine ⟨⟨fun _ => ⟨hm, e, he, hmt, hv⟩, fun _ => ⟨_, _, _, hload⟩⟩, ?_, ?_⟩
      · intro ns l a hl
        rw [hload] at hl
        injection hl with h1 h2 h3
        subst h1 h2 h3
        exact ⟨rfl, rfl, rfl, e, he, rfl, hmt.symm, hv.symm⟩
      · intro hn
        exact absurd ⟨_, _, _, hload⟩ hn
    · rw [hd] at hload
      refine ⟨⟨?_, fun h => absurd h.2 hno⟩, ?_, fun _ => ⟨_, _, hload⟩⟩
      · rintro ⟨ns, l, a, hl⟩
        rw [hload] at hl
        cases hl
      · intro ns l a hl
        rw [hload] at hl
        cases hl
  · have hload := ModelFactory_load_magic loader max_length (by omega) hm
    refine ⟨⟨?_, fun h => absurd h.1 hm⟩, ?_, fun _ => ⟨_, _, hload⟩⟩
    · rintro ⟨ns, l, a, hl⟩
      rw [hload] at hl
      cases hl
    · intro ns l a hl
      rw [hload] at hl
      cases hl

/-- C26, evaluated: the QWEN header with version 2 reaches `qwen::v1`. -/
theorem ModelFactory_load_spec_witness :
    12 ≤ (toy.loader toy.qwen_file).data.length ∧
      (toy.loader toy.qwen_file).data.take 4 = [103, 103, 109, 108] ∧
      (∃ e ∈ ALL_MODELS, int32_le (((toy.loader toy.qwen_file).data.drop 4).take 4) =
          e.model_type ∧
        int32_le (((toy.loader toy.qwen_file).data.drop 8).take 4) = e.ver) ∧
      (∃ ns l a, ModelFactory.load (toy.loader toy.qwen_file) 0 = LoadStep.load_model ns l a) ∧
      ModelFactory.load (toy.loader toy.qwen_file) 0 =
        LoadStep.load_model "qwen::v1"
          { toy.loader toy.qwen_file with ptr := 12, model_type := 0x700, version := 2 }
          { max_length := 0 } :=
  ⟨by decide, by decide,
    ⟨{ model_type := MODEL_TYPE_QWEN, ns := "qwen::v1", ver := 2 }, by decide, by decide,
      by decide⟩,
    ((ModelFactory_load_spec (toy.loader toy.qwen_file) 0).1 (by decide)).1.2
      ⟨by decide,
        ⟨{ model_type := MODEL_TYPE_QWEN, ns := "qwen::v1", ver := 2 }, by decide, by decide,
          by decide⟩⟩,
    by decide⟩

/-! ### The max_length override -/

/-- C27 as stated fails: the file stores `max_length = 50` and the caller
overrides with `100`; `load_config` yields `max_length = 100`. -/
theorem load_config_max_length_counterexample :
    (toy.read_config ((toy.loader toy.qwen_file).seek 12)).1.max_length = 50 ∧
      (load_config toy.read_config ((toy.loader toy.qwen_file).seek 12)
        { max_length := 100 }).1.max_length = 100 ∧
      ¬ ((load_config toy.read_config ((toy.loader toy.qwen_file).seek 12)
          { max_length := 100 }).1.max_length ≤
        (toy.read_config ((toy.loader toy.qwen_file).seek 12)).1.max_length) := by
  decide

/-- C27, amended. For every config record read from the file (by
`read_basic<Config>` at the config offset) and every caller override: with an
override `> 0` the config produced by `load_config` is the file's record with
`max_length` set to the override, so its `max_length` is `<=` the file's exactly
when the override is; with an override `<= 0` the config equals the file's
record. -/
theorem load_config_max_length (read_basic : ModelLoader → BaseConfig × ModelLoader)
    (loader : ModelLoader) (a : args) :
    (0 < a.max_length →
      (load_config read_basic loader a).1 =
        { (read_basic (if 0 = loader.offset_config then
            { loader with offset_config := loader.tell }
            else loader.seek loader.offset_config)).1 with max_length := a.max_length } ∧
      ((load_config read_basic loader a).1.max_length ≤
          (read_basic (if 0 = loader.offset_config then
            { loader with offset_config := loader.tell }
            else loader.seek loader.offset_config)).1.max_length ↔
        a.max_length ≤
          (read_basic (if 0 = loader.offset_config then
            { loader with offset_config := loader.tell }
            else loader.seek loader.offset_config)).1.max_length)) ∧
    (a.max_length ≤ 0 →
      (load_config read_basic loader a).1 =
        (read_basic (if 0 = loader.offset_config then
          { loader with offset_config := loader.tell }
          else loader.seek loader.offset_config)).1) := by
  constructor
  · intro h
    have hc : (load_config read_basic loader a).1 =
        { (read_basic (if 0 = loader.offset_config then
            { loader with offset_config := loader.tell }
            else loader.seek loader.offset_config)).1 with max_length := a.max_length } := by
      simp [load_config, h]
    refine ⟨hc, ?_⟩
    rw [hc]
  · intro h
    have hn : ¬ a.max_length > 0 := by omega
    simp [load_config, hn]

/-- C27, evaluated: on the file with `max_length = 50`, the override `20` gives
`20` and the override `0` gives the record of the file. -/
theorem load_config_max_length_witness :
    (load_config toy.read_config ((toy.loader toy.qwen_file).seek 12)
        { max_length := 20 }).1 =
      { vocab_size := 100, hidden_size := 8, num_hidden_layers := 2, num_attention_heads := 4,
        max_length := 20 } ∧
    (load_config toy.read_config ((toy.loader toy.qwen_file).seek 12)
        { max_length := 0 }).1 =
      { vocab_size := 100, hidden_size := 8, num_hidden_layers := 2, num_attention_heads := 4,
        max_length := 50 } :=
  ⟨((load_config_max_length toy.read_config ((toy.loader toy.qwen_file).seek 12)
      { max_length := 20 }).1 (by decide)).1.trans (by decide),
    ((load_config_max_length toy.read_config ((toy.loader toy.qwen_file).seek 12)
      { max_length := 0 }).2 (by decide)).trans (by decide)⟩

end loader

/-! ## Chat history encoders -/

section encoders

/-- C29. For the openchat, `xverse::dense` and `xverse::moe` history encoders,
assuming the tokenizer's text encoding only appends to `ids`: for every
`round_idx`, AI text and initial ids, `append_ai` leaves `ids` equal to (the
result of `append_ai_opening` on the initial ids) `++ encode(ai) ++
[eos_token_id]`, and the initial ids are a prefix of the result. -/
theorem append_ai_spec (tok : BaseTokenizer)
    (henc : ∀ text ids, tok.encode text ids = ids ++ tok.encode text [])
    (round_idx : Int) (ai : String) (ids : List Int) :
    (openchat.ChatHistoryEncoder.append_ai tok round_idx ai ids =
        openchat.ChatHistoryEncoder.append_ai_opening tok round_idx ids ++ tok.encode ai [] ++
          [tok.eos_token_id] ∧
      ids <+: openchat.ChatHistoryEncoder.append_ai tok round_idx ai ids) ∧
    (xverse.dense.ChatHistoryEncoder.append_ai tok round_idx ai ids =
        xverse.dense.ChatHistoryEncoder.append_ai_opening tok round_idx ids ++
          tok.encode ai [] ++ [tok.eos_token_id] ∧
      ids <+: xverse.dense.ChatHistoryEncoder.append_ai tok round_idx ai ids) ∧
    (xverse.moe.ChatHistoryEncoder.append_ai tok round_idx ai ids =
        xverse.moe.ChatHistoryEncoder.append_ai_opening tok round_idx ids ++
          tok.encode ai [] ++ [tok.eos_token_id] ∧
      ids <+: xverse.moe.ChatHistoryEncoder.append_ai tok round_idx ai ids) := by
  have h1 : openchat.ChatHistoryEncoder.append_ai tok round_idx ai ids =
      openchat.ChatHistoryEncoder.append_ai_opening tok round_idx ids ++ tok.encode ai [] ++
        [tok.eos_token_id] := by
    simp only [openchat.ChatHistoryEncoder.append_ai, openchat.Tokenizer.encode]
    rw [henc ai]
    rfl
  have h1o : ids <+: openchat.ChatHistoryEncoder.append_ai_opening tok round_idx ids := by
    simp only [openchat.ChatHistoryEncoder.append_ai_opening, openchat.Tokenizer.encode]
    rw [henc]
    exact List.prefix_append _ _
  have h2 : xverse.dense.ChatHistoryEncoder.append_ai tok round_idx ai ids =
      xverse.dense.ChatHistoryEncoder.append_ai_opening tok round_idx ids ++
        tok.encode ai [] ++ [tok.eos_token_id] := by
    simp only [xverse.dense.ChatHistoryEncoder.append_ai, xverse.dense.Tokenizer.encode]
    rw [henc ai]
    rfl
  have h2o : ids <+: xverse.dense.ChatHistoryEncoder.append_ai_opening tok round_idx ids := by
    simp only [xverse.dense.ChatHistoryEncoder.append_ai_opening, xverse.dense.Tokenizer.encode]
    rw [henc]
    exact List.prefix_append _ _
  have h3 : xverse.moe.ChatHistoryEncoder.append_ai tok round_idx ai ids =
      xverse.moe.ChatHistoryEncoder.append_ai_opening tok round_idx ids ++
        tok.encode ai [] ++ [tok.eos_token_id] := by
    simp only [xverse.moe.ChatHistoryEncoder.append_ai, xverse.dense.Tokenizer.encode2,
      xverse.dense.Tokenizer.encode]
    rw [henc ai]
    rfl
  have h3o : ids <+: xverse.moe.ChatHistoryEncoder.append_ai_opening tok round_idx ids := by
    simp only [xverse.moe.ChatHistoryEncoder.append_ai_opening, xverse.dense.Tokenizer.encode2,
      xverse.dense.Tokenizer.encode]
    rw [henc]
    exact List.prefix_append _ _
  refine ⟨⟨h1, ?_⟩, ⟨h2, ?_⟩, ⟨h3, ?_⟩⟩
  · rw [h1, List.append_assoc]
    exact h1o.trans (List.prefix_append _ _)
  · rw [h2, List.append_assoc]
    exact h2o.trans (List.prefix_append _ _)
  · rw [h3, List.append_assoc]
    exact h3o.trans (List.prefix_append _ _)

/-- C29, evaluated with the tokenizer that emits character codes: the AI text
"ok" after the ids `[7]` in the `xverse::moe` encoder. -/
theorem append_ai_spec_witness :
    (∀ text ids, toy.codes.encode text ids = ids ++ toy.codes.encode text []) ∧
      xverse.moe.ChatHistoryEncoder.append_ai toy.codes 0 "ok" [7] =
        xverse.moe.ChatHistoryEncoder.append_ai_opening toy.codes 0 [7] ++
          toy.codes.encode "ok" [] ++ [toy.codes.eos_token_id] ∧
      xverse.moe.ChatHistoryEncoder.append_ai toy.codes 0 "ok" [7] =
        [7, 97, 115, 115, 105, 115, 116, 97, 110, 116, 58, 32, 111, 107, 2] :=
  ⟨fun text ids => by simp [toy.codes],
    (append_ai_spec toy.codes (fun text ids => by simp [toy.codes]) 0 "ok" [7]).2.2.1,
    by decide⟩

/-- C30. The openchat encoder against the chat template written in its source
(`'GPT4 Correct ' + role + ': ' + content + '<|end_of_turn|>'` per message and
`'GPT4 Correct Assistant:'` as generation prompt): `append_user` passes exactly
`sys_prompt + " Correct User: " + user` to the tokenizer and then appends the
eos token, but `append_ai_opening` passes `sys_prompt + " Correct Assistant: "`,
with a space at the end, which the template's generation prompt does not have;
it appends no eos token. With the default system prompt and the tokenizer that
emits character codes, the ids differ from those of `'GPT4 Correct Assistant:'`
by the trailing `32`. -/
theorem openchat_template (tok : BaseTokenizer) (round_idx : Int) (user : String)
    (ids : List Int) :
    openchat.ChatHistoryEncoder.append_user tok round_idx user ids =
        tok.encode (tok.sys_prompt ++ " Correct User: " ++ user) ids ++ [tok.eos_token_id] ∧
      openchat.ChatHistoryEncoder.append_ai_opening tok round_idx ids =
        tok.encode (tok.sys_prompt ++ " Correct Assistant: ") ids ∧
      (openchat.Tokenizer toy.codes).sys_prompt = "GPT4" ∧
      openchat.ChatHistoryEncoder.append_user (openchat.Tokenizer toy.codes) 0 "hi" [] =
        toy.codes.encode "GPT4 Correct User: hi" [] ++ [toy.codes.eos_token_id] ∧
      openchat.ChatHistoryEncoder.append_ai_opening (openchat.Tokenizer toy.codes) 0 [] =
        toy.codes.encode "GPT4 Correct Assistant:" [] ++ [32] ∧
      openchat.ChatHistoryEncoder.append_ai_opening (openchat.Tokenizer toy.codes) 0 [] ≠
        toy.codes.encode "GPT4 Correct Assistant:" [] := by
  refine ⟨rfl, rfl, rfl, by decide, by decide, by decide⟩

end encoders

/-! ## The candidate list and the draw -/

section candidates

variable {F G : Type} [LinearOrderedField F]

theorem insert_desc_perm (t : TokenIdScore ℚ) :
    ∀ l : List (TokenIdScore ℚ), (toy.insert_desc t l).Perm (t :: l) := by
  intro l
  induction l with
  | nil => exact List.Perm.refl _
  | cons u us ih =>
    unfold toy.insert_desc
    by_cases h : u.score < t.score
    · rw [if_pos h]
    · rw [if_neg h]
      exact (List.Perm.cons u ih).trans (List.Perm.swap t u us)

theorem sort_desc_perm : ∀ l : List (TokenIdScore ℚ), (toy.sort_desc l).Perm l := by
  intro l
  induction l with
  | nil => exact List.Perm.refl _
  | cons t ts ih =>
    unfold toy.sort_desc
    exact (insert_desc_perm t _).trans (List.Perm.cons t ih)

theorem token_scores_from_mem (xs : List F) :
    ∀ (i0 : Nat) (t : TokenIdScore F), t ∈ NonGreedy.token_scores_from i0 xs →
      ∃ j : Nat, t.id = ((i0 + j : Nat) : Int) ∧ xs[j]? = some t.score := by
  induction xs with
  | nil => intro i0 t h; simp [NonGreedy.token_scores_from] at h
  | cons x xs ih =>
    intro i0 t h
    simp only [NonGreedy.token_scores_from, List.mem_cons] at h
    rcases h with h | h
    · subst h
      exact ⟨0, rfl, by simp⟩
    · obtain ⟨j, hj, hx⟩ := ih (i0 + 1) t h
      refine ⟨j + 1, ?_, ?_⟩
      · rw [hj]
        congr 1
        omega
      · simpa using hx

/-- Every candidate after the top-k step is a pair `(i, logits[i])` of the
scaled and penalised logits. -/
theorem candidates_mem (lib : StdLib F G) (hnth : ∀ n l, (lib.nth_element n l).Perm l)
    (obj : NonGreedyObject F G) (logits : List F) (t : TokenIdScore F)
    (ht : t ∈ NonGreedyObject.candidates lib obj logits) :
    ∃ j : Nat, t.id = (j : Int) ∧ j < logits.length ∧
      (NonGreedy.apply_presence_penalty obj.base
        (NonGreedy.scale_temperature obj.base logits))[j]? = some t.score := by
  have hmem : t ∈ NonGreedy.token_scores_from 0
      (NonGreedy.apply_presence_penalty obj.base
        (NonGreedy.scale_temperature obj.base logits)) := by
    unfold NonGreedyObject.candidates NonGreedy.top_k_step at ht
    split at ht
    · exact (hnth _ _).subset (List.mem_of_mem_take ht)
    · exact ht
  obtain ⟨j, hj, hx⟩ := token_scores_from_mem _ 0 t hmem
  refine ⟨j, by simpa using hj, ?_, hx⟩
  have hlt := (List.getElem?_eq_some_iff.1 hx).1
  rw [apply_presence_penalty_length, scale_temperature_length] at hlt
  exact hlt

theorem sampling_softmax_inplace_ids (exp : F → F) (ts r : List (TokenIdScore F))
    (h : NonGreedy.sampling_softmax_inplace exp ts = some r) :
    r.map TokenIdScore.id = ts.map TokenIdScore.id := by
  by_cases hne : ts = []
  · rw [(sampling_softmax_inplace_none exp ts).2 hne] at h
    cases h
  · rw [sampling_softmax_inplace_eq exp ts hne] at h
    injection h with h
    rw [← h, List.map_map]
    rfl

theorem TopPSampler_truncate_initial (top_p : F) (l : List (TokenIdScore F)) :
    ∀ c : F, TopPSampler.truncate top_p c l <+: l := by
  induction l with
  | nil => intro c; exact List.prefix_refl _
  | cons t ts ih =>
    intro c
    unfold TopPSampler.truncate
    split
    · exact ⟨ts, rfl⟩
    · exact (List.prefix_cons_inj t).2 (ih _)

theorem FreeTailSampler_truncate_initial (z : F) (ws : List F) :
    ∀ (c : F) (ts : List (TokenIdScore F)), FreeTailSampler.truncate z c ws ts <+: ts := by
  induction ws with
  | nil => intro c ts; cases ts <;> exact List.prefix_refl _
  | cons w ws ih =>
    intro c ts
    cases ts with
    | nil => exact List.prefix_refl _
    | cons t ts =>
      unfold FreeTailSampler.truncate
      split
      · exact ⟨ts, rfl⟩
      · exact (List.prefix_cons_inj t).2 (ih _ _)

/-- The ids that are left after `do_sampling` are ids of the candidates it was
given. -/
theorem do_sampling_ids (lib : StdLib F G) (hsort : ∀ l, (lib.sort l).Perm l)
    (obj obj1 : NonGreedyObject F G) (ts r : List (TokenIdScore F))
    (h : NonGreedyObject.do_sampling lib obj ts = some (r, obj1)) :
    ∀ t ∈ r, t.id ∈ ts.map TokenIdScore.id := by
  intro t ht
  have htid : t.id ∈ r.map TokenIdScore.id := List.mem_map_of_mem _ ht
  cases obj with
  | TopP base top_p =>
    cases hr : TopPSampler.do_sampling lib.exp lib.sort top_p ts with
    | none => simp [NonGreedyObject.do_sampling, hr] at h
    | some r1 =>
      simp only [NonGreedyObject.do_sampling, hr, Option.some.injEq, Prod.mk.injEq] at h
      rw [h.1] at hr
      unfold TopPSampler.do_sampling at hr
      split at hr
      · cases hp : NonGreedy.sampling_softmax_inplace lib.exp (lib.sort ts) with
        | none => simp [hp] at hr
        | some probs =>
          simp only [hp] at hr
          rw [sampling_softmax_inplace_ids _ _ _ hr] at htid
          have h1 := (TopPSampler_truncate_initial top_p probs 0).subset
          have h2 : t.id ∈ probs.map TokenIdScore.id := List.map_subset _ h1 htid
          rw [sampling_softmax_inplace_ids _ _ _ hp] at h2
          exact ((hsort ts).map _).subset h2
      · rw [sampling_softmax_inplace_ids _ _ _ hr] at htid
        exact htid
  | FreeTail base z snd_d =>
    cases hr : FreeTailSampler.do_sampling lib.exp lib.sort z snd_d ts with
    | none => simp [NonGreedyObject.do_sampling, hr] at h
    | some r1 =>
      simp only [NonGreedyObject.do_sampling, hr, Option.some.injEq, Prod.mk.injEq] at h
      unfold FreeTailSampler.do_sampling at hr
      split at hr
      · injection hr with hr
        rw [← h.1, ← hr] at htid
        exact htid
      · cases hp : NonGreedy.sampling_softmax_inplace lib.exp ts with
        | none => simp [hp] at hr
        | some probs =>
          simp only [hp, Option.some.injEq] at hr
          rw [← h.1, ← hr] at htid
          have h2 : t.id ∈ (lib.sort probs).map TokenIdScore.id :=
            List.map_subset _ (FreeTailSampler_truncate_initial z _ 0 (lib.sort probs)).subset htid
          have h3 := ((hsort probs).map TokenIdScore.id).subset h2
          rw [sampling_softmax_inplace_ids _ _ _ hp] at h3
          exact h3

/-- C21. `NonGreedySampler::sampling`, with `ts` the candidate list after top-k
and `do_sampling`: the call returns `ABORT` if and only if `ts` is empty (and
then leaves the emitted set as it was); otherwise, for an index drawn by the
distribution within `ts`, it returns the id stored in that candidate, which lies
in `[0, vocab_size)`, and the emitted set after the call is the previous one
plus that id. `std::nth_element` and `std::sort` permute their range. -/
theorem NonGreedySampler_sampling_spec (lib : StdLib F G)
    (hnth : ∀ n l, (lib.nth_element n l).Perm l) (hsort : ∀ l, (lib.sort l).Perm l)
    (obj obj1 : NonGreedyObject F G) (logits : List F) (ts : List (TokenIdScore F))
    (hdo : NonGreedyObject.do_sampling lib obj (NonGreedyObject.candidates lib obj logits) =
      some (ts, obj1)) :
    (ts = [] → ∃ obj2, NonGreedyObject.sampling lib obj logits = some (Sampler.ABORT, obj2) ∧
      obj2.base.g = obj.base.g) ∧
    (∀ t, ts[(lib.discrete_distribution obj.base.gen (ts.map TokenIdScore.score)).1]? = some t →
      ∃ obj2, NonGreedyObject.sampling lib obj logits = some (t.id, obj2) ∧
        0 ≤ t.id ∧ t.id < (logits.length : Int) ∧ obj2.base.g = insert t.id obj.base.g) ∧
    (∀ r, NonGreedyObject.sampling lib obj logits = some r →
      (r.1 = Sampler.ABORT ↔ ts = [])) := by
  have hbase := NonGreedyObject.do_sampling_base lib obj obj1 _ ts hdo
  have hid : ∀ t ∈ ts, 0 ≤ t.id ∧ t.id < (logits.length : Int) := by
    intro t ht
    have h1 := do_sampling_ids lib hsort obj obj1 _ ts hdo t ht
    obtain ⟨u, hu, hut⟩ := List.mem_map.1 h1
    obtain ⟨j, hj, hlt, -⟩ := candidates_mem lib hnth obj logits u hu
    rw [← hut, hj]
    omega
  have hempty : ts = [] → NonGreedyObject.sampling lib obj logits =
      some (Sampler.ABORT, obj1.with_base { obj1.base with token_scores := ts }) := by
    intro he
    unfold NonGreedyObject.sampling
    rw [hdo]
    simp [he]
  have hdraw : ∀ t,
      ts[(lib.discrete_distribution obj.base.gen (ts.map TokenIdScore.score)).1]? = some t →
      NonGreedyObject.sampling lib obj logits =
        some (t.id, obj1.with_base
          { obj1.base with
            token_scores := ts
            g := insert t.id obj1.base.g
            gen := (lib.discrete_distribution obj1.base.gen
              (ts.map TokenIdScore.score)).2 }) := by
    intro t ht
    have hne : ¬ ts.length < 1 := by
      have := (List.getElem?_eq_some_iff.1 ht).1
      omega
    unfold NonGreedyObject.sampling
    rw [hdo]
    simp only []
    rw [if_neg hne, List.get?_eq_getElem?, hbase, ht]
  refine ⟨?_, ?_, ?_⟩
  · intro he
    refine ⟨_, hempty he, ?_⟩
    rw [NonGreedyObject.base_with_base, hbase]
  · intro t ht
    have hmem : t ∈ ts := List.getElem?_mem ht
    refine ⟨_, hdraw t ht, (hid t hmem).1, (hid t hmem).2, ?_⟩
    rw [NonGreedyObject.base_with_base, hbase]
  · intro r hr
    constructor
    · intro hab
      by_contra hne
      have hlen : ¬ ts.length < 1 := by
        have := List.length_pos.2 hne
        omega
      unfold NonGreedyObject.sampling at hr
      rw [hdo] at hr
      simp only [] at hr
      rw [if_neg hlen, List.get?_eq_getElem?] at hr
      cases hg : ts[(lib.discrete_distribution obj1.base.gen
          (ts.map TokenIdScore.score)).1]? with
      | none => simp [hg] at hr
      | some t =>
        simp only [hg, Option.some.injEq] at hr
        rw [← hr] at hab
        have hmem : t ∈ ts := List.getElem?_mem hg
        have := (hid t hmem).1
        simp only [Sampler.ABORT] at hab
        omega
    · intro he
      rw [hempty he] at hr
      injection hr with hr
      rw [← hr]

/-- C21, evaluated: a `TopPSampler` over the logits `[3, 1]` whose draw is index
`0` returns token `0` and records it. -/
theorem NonGreedySampler_sampling_spec_witness :
    NonGreedyObject.do_sampling toy.lib toy.penalizing
        (NonGreedyObject.candidates toy.lib toy.penalizing [3, 1]) =
      some ([{ id := 0, score := 3 / 4 }, { id := 1, score := 1 / 4 }], toy.penalizing) ∧
    ∃ obj2, NonGreedyObject.sampling toy.lib toy.penalizing [3, 1] = some (0, obj2) ∧
      obj2.base.g = insert 0 toy.penalizing.base.g :=
  ⟨by decide!,
    ((NonGreedySampler_sampling_spec toy.lib (fun _ l => sort_desc_perm l) sort_desc_perm
      toy.penalizing toy.penalizing [3, 1]
      [{ id := 0, score := 3 / 4 }, { id := 1, score := 1 / 4 }] (by decide!)).2.1
      { id := 0, score := 3 / 4 } (by decide!)).imp (fun _ h => ⟨h.1, h.2.2.2⟩)⟩

end candidates

/-! ## Tail-free sampling -/

section tail_free

variable {F G : Type} [LinearOrderedField F]

theorem foldl_add (l : List F) : ∀ c : F, l.foldl (fun acc d => acc + d) c = c + l.sum := by
  induction l with
  | nil => intro c; simp
  | cons x xs ih =>
    intro c
    rw [List.foldl_cons, ih, List.sum_cons, add_assoc]

theorem second_differences_length :
    ∀ l : List (TokenIdScore F), (FreeTailSampler.second_differences l).length = l.length - 2
  | [] => rfl
  | [_] => rfl
  | [_, _] => rfl
  | a :: b :: c :: rest => by
    rw [FreeTailSampler.second_differences, List.length_cons,
      second_differences_length (b :: c :: rest)]
    simp

theorem second_differences_getElem :
    ∀ (l : List (TokenIdScore F)) (i : Nat) (a b c : F),
      (l.map TokenIdScore.score)[i]? = some a → (l.map TokenIdScore.score)[i + 1]? = some b →
      (l.map TokenIdScore.score)[i + 2]? = some c →
      (FreeTailSampler.second_differences l)[i]? = some (a + c - 2 * b)
  | [], i, a, b, c => by intro h; simp at h
  | [_], i, a, b, c => by intro _ h; simp at h
  | [_, _], i, a, b, c => by intro _ _ h; simp at h
  | x :: y :: w :: rest, 0, a, b, c => by
    intro h1 h2 h3
    simp only [List.map_cons, List.getElem?_cons_zero, List.getElem?_cons_succ, zero_add,
      Option.some.injEq] at h1 h2 h3
    simp [FreeTailSampler.second_differences, h1, h2, h3]
  | x :: y :: w :: rest, i + 1, a, b, c => by
    intro h1 h2 h3
    rw [FreeTailSampler.second_differences, List.getElem?_cons_succ]
    apply second_differences_getElem (y :: w :: rest) i a b c
    · simpa using h1
    · simpa using h2
    · simpa using h3

/-- The cumulative walk of `FreeTailSampler::do_sampling`: the list is cut
after the first index whose cumulative weight is above `z`, or left as it is. -/
theorem FreeTailSampler_truncate_spec (z : F) (ws : List F) :
    ∀ (c : F) (ts : List (TokenIdScore F)), ws.length < ts.length →
      (∃ i, i < ws.length ∧ c + (ws.take (i + 1)).sum > z ∧
        (∀ j, j < i → c + (ws.take (j + 1)).sum ≤ z) ∧
        FreeTailSampler.truncate z c ws ts = ts.take (i + 1)) ∨
      ((∀ i, i < ws.length → c + (ws.take (i + 1)).sum ≤ z) ∧
        FreeTailSampler.truncate z c ws ts = ts) := by
  induction ws with
  | nil =>
    intro c ts _
    right
    refine ⟨fun i hi => absurd hi (by simp), ?_⟩
    cases ts <;> rfl
  | cons w ws ih =>
    intro c ts hlen
    cases ts with
    | nil => simp at hlen
    | cons t ts =>
      have hlen1 : ws.length < ts.length := by simpa using hlen
      unfold FreeTailSampler.truncate
      by_cases hw : c + w > z
      · rw [if_pos hw]
        left
        refine ⟨0, by simp, by simpa using hw, fun j hj => absurd hj (by omega), by simp⟩
      · rw [if_neg hw]
        rcases ih (c + w) ts hlen1 with ⟨i, hi, hgt, hle, htr⟩ | ⟨hle, htr⟩
        · left
          refine ⟨i + 1, by simpa using hi, ?_, ?_, ?_⟩
          · simpa [add_assoc] using hgt
          · intro j hj
            cases j with
            | zero => simpa using not_lt.1 hw
            | succ j =>
              have := hle j (by omega)
              simpa [add_assoc] using this
          · rw [htr]
            simp
        · right
          refine ⟨?_, by rw [htr]⟩
          intro i hi
          cases i with
          | zero => simpa using not_lt.1 hw
          | succ i =>
            have := hle i (by simpa using hi)
            simpa [add_assoc] using this

/-- C22 as stated fails: with three equal logits and `z = 0` the weight `w[0]`
is `0`, so the cumulative sum at index `0` is `>= z` and the claim retains one
candidate, but `FreeTailSampler::do_sampling` retains all three. -/
theorem FreeTailSampler_do_sampling_counterexample :
    FreeTailSampler.do_sampling toy.exp toy.sort_desc 0 []
        [{ id := 0, score := 1 }, { id := 1, score := 1 }, { id := 2, score := 1 }] =
      some ([{ id := 2, score := 1 / 3 }, { id := 1, score := 1 / 3 },
        { id := 0, score := 1 / 3 }], [0]) ∧
    (([0] : List ℚ).take (0 + 1)).sum ≥ 0 ∧
    ([{ id := 2, score := 1 / 3 }, { id := 1, score := 1 / 3 }, { id := 0, score := 1 / 3 }] :
        List (TokenIdScore ℚ)) ≠
      ([{ id := 2, score := 1 / 3 }, { id := 1, score := 1 / 3 }, { id := 0, score := 1 / 3 }] :
        List (TokenIdScore ℚ)).take (0 + 1) := by
  decide!

/-- C22, amended. For `FreeTailSampler::do_sampling` on `n >= 3` candidates:
with `s = sort probs` the softmax probabilities sorted by `std::sort`,
`d2[i] = |s[i] + s[i+2] - 2*s[i+1]|` for `0 <= i < n-2` and
`w[i] = d2[i] / (1e-6 + sum_j d2[j])` (stored in `snd_d`), the retained
candidates are the first `i+1` sorted candidates, where `i` is the first index
at which the cumulative sum `w[0] + ... + w[i]` is `> z`; if there is no such
index all `n` candidates are retained. -/
theorem FreeTailSampler_do_sampling_spec (exp : F → F)
    (sort : List (TokenIdScore F) → List (TokenIdScore F)) (hsort : ∀ l, (sort l).Perm l)
    (z : F) (snd_d : List F) (ts : List (TokenIdScore F)) (h3 : 3 ≤ ts.length) :
    ∃ (probs : List (TokenIdScore F)) (d2 : List F) (r : List (TokenIdScore F)),
      NonGreedy.sampling_softmax_inplace exp ts = some probs ∧
      (sort probs).length = ts.length ∧
      d2.length = ts.length - 2 ∧
      (∀ (i : Nat) (a b c : F), ((sort probs).map TokenIdScore.score)[i]? = some a →
        ((sort probs).map TokenIdScore.score)[i + 1]? = some b →
        ((sort probs).map TokenIdScore.score)[i + 2]? = some c →
        d2[i]? = some (abs (a + c - 2 * b))) ∧
      FreeTailSampler.do_sampling exp sort z snd_d ts =
        some (r, d2.map (fun d => d / (1 / 1000000 + d2.sum))) ∧
      ((∃ i, i < ts.length - 2 ∧
          ((d2.map (fun d => d / (1 / 1000000 + d2.sum))).take (i + 1)).sum > z ∧
          (∀ j, j < i →
            ((d2.map (fun d => d / (1 / 1000000 + d2.sum))).take (j + 1)).sum ≤ z) ∧
          r = (sort probs).take (i + 1)) ∨
        ((∀ i, i < ts.length - 2 →
            ((d2.map (fun d => d / (1 / 1000000 + d2.sum))).take (i + 1)).sum ≤ z) ∧
          r = sort probs)) := by
  have hne : ts ≠ [] := by
    intro h
    rw [h] at h3
    simp at h3
  have hsm := sampling_softmax_inplace_eq exp ts hne
  obtain ⟨probs, hp⟩ : ∃ probs, NonGreedy.sampling_softmax_inplace exp ts = some probs :=
    ⟨_, hsm⟩
  have hplen : probs.length = ts.length := by
    have := congrArg List.length (sampling_softmax_inplace_ids exp ts probs hp)
    simpa using this
  have hslen : (sort probs).length = ts.length := by
    rw [(hsort probs).length_eq, hplen]
  have hdlen : ((FreeTailSampler.second_differences (sort probs)).map abs).length =
      ts.length - 2 := by
    rw [List.length_map, second_differences_length, hslen]
  have hdo : FreeTailSampler.do_sampling exp sort z snd_d ts =
      some (FreeTailSampler.truncate z 0
          (((FreeTailSampler.second_differences (sort probs)).map abs).map
            (fun d => d / (1 / 1000000 +
              ((FreeTailSampler.second_differences (sort probs)).map abs).sum)))
          (sort probs),
        ((FreeTailSampler.second_differences (sort probs)).map abs).map
          (fun d => d / (1 / 1000000 +
            ((FreeTailSampler.second_differences (sort probs)).map abs).sum))) := by
    unfold FreeTailSampler.do_sampling
    rw [if_neg (by omega), hp]
    simp only [foldl_add]
  have hwlen : (((FreeTailSampler.second_differences (sort probs)).map abs).map
      (fun d => d / (1 / 1000000 +
        ((FreeTailSampler.second_differences (sort probs)).map abs).sum))).length =
      ts.length - 2 := by
    rw [List.length_map, hdlen]
  refine ⟨probs, (FreeTailSampler.second_differences (sort probs)).map abs, _, hp, hslen,
    hdlen, ?_, hdo, ?_⟩
  · intro i a b c ha hb hc
    rw [List.getElem?_map, second_differences_getElem (sort probs) i a b c ha hb hc]
    rfl
  · rcases FreeTailSampler_truncate_spec z _ 0 (sort probs)
        (by rw [hwlen, hslen]; omega) with ⟨i, hi, hgt, hle, htr⟩ | ⟨hle, htr⟩
    · left
      rw [hwlen] at hi
      refine ⟨i, hi, by simpa using hgt, ?_, htr⟩
      intro j hj
      simpa using hle j hj
    · right
      refine ⟨?_, htr⟩
      intro i hi
      rw [← hwlen] at hi
      simpa using hle i hi

/-- C22, evaluated: over the scores `3, 1, 2, 0` with `z = 1/2` the first weight
is already above `z` and one candidate is retained. -/
theorem FreeTailSampler_do_sampling_spec_witness :
    3 ≤ ([{ id := 0, score := 3 }, { id := 1, score := 1 }, { id := 2, score := 2 },
        { id := 3, score := 0 }] : List (TokenIdScore ℚ)).length ∧
    (∃ probs, NonGreedy.sampling_softmax_inplace toy.exp
        [{ id := 0, score := 3 }, { id := 1, score := 1 }, { id := 2, score := 2 },
          { id := 3, score := 0 }] = some probs ∧
      (toy.sort_desc probs).length = 4) ∧
    FreeTailSampler.do_sampling toy.exp toy.sort_desc (1 / 2) []
        [{ id := 0, score := 3 }, { id := 1, score := 1 }, { id := 2, score := 2 },
          { id := 3, score := 0 }] =
      some ([{ id := 0, score := 12 / 25 }], [160000 / 200001, 40000 / 200001]) :=
  ⟨by decide,
    (FreeTailSampler_do_sampling_spec toy.exp toy.sort_desc sort_desc_perm (1 / 2) []
      [{ id := 0, score := 3 }, { id := 1, score := 1 }, { id := 2, score := 2 },
        { id := 3, score := 0 }] (by decide)).imp (fun _ h => h.elim (fun _ h1 =>
          h1.elim (fun _ h2 => ⟨h2.1, h2.2.1⟩))),
    by decide!⟩

/-- C23. When fewer than 3 candidates remain after top-k,
`FreeTailSampler::do_sampling` leaves the candidate list as it is (same ids,
same scores, same order) and the object too; the candidates are pairs
`(i, logits[i])` of the temperature-scaled, penalised logits, and their scores
are handed to the distribution as weights without a softmax: an empty list gives
`ABORT`, and otherwise the token returned is the id at the index drawn over
these scores. -/
theorem FreeTailSampler_few_candidates (lib : StdLib F G)
    (hnth : ∀ n l, (lib.nth_element n l).Perm l)
    (base : NonGreedy F G) (z : F) (snd_d : List F) (logits : List F)
    (hfew : (NonGreedyObject.candidates lib (NonGreedyObject.FreeTail base z snd_d)
      logits).length < 3) :
    FreeTailSampler.do_sampling lib.exp lib.sort z snd_d
        (NonGreedyObject.candidates lib (NonGreedyObject.FreeTail base z snd_d) logits) =
      some (NonGreedyObject.candidates lib (NonGreedyObject.FreeTail base z snd_d) logits,
        snd_d) ∧
    NonGreedyObject.do_sampling lib (NonGreedyObject.FreeTail base z snd_d)
        (NonGreedyObject.candidates lib (NonGreedyObject.FreeTail base z snd_d) logits) =
      some (NonGreedyObject.candidates lib (NonGreedyObject.FreeTail base z snd_d) logits,
        NonGreedyObject.FreeTail base z snd_d) ∧
    (∀ t ∈ NonGreedyObject.candidates lib (NonGreedyObject.FreeTail base z snd_d) logits,
      ∃ j : Nat, t.id = (j : Int) ∧
        (NonGreedy.apply_presence_penalty base
          (NonGreedy.scale_temperature base logits))[j]? = some t.score) ∧
    (NonGreedyObject.candidates lib (NonGreedyObject.FreeTail base z snd_d) logits = [] →
      ∃ obj2, NonGreedyObject.sampling lib (NonGreedyObject.FreeTail base z snd_d) logits =
        some (Sampler.ABORT, obj2)) ∧
    (∀ t,
      (NonGreedyObject.candidates lib (NonGreedyObject.FreeTail base z snd_d) logits)[
        (lib.discrete_distribution base.gen
          ((NonGreedyObject.candidates lib (NonGreedyObject.FreeTail base z snd_d)
            logits).map TokenIdScore.score)).1]? = some t →
      ∃ obj2, NonGreedyObject.sampling lib (NonGreedyObject.FreeTail base z snd_d) logits =
        some (t.id, obj2)) := by
  have h1 : FreeTailSampler.do_sampling lib.exp lib.sort z snd_d
      (NonGreedyObject.candidates lib (NonGreedyObject.FreeTail base z snd_d) logits) =
      some (NonGreedyObject.candidates lib (NonGreedyObject.FreeTail base z snd_d) logits,
        snd_d) := by
    unfold FreeTailSampler.do_sampling
    rw [if_pos hfew]
  have h2 : NonGreedyObject.do_sampling lib (NonGreedyObject.FreeTail base z snd_d)
      (NonGreedyObject.candidates lib (NonGreedyObject.FreeTail base z snd_d) logits) =
      some (NonGreedyObject.candidates lib (NonGreedyObject.FreeTail base z snd_d) logits,
        NonGreedyObject.FreeTail base z snd_d) := by
    simp only [NonGreedyObject.do_sampling, h1]
  refine ⟨h1, h2, ?_, ?_, ?_⟩
  · intro t ht
    obtain ⟨j, hj, -, hx⟩ := candidates_mem lib hnth _ logits t ht
    exact ⟨j, hj, hx⟩
  · intro he
    unfold NonGreedyObject.sampling
    rw [h2]
    simp [he]
  · intro t ht
    have hne : ¬ (NonGreedyObject.candidates lib (NonGreedyObject.FreeTail base z snd_d)
        logits).length < 1 := by
      have := (List.getElem?_eq_some_iff.1 ht).1
      omega
    unfold NonGreedyObject.sampling
    rw [h2]
    simp only []
    rw [if_neg hne, List.get?_eq_getElem?]
    have hb : (NonGreedyObject.FreeTail base z snd_d).base.gen = base.gen := rfl
    rw [hb, ht]
    exact ⟨_, rfl⟩

/-- C23, evaluated: `top_k = 2` over the logits `[3, 1, 2]` leaves the candidates
`(0, 3)` and `(2, 2)`, which pass through `do_sampling` with their scores. -/
theorem FreeTailSampler_few_candidates_witness :
    (NonGreedyObject.candidates toy.lib
        (NonGreedyObject.FreeTail (NonGreedy.create toy.lib 1 1 2) (1 / 2) []) [3, 1, 2] =
      [{ id := 0, score := 3 }, { id := 2, score := 2 }]) ∧
    NonGreedyObject.do_sampling toy.lib
        (NonGreedyObject.FreeTail (NonGreedy.create toy.lib 1 1 2) (1 / 2) [])
        (NonGreedyObject.candidates toy.lib
          (NonGreedyObject.FreeTail (NonGreedy.create toy.lib 1 1 2) (1 / 2) []) [3, 1, 2]) =
      some (NonGreedyObject.candidates toy.lib
          (NonGreedyObject.FreeTail (NonGreedy.create toy.lib 1 1 2) (1 / 2) []) [3, 1, 2],
        NonGreedyObject.FreeTail (NonGreedy.create toy.lib 1 1 2) (1 / 2) []) :=
  ⟨by decide!,
    (FreeTailSampler_few_candidates toy.lib (fun _ l => sort_desc_perm l)
      (NonGreedy.create toy.lib 1 1 2) (1 / 2) [] [3, 1, 2] (by decide!)).2.1⟩

end tail_free

/-! ## Display names -/

section names

theorem except_toBool_ok {ε α : Type} (x : Except ε α) (h : x.toBool = true) :
    ∃ a, x = Except.ok a := by
  cases x with
  | error e => simp [Except.toBool] at h
  | ok a => exact ⟨a, rfl⟩

theorem to_native_string_ok (model_type : Int) :
    ∃ s, to_native_string model_type = Except.ok s := by
  unfold to_native_string
  split_ifs <;> exact ⟨_, rfl⟩

/-- C36. Every model type of an `ALL_MODELS` entry has a display name:
`to_string` does not raise for it, so the constructor's calls of `to_string`,
`to_native_string` and `get_model_purpose` on that type succeed and yield that
name; `to_native_string` raises for no value at all. -/
theorem to_string_ALL_MODELS :
    (∀ e ∈ ALL_MODELS, ∃ name native, to_string e.model_type = Except.ok name ∧
      BaseModelForConditionalGeneration.names e.model_type =
        Except.ok (name, native, get_model_purpose e.model_type)) ∧
    (∀ model_type : Int, ∃ s, to_native_string model_type = Except.ok s) := by
  refine ⟨?_, to_native_string_ok⟩
  intro e he
  have hall : ∀ e ∈ ALL_MODELS, (to_string e.model_type).toBool = true := by decide
  obtain ⟨name, hname⟩ := except_toBool_ok _ (hall e he)
  obtain ⟨native, hnative⟩ := to_native_string_ok e.model_type
  refine ⟨name, native, hname, ?_⟩
  simp only [BaseModelForConditionalGeneration.names, hname, hnative]

end names

/-! ## The numinamath encoder -/

section numinamath_encoder

/-- C38. For the numinamath history encoder, assuming the tokenizer's text
encoding only appends to `ids`: `append_ai` leaves `ids` equal to (the result of
`append_ai_opening` on the initial ids) `++ encode(ai)`, with no eos token after
it; `append_sys_prompt` appends exactly the single token `bos_token_id`; and the
results of the operations that take `round_idx` do not depend on it. -/
theorem numinamath_encoder_spec (tok : BaseTokenizer)
    (henc : ∀ text ids, tok.encode text ids = ids ++ tok.encode text [])
    (round_idx : Int) (text : String) (ids : List Int) :
    numinamath.ChatHistoryEncoder.append_ai tok round_idx text ids =
        numinamath.ChatHistoryEncoder.append_ai_opening tok round_idx ids ++
          tok.encode text [] ∧
      numinamath.ChatHistoryEncoder.append_ai tok round_idx text ids =
        ids ++ tok.encode "### Solution: " [] ++ tok.encode text [] ∧
      numinamath.ChatHistoryEncoder.append_sys_prompt tok ids = ids ++ [tok.bos_token_id] ∧
      (∀ r : Int,
        numinamath.ChatHistoryEncoder.append_ai tok r text ids =
          numinamath.ChatHistoryEncoder.append_ai tok round_idx text ids ∧
        numinamath.ChatHistoryEncoder.append_user tok r text ids =
          numinamath.ChatHistoryEncoder.append_user tok round_idx text ids ∧
        numinamath.ChatHistoryEncoder.append_ai_opening tok r ids =
          numinamath.ChatHistoryEncoder.append_ai_opening tok round_idx ids) := by
  have h1 : numinamath.ChatHistoryEncoder.append_ai tok round_idx text ids =
      numinamath.ChatHistoryEncoder.append_ai_opening tok round_idx ids ++
        tok.encode text [] := by
    simp only [numinamath.ChatHistoryEncoder.append_ai, numinamath.Tokenizer.encode]
    rw [henc text]
    rfl
  have h2 : numinamath.ChatHistoryEncoder.append_ai_opening tok round_idx ids =
      ids ++ tok.encode "### Solution: " [] := by
    simp only [numinamath.ChatHistoryEncoder.append_ai_opening, numinamath.Tokenizer.encode]
    rw [henc]
    rfl
  refine ⟨h1, ?_, rfl, fun r => ⟨rfl, rfl, rfl⟩⟩
  rw [h1, h2]

/-- C38, evaluated with the tokenizer that emits character codes: the AI text
"ok" after the ids `[7]`; the last token is the code of `k`, not eos. -/
theorem numinamath_encoder_spec_witness :
    (∀ text ids, toy.codes.encode text ids = ids ++ toy.codes.encode text []) ∧
      numinamath.ChatHistoryEncoder.append_ai toy.codes 0 "ok" [7] =
        numinamath.ChatHistoryEncoder.append_ai_opening toy.codes 0 [7] ++
          toy.codes.encode "ok" [] ∧
      numinamath.ChatHistoryEncoder.append_ai toy.codes 0 "ok" [7] =
        [7, 35, 35, 35, 32, 83, 111, 108, 117, 116, 105, 111, 110, 58, 32, 111, 107] :=
  ⟨fun text ids => by simp [toy.codes],
    (numinamath_encoder_spec toy.codes (fun text ids => by simp [toy.codes]) 0 "ok" [7]).1,
    by decide⟩

end numinamath_encoder

/-! ## The top-k step -/

section top_k

variable {F G : Type} [LinearOrderedField F]

theorem token_scores_from_getElem (xs : List F) :
    ∀ (i0 j : Nat) (x : F), xs[j]? = some x →
      (NonGreedy.token_scores_from i0 xs)[j]? = some { id := ((i0 + j : Nat) : Int), score := x } := by
  induction xs with
  | nil => intro i0 j x h; simp at h
  | cons y ys ih =>
    intro i0 j x h
    cases j with
    | zero =>
      simp only [List.getElem?_cons_zero, Option.some.injEq] at h
      simp [NonGreedy.token_scores_from, h]
    | succ j =>
      simp only [List.getElem?_cons_succ] at h
      simp only [NonGreedy.token_scores_from, List.getElem?_cons_succ]
      rw [ih (i0 + 1) j x h]
      congr 3
      omega

theorem token_scores_from_ids (xs : List F) :
    ∀ i0 : Nat, (NonGreedy.token_scores_from i0 xs).map TokenIdScore.id =
      List.map Int.ofNat (List.range' i0 xs.length) := by
  induction xs with
  | nil => intro i0; rfl
  | cons y ys ih =>
    intro i0
    simp only [NonGreedy.token_scores_from, List.map_cons, List.length_cons, List.range'_succ]
    rw [ih (i0 + 1)]
    rfl

theorem token_scores_from_nodup (xs : List F) (i0 : Nat) :
    ((NonGreedy.token_scores_from i0 xs).map TokenIdScore.id).Nodup := by
  rw [token_scores_from_ids]
  exact (List.nodup_range' i0 xs.length).map (fun a b h => Int.ofNat.inj h)

/-- C32. In `NonGreedySampler::sampling`, with `ts0` the pairs `(i, logits[i])`,
`i = 0..vocab_size-1` in id order, of the logits as the earlier steps left them:
when `0 < top_k < vocab_size` the candidate list after the top-k step, together
with the discarded entries, is a rearrangement of `ts0`, so it is a sub-multiset
of `ts0`, its ids are distinct, and every retained score is `>=` every discarded
score; when `top_k <= 0` or `top_k >= vocab_size` the candidate list is `ts0`
itself. `std::nth_element` rearranges its range so that no entry from position
`top_k` on is greater than an entry before it. -/
theorem top_k_step_spec (lib : StdLib F G) (obj : NonGreedyObject F G) (logits : List F)
    (hperm : (lib.nth_element obj.base.top_k.toNat
        (NonGreedy.token_scores_from 0 (NonGreedy.apply_presence_penalty obj.base
          (NonGreedy.scale_temperature obj.base logits)))).Perm
      (NonGreedy.token_scores_from 0 (NonGreedy.apply_presence_penalty obj.base
        (NonGreedy.scale_temperature obj.base logits))))
    (hpart : ∀ a ∈ (lib.nth_element obj.base.top_k.toNat
        (NonGreedy.token_scores_from 0 (NonGreedy.apply_presence_penalty obj.base
          (NonGreedy.scale_temperature obj.base logits)))).take obj.base.top_k.toNat,
      ∀ b ∈ (lib.nth_element obj.base.top_k.toNat
        (NonGreedy.token_scores_from 0 (NonGreedy.apply_presence_penalty obj.base
          (NonGreedy.scale_temperature obj.base logits)))).drop obj.base.top_k.toNat,
      b.score ≤ a.score) :
    ((NonGreedy.token_scores_from 0 (NonGreedy.apply_presence_penalty obj.base
        (NonGreedy.scale_temperature obj.base logits))).length = logits.length ∧
      ∀ (i : Nat) (x : F), (NonGreedy.apply_presence_penalty obj.base
          (NonGreedy.scale_temperature obj.base logits))[i]? = some x →
        (NonGreedy.token_scores_from 0 (NonGreedy.apply_presence_penalty obj.base
          (NonGreedy.scale_temperature obj.base logits)))[i]? =
            some { id := (i : Int), score := x }) ∧
    (0 < obj.base.top_k → obj.base.top_k < (logits.length : Int) →
      ∃ discarded : List (TokenIdScore F),
        (NonGreedyObject.candidates lib obj logits ++ discarded).Perm
          (NonGreedy.token_scores_from 0 (NonGreedy.apply_presence_penalty obj.base
            (NonGreedy.scale_temperature obj.base logits))) ∧
        (NonGreedyObject.candidates lib obj logits).Subperm
          (NonGreedy.token_scores_from 0 (NonGreedy.apply_presence_penalty obj.base
            (NonGreedy.scale_temperature obj.base logits))) ∧
        ((NonGreedyObject.candidates lib obj logits).map TokenIdScore.id).Nodup ∧
        ∀ a ∈ NonGreedyObject.candidates lib obj logits, ∀ b ∈ discarded,
          b.score ≤ a.score) ∧
    (obj.base.top_k ≤ 0 ∨ (logits.length : Int) ≤ obj.base.top_k →
      NonGreedyObject.candidates lib obj logits =
        NonGreedy.token_scores_from 0 (NonGreedy.apply_presence_penalty obj.base
          (NonGreedy.scale_temperature obj.base logits))) := by
  have hlen : (NonGreedy.token_scores_from 0
      (NonGreedy.apply_presence_penalty obj.base
        (NonGreedy.scale_temperature obj.base logits))).length = logits.length := by
    rw [token_scores_from_length, apply_presence_penalty_length, scale_temperature_length]
  refine ⟨⟨hlen, ?_⟩, ?_, ?_⟩
  · intro i x hx
    have := token_scores_from_getElem _ 0 i x hx
    simpa using this
  · intro h0 hk
    have hc : NonGreedyObject.candidates lib obj logits =
        (lib.nth_element obj.base.top_k.toNat
          (NonGreedy.token_scores_from 0 (NonGreedy.apply_presence_penalty obj.base
            (NonGreedy.scale_temperature obj.base logits)))).take obj.base.top_k.toNat := by
      unfold NonGreedyObject.candidates NonGreedy.top_k_step
      rw [hlen, if_pos ⟨h0, hk⟩]
    have hsplit : (NonGreedyObject.candidates lib obj logits ++
        (lib.nth_element obj.base.top_k.toNat
          (NonGreedy.token_scores_from 0 (NonGreedy.apply_presence_penalty obj.base
            (NonGreedy.scale_temperature obj.base logits)))).drop obj.base.top_k.toNat).Perm
        (NonGreedy.token_scores_from 0 (NonGreedy.apply_presence_penalty obj.base
          (NonGreedy.scale_temperature obj.base logits))) := by
      rw [hc, List.take_append_drop]
      exact hperm
    have hsub : (NonGreedyObject.candidates lib obj logits).Subperm
        (NonGreedy.token_scores_from 0 (NonGreedy.apply_presence_penalty obj.base
          (NonGreedy.scale_temperature obj.base logits))) :=
      (List.sublist_append_left _ _).subperm.trans hsplit.subperm
    refine ⟨_, hsplit, hsub, ?_, ?_⟩
    · exact List.Nodup.sublist
        ((List.sublist_append_left _ _).map TokenIdScore.id)
        ((hsplit.map TokenIdScore.id).nodup_iff.2 (token_scores_from_nodup _ 0))
    · rw [hc]
      exact hpart
  · intro h
    unfold NonGreedyObject.candidates NonGreedy.top_k_step
    rw [hlen, if_neg (by omega)]

/-- C32, evaluated: `top_k = 2` over the logits `[3, 1, 2]` retains `(0, 3)` and
`(2, 2)` and discards `(1, 1)`. -/
theorem top_k_step_spec_witness :
    (∀ a ∈ (toy.lib.nth_element 2 [{ id := 0, score := 3 }, { id := 1, score := 1 },
        { id := 2, score := 2 }]).take 2,
      ∀ b ∈ (toy.lib.nth_element 2 [{ id := 0, score := 3 }, { id := 1, score := 1 },
        { id := 2, score := 2 }]).drop 2, b.score ≤ a.score) ∧
    NonGreedyObject.candidates toy.lib
        (NonGreedyObject.FreeTail (NonGreedy.create toy.lib 1 1 2) (1 / 2) []) [3, 1, 2] =
      [{ id := 0, score := 3 }, { id := 2, score := 2 }] ∧
    ∃ discarded : List (TokenIdScore ℚ),
      (NonGreedyObject.candidates toy.lib
          (NonGreedyObject.FreeTail (NonGreedy.create toy.lib 1 1 2) (1 / 2) []) [3, 1, 2] ++
        discarded).Perm
        (NonGreedy.token_scores_from 0
          (NonGreedy.apply_presence_penalty
            (NonGreedyObject.FreeTail (NonGreedy.create toy.lib 1 1 2) (1 / 2) []).base
            (NonGreedy.scale_temperature
              (NonGreedyObject.FreeTail (NonGreedy.create toy.lib 1 1 2) (1 / 2) []).base
              [3, 1, 2]))) :=
  ⟨by decide!, by decide!,
    ((top_k_step_spec toy.lib
      (NonGreedyObject.FreeTail (NonGreedy.create toy.lib 1 1 2) (1 / 2) []) [3, 1, 2]
      (sort_desc_perm _) (by decide!)).2.1 (by decide) (by decide)).imp (fun _ h => h.1)⟩

end top_k

/-! ## What truncation keeps -/

section kept

variable {F G : Type} [LinearOrderedField F]

theorem insert_desc_sorted (t : TokenIdScore ℚ) :
    ∀ l : List (TokenIdScore ℚ), l.Pairwise (fun a b => b.score ≤ a.score) →
      (toy.insert_desc t l).Pairwise (fun a b => b.score ≤ a.score) := by
  intro l
  induction l with
  | nil => intro _; simp [toy.insert_desc]
  | cons u us ih =>
    intro h
    rw [List.pairwise_cons] at h
    unfold toy.insert_desc
    by_cases hu : u.score < t.score
    · rw [if_pos hu]
      refine List.pairwise_cons.2 ⟨?_, List.pairwise_cons.2 h⟩
      intro x hx
      rcases List.mem_cons.1 hx with hx | hx
      · rw [hx]
        exact le_of_lt hu
      · exact le_trans (h.1 x hx) (le_of_lt hu)
    · rw [if_neg hu]
      refine List.pairwise_cons.2 ⟨?_, ih h.2⟩
      intro x hx
      rcases List.mem_cons.1 ((insert_desc_perm t us).subset hx) with hx | hx
      · rw [hx]
        exact not_lt.1 hu
      · exact h.1 x hx

theorem sort_desc_sorted :
    ∀ l : List (TokenIdScore ℚ), (toy.sort_desc l).Pairwise (fun a b => b.score ≤ a.score) := by
  intro l
  induction l with
  | nil => simp [toy.sort_desc]
  | cons t ts ih =>
    unfold toy.sort_desc
    exact insert_desc_sorted t _ ih

theorem sort_desc_partition (n : Nat) (l : List (TokenIdScore ℚ)) :
    ∀ a ∈ (toy.sort_desc l).take n, ∀ b ∈ (toy.sort_desc l).drop n, b.score ≤ a.score := by
  have h := sort_desc_sorted l
  rw [← List.take_append_drop n (toy.sort_desc l), List.pairwise_append] at h
  exact h.2.2

theorem toy_exp_pos (x : ℚ) : 0 < toy.exp x := by
  unfold toy.exp
  split
  · linarith
  · apply div_pos one_pos
    linarith

theorem toy_exp_strictMono : StrictMono toy.exp := by
  intro x y hxy
  unfold toy.exp
  by_cases hx : 0 ≤ x
  · have hy : 0 ≤ y := le_trans hx (le_of_lt hxy)
    rw [if_pos hx, if_pos hy]
    linarith
  · rw [if_neg hx]
    have hx1 : 0 < 1 - x := by linarith
    by_cases hy : 0 ≤ y
    · rw [if_pos hy]
      have : 1 / (1 - x) < 1 := by
        rw [div_lt_one hx1]
        linarith
      linarith
    · rw [if_neg hy]
      have hy1 : 0 < 1 - y := by linarith
      exact one_div_lt_one_div_of_lt hy1 (by linarith)

theorem candidates_ne_nil (lib : StdLib F G) (hnth : ∀ n l, (lib.nth_element n l).Perm l)
    (obj : NonGreedyObject F G) (logits : List F) (h : logits ≠ []) :
    NonGreedyObject.candidates lib obj logits ≠ [] := by
  have hlen : (NonGreedy.token_scores_from 0
      (NonGreedy.apply_presence_penalty obj.base
        (NonGreedy.scale_temperature obj.base logits))).length = logits.length := by
    rw [token_scores_from_length, apply_presence_penalty_length, scale_temperature_length]
  have hpos : 0 < logits.length := List.length_pos.2 h
  intro he
  have h0 := congrArg List.length he
  unfold NonGreedyObject.candidates NonGreedy.top_k_step at h0
  split at h0
  · rename_i hk
    rw [List.length_take, (hnth _ _).length_eq, hlen] at h0
    simp only [List.length_nil] at h0
    omega
  · rw [hlen] at h0
    simp only [List.length_nil] at h0
    omega

theorem TopPSampler_truncate_cons (top_p c : F) (t : TokenIdScore F)
    (ts : List (TokenIdScore F)) :
    ∃ tl, TopPSampler.truncate top_p c (t :: ts) = t :: tl := by
  unfold TopPSampler.truncate
  split
  · exact ⟨[], rfl⟩
  · exact ⟨_, rfl⟩

theorem FreeTailSampler_truncate_cons (z c : F) (ws : List F) (t : TokenIdScore F)
    (ts : List (TokenIdScore F)) :
    ∃ tl, FreeTailSampler.truncate z c ws (t :: ts) = t :: tl := by
  cases ws with
  | nil => exact ⟨ts, rfl⟩
  | cons w ws =>
    unfold FreeTailSampler.truncate
    split
    · exact ⟨[], rfl⟩
    · exact ⟨_, rfl⟩

/-- On a non-empty candidate list `do_sampling` is defined and leaves a
non-empty list. -/
theorem do_sampling_ne_nil (lib : StdLib F G) (hsort : ∀ l, (lib.sort l).Perm l)
    (obj : NonGreedyObject F G) (ts : List (TokenIdScore F)) (h : ts ≠ []) :
    ∃ r obj1, NonGreedyObject.do_sampling lib obj ts = some (r, obj1) ∧ r ≠ [] := by
  have hsne : ∀ l : List (TokenIdScore F), l ≠ [] → lib.sort l ≠ [] := by
    intro l hl he
    have := (hsort l).length_eq
    rw [he] at this
    exact hl (List.length_eq_zero.1 this.symm)
  cases obj with
  | TopP base top_p =>
    simp only [NonGreedyObject.do_sampling, TopPSampler.do_sampling]
    by_cases hp : 0 < top_p ∧ top_p < 1
    · rw [if_pos hp, sampling_softmax_inplace_eq lib.exp _ (hsne ts h)]
      simp only []
      obtain ⟨x, xs, hx⟩ := List.exists_cons_of_ne_nil (hsne ts h)
      rw [hx, List.map_cons]
      obtain ⟨tl, htl⟩ := TopPSampler_truncate_cons top_p 0 _ (xs.map _)
      rw [htl, sampling_softmax_inplace_eq lib.exp _ (List.cons_ne_nil _ _)]
      exact ⟨_, _, rfl, by simp⟩
    · rw [if_neg hp, sampling_softmax_inplace_eq lib.exp _ h]
      exact ⟨_, _, rfl, by simpa using h⟩
  | FreeTail base z snd_d =>
    simp only [NonGreedyObject.do_sampling, FreeTailSampler.do_sampling]
    by_cases h3 : ts.length < 3
    · rw [if_pos h3]
      exact ⟨_, _, rfl, h⟩
    · rw [if_neg h3, sampling_softmax_inplace_eq lib.exp _ h]
      simp only []
      have hm : ts.map (fun t => ({ t with
          score := lib.exp (t.score - NonGreedy.max_score ts) *
            (1 / (ts.map (fun u => lib.exp (u.score - NonGreedy.max_score ts))).sum) } :
          TokenIdScore F)) ≠ [] := by simpa using h
      obtain ⟨x, xs, hx⟩ := List.exists_cons_of_ne_nil (hsne _ hm)
      rw [hx]
      obtain ⟨tl, htl⟩ := FreeTailSampler_truncate_cons z 0
        (((FreeTailSampler.second_differences (x :: xs)).map abs).map
          (fun d => d / List.foldl (fun acc d => acc + d) (1 / 1000000)
            ((FreeTailSampler.second_differences (x :: xs)).map abs))) x xs
      rw [htl]
      exact ⟨_, _, rfl, by simp⟩

/-- C34. For every `vocab_size >= 1` and every setting of the sampler, the
candidate list of a `TopPSampler` and of a `FreeTailSampler` is non-empty after
top-k and `do_sampling`, so `NonGreedySampler::sampling` does not return
`ABORT`: for an index drawn within the list it returns the id stored there,
which is not `ABORT`; and a call that returns `ABORT` has `vocab_size = 0`.
`std::nth_element` and `std::sort` permute their range. -/
theorem sampling_never_aborts (lib : StdLib F G)
    (hnth : ∀ n l, (lib.nth_element n l).Perm l) (hsort : ∀ l, (lib.sort l).Perm l)
    (obj : NonGreedyObject F G) (logits : List F) :
    (1 ≤ logits.length →
      ∃ ts obj1,
        NonGreedyObject.do_sampling lib obj (NonGreedyObject.candidates lib obj logits) =
          some (ts, obj1) ∧
        ts ≠ [] ∧
        (∀ t, ts[(lib.discrete_distribution obj.base.gen
            (ts.map TokenIdScore.score)).1]? = some t →
          ∃ obj2, NonGreedyObject.sampling lib obj logits = some (t.id, obj2) ∧
            t.id ≠ Sampler.ABORT) ∧
        (∀ r, NonGreedyObject.sampling lib obj logits = some r → r.1 ≠ Sampler.ABORT)) ∧
    (∀ r, NonGreedyObject.sampling lib obj logits = some r → r.1 = Sampler.ABORT →
      logits.length = 0) := by
  have key : 1 ≤ logits.length →
      ∃ ts obj1,
        NonGreedyObject.do_sampling lib obj (NonGreedyObject.candidates lib obj logits) =
          some (ts, obj1) ∧
        ts ≠ [] ∧
        (∀ t, ts[(lib.discrete_distribution obj.base.gen
            (ts.map TokenIdScore.score)).1]? = some t →
          ∃ obj2, NonGreedyObject.sampling lib obj logits = some (t.id, obj2) ∧
            t.id ≠ Sampler.ABORT) ∧
        (∀ r, NonGreedyObject.sampling lib obj logits = some r → r.1 ≠ Sampler.ABORT) := by
    intro h1
    have hne : logits ≠ [] := by
      intro he
      rw [he] at h1
      simp at h1
    obtain ⟨ts, obj1, hdo, hts⟩ := do_sampling_ne_nil lib hsort obj _
      (candidates_ne_nil lib hnth obj logits hne)
    have hbase := NonGreedyObject.do_sampling_base lib obj obj1 _ ts hdo
    have hid : ∀ t ∈ ts, t.id ≠ Sampler.ABORT := by
      intro t ht
      have h2 := do_sampling_ids lib hsort obj obj1 _ ts hdo t ht
      obtain ⟨u, hu, hut⟩ := List.mem_map.1 h2
      obtain ⟨j, hj, -, -⟩ := candidates_mem lib hnth obj logits u hu
      rw [← hut, hj]
      simp only [Sampler.ABORT]
      omega
    have hlen : ¬ ts.length < 1 := by
      have := List.length_pos.2 hts
      omega
    have hs : NonGreedyObject.sampling lib obj logits =
        match ts[(lib.discrete_distribution obj.base.gen (ts.map TokenIdScore.score)).1]? with
        | none => none
        | some t =>
          some (t.id, obj1.with_base
            { obj1.base with
              token_scores := ts
              g := insert t.id obj1.base.g
              gen := (lib.discrete_distribution obj1.base.gen
                (ts.map TokenIdScore.score)).2 }) := by
      unfold NonGreedyObject.sampling
      rw [hdo]
      simp only []
      rw [if_neg hlen, List.get?_eq_getElem?, hbase]
    refine ⟨ts, obj1, hdo, hts, ?_, ?_⟩
    · intro t ht
      rw [hs, ht]
      exact ⟨_, rfl, hid t (List.getElem?_mem ht)⟩
    · intro r hr
      rw [hs] at hr
      cases hg : ts[(lib.discrete_distribution obj.base.gen
          (ts.map TokenIdScore.score)).1]? with
      | none => simp [hg] at hr
      | some t =>
        simp only [hg, Option.some.injEq] at hr
        rw [← hr]
        exact hid t (List.getElem?_mem hg)
  refine ⟨key, ?_⟩
  intro r hr hab
  by_contra hn
  obtain ⟨_, _, _, _, _, hno⟩ := key (by omega)
  exact hno r hr hab

/-- C34, evaluated: a `TopPSampler` over the logits `[3, 1]` returns token `0`. -/
theorem sampling_never_aborts_witness :
    1 ≤ ([3, 1] : List ℚ).length ∧
      ∃ ts obj1,
        NonGreedyObject.do_sampling toy.lib toy.penalizing
            (NonGreedyObject.candidates toy.lib toy.penalizing [3, 1]) = some (ts, obj1) ∧
          ts ≠ [] :=
  ⟨by decide,
    ((sampling_never_aborts toy.lib (fun _ l => sort_desc_perm l) sort_desc_perm
      toy.penalizing [3, 1]).1 (by decide)).imp
        (fun _ h => h.imp (fun _ h1 => ⟨h1.1, h1.2.1⟩))⟩

theorem softmax_sum_pos (exp : F → F) (hexp : ∀ x, 0 < exp x) (ts : List (TokenIdScore F))
    (h : ts ≠ []) (mx : F) : 0 < (ts.map (fun u => exp (u.score - mx))).sum := by
  apply List.sum_pos
  · intro x hx
    obtain ⟨u, -, hu⟩ := List.mem_map.1 hx
    rw [← hu]
    exact hexp _
  · simpa using h

theorem sorted_head_max (sort : List (TokenIdScore F) → List (TokenIdScore F))
    (hsort : ∀ l, (sort l).Perm l)
    (hsorted : ∀ l, (sort l).Pairwise (fun a b => b.score ≤ a.score))
    (l : List (TokenIdScore F)) (h : l ≠ []) :
    ∃ x xs, sort l = x :: xs ∧ x ∈ l ∧ ∀ v ∈ l, v.score ≤ x.score := by
  have hne : sort l ≠ [] := by
    intro he
    have := (hsort l).length_eq
    rw [he] at this
    exact h (List.length_eq_zero.1 this.symm)
  obtain ⟨x, xs, hx⟩ := List.exists_cons_of_ne_nil hne
  refine ⟨x, xs, hx, (hsort l).subset (by rw [hx]; exact List.mem_cons_self _ _), ?_⟩
  intro v hv
  have hv1 : v ∈ sort l := (hsort l).symm.subset hv
  have hp := hsorted l
  rw [hx] at hv1 hp
  rcases List.mem_cons.1 hv1 with hv2 | hv2
  · rw [hv2]
  · exact (List.pairwise_cons.1 hp).1 v hv2

/-- A candidate of maximal score survives `do_sampling` of a `TopPSampler`, of
a `FreeTailSampler` on fewer than three candidates, and of either when `exp` is
positive and strictly increasing. -/
theorem do_sampling_keeps_max (lib : StdLib F G) (hsort : ∀ l, (lib.sort l).Perm l)
    (hsorted : ∀ l, (lib.sort l).Pairwise (fun a b => b.score ≤ a.score))
    (obj : NonGreedyObject F G) (ts : List (TokenIdScore F)) (h : ts ≠ [])
    (hcase : (∃ base top_p, obj = NonGreedyObject.TopP base top_p) ∨ ts.length < 3 ∨
      ((∀ x, 0 < lib.exp x) ∧ StrictMono lib.exp)) :
    ∃ r obj1, NonGreedyObject.do_sampling lib obj ts = some (r, obj1) ∧
      ∃ t ∈ r, ∃ u ∈ ts, u.id = t.id ∧ ∀ v ∈ ts, v.score ≤ u.score := by
  obtain ⟨hmx, hle⟩ := max_score_is_max ts h
  obtain ⟨u, hu, hus⟩ := List.mem_map.1 hmx
  have humax : ∀ v ∈ ts, v.score ≤ u.score := by
    intro v hv
    rw [hus]
    exact hle v hv
  cases obj with
  | TopP base top_p =>
    simp only [NonGreedyObject.do_sampling, TopPSampler.do_sampling]
    by_cases hp : 0 < top_p ∧ top_p < 1
    · obtain ⟨x, xs, hx, hxm, hxmax⟩ := sorted_head_max lib.sort hsort hsorted ts h
      rw [if_pos hp, hx, sampling_softmax_inplace_eq lib.exp _ (List.cons_ne_nil _ _)]
      simp only [List.map_cons]
      obtain ⟨tl, htl⟩ := TopPSampler_truncate_cons top_p 0
        ({ x with score := lib.exp (x.score - NonGreedy.max_score (x :: xs)) *
            (1 / (lib.exp (x.score - NonGreedy.max_score (x :: xs)) +
              (xs.map (fun u => lib.exp (u.score - NonGreedy.max_score (x :: xs)))).sum)) } :
          TokenIdScore F)
        (xs.map (fun t => ({ t with
          score := lib.exp (t.score - NonGreedy.max_score (x :: xs)) *
            (1 / (lib.exp (x.score - NonGreedy.max_score (x :: xs)) +
              (xs.map (fun u => lib.exp (u.score - NonGreedy.max_score (x :: xs)))).sum)) } :
          TokenIdScore F)))
      simp only [List.sum_cons] at htl ⊢
      rw [htl, sampling_softmax_inplace_eq lib.exp _ (List.cons_ne_nil _ _)]
      refine ⟨_, _, rfl, _, List.mem_map_of_mem _ (List.mem_cons_self _ _), x, hxm, rfl, hxmax⟩
    · rw [if_neg hp, sampling_softmax_inplace_eq lib.exp _ h]
      exact ⟨_, _, rfl, _, List.mem_map_of_mem _ hu, u, hu, rfl, humax⟩
  | FreeTail base z snd_d =>
    simp only [NonGreedyObject.do_sampling, FreeTailSampler.do_sampling]
    by_cases h3 : ts.length < 3
    · rw [if_pos h3]
      exact ⟨_, _, rfl, u, hu, u, hu, rfl, humax⟩
    · obtain ⟨hexp, hmono⟩ : (∀ x, 0 < lib.exp x) ∧ StrictMono lib.exp := by
        rcases hcase with ⟨b, p, hb⟩ | hlt | hboth
        · cases hb
        · exact absurd hlt h3
        · exact hboth
      rw [if_neg h3, sampling_softmax_inplace_eq lib.exp _ h]
      simp only []
      have hpos := softmax_sum_pos lib.exp hexp ts h (NonGreedy.max_score ts)
      have hm : ts.map (fun t => ({ t with
          score := lib.exp (t.score - NonGreedy.max_score ts) *
            (1 / (ts.map (fun u => lib.exp (u.score - NonGreedy.max_score ts))).sum) } :
          TokenIdScore F)) ≠ [] := by simpa using h
      obtain ⟨x, xs, hx, hxm, hxmax⟩ := sorted_head_max lib.sort hsort hsorted _ hm
      obtain ⟨u1, hu1, hu1x⟩ := List.mem_map.1 hxm
      have hge := hxmax _ (List.mem_map_of_mem _ hu)
      rw [← hu1x] at hge
      simp only [] at hge
      have hc : 0 < 1 / (ts.map (fun u => lib.exp (u.score - NonGreedy.max_score ts))).sum :=
        div_pos one_pos hpos
      have hge1 := le_of_mul_le_mul_right hge hc
      have hge2 : u.score ≤ u1.score := by
        by_contra hlt
        have := hmono (sub_lt_sub_right (not_le.1 hlt) (NonGreedy.max_score ts))
        exact absurd hge1 (not_le.2 this)
      rw [hx]
      obtain ⟨tl, htl⟩ := FreeTailSampler_truncate_cons z 0
        (((FreeTailSampler.second_differences (x :: xs)).map abs).map
          (fun d => d / List.foldl (fun acc d => acc + d) (1 / 1000000)
            ((FreeTailSampler.second_differences (x :: xs)).map abs))) x xs
      rw [htl]
      refine ⟨_, _, rfl, x, List.mem_cons_self _ _, u1, hu1, ?_, ?_⟩
      · rw [← hu1x]
      · intro v hv
        exact le_trans (humax v hv) hge2

/-- On three or more candidates `FreeTailSampler::do_sampling` keeps a candidate
whose softmax probability is the largest. -/
theorem FreeTailSampler_keeps_max_weight (lib : StdLib F G)
    (hsort : ∀ l, (lib.sort l).Perm l)
    (hsorted : ∀ l, (lib.sort l).Pairwise (fun a b => b.score ≤ a.score))
    (base : NonGreedy F G) (z : F) (snd_d : List F) (ts : List (TokenIdScore F))
    (h3 : 3 ≤ ts.length) :
    ∃ probs r obj1, NonGreedy.sampling_softmax_inplace lib.exp ts = some probs ∧
      NonGreedyObject.do_sampling lib (NonGreedyObject.FreeTail base z snd_d) ts =
        some (r, obj1) ∧
      ∃ t ∈ r, t ∈ probs ∧ ∀ p ∈ probs, p.score ≤ t.score := by
  have h : ts ≠ [] := by
    intro he
    rw [he] at h3
    simp at h3
  have hm : ts.map (fun t => ({ t with
      score := lib.exp (t.score - NonGreedy.max_score ts) *
        (1 / (ts.map (fun u => lib.exp (u.score - NonGreedy.max_score ts))).sum) } :
      TokenIdScore F)) ≠ [] := by simpa using h
  obtain ⟨x, xs, hx, hxm, hxmax⟩ := sorted_head_max lib.sort hsort hsorted _ hm
  have hdo : ∃ r obj1 tl,
      NonGreedyObject.do_sampling lib (NonGreedyObject.FreeTail base z snd_d) ts =
        some (r, obj1) ∧ r = x :: tl := by
    simp only [NonGreedyObject.do_sampling, FreeTailSampler.do_sampling]
    rw [if_neg (by omega), sampling_softmax_inplace_eq lib.exp _ h]
    simp only []
    rw [hx]
    obtain ⟨tl, htl⟩ := FreeTailSampler_truncate_cons z 0
      (((FreeTailSampler.second_differences (x :: xs)).map abs).map
        (fun d => d / List.foldl (fun acc d => acc + d) (1 / 1000000)
          ((FreeTailSampler.second_differences (x :: xs)).map abs))) x xs
    rw [htl]
    exact ⟨_, _, tl, rfl, rfl⟩
  obtain ⟨r, obj1, tl, hr, hrx⟩ := hdo
  refine ⟨_, r, obj1, sampling_softmax_inplace_eq lib.exp _ h, hr, x, ?_, hxm, hxmax⟩
  rw [hrx]
  exact List.mem_cons_self _ _

/-- The rounding `exp` is positive. -/
theorem toy_exp_rounded_pos : ∀ x, 0 < toy.exp_rounded x := by
  intro x
  unfold toy.exp_rounded
  split
  · exact one_pos
  · exact toy_exp_pos x

/-- The rounding `exp` is increasing, though not strictly. -/
theorem toy_exp_rounded_mono : Monotone toy.exp_rounded := by
  intro x y hxy
  have h0 : toy.exp 0 = 1 := by decide!
  unfold toy.exp_rounded
  by_cases hx : -(1 / 33554432) ≤ x ∧ x ≤ 0
  · rw [if_pos hx]
    by_cases hy : -(1 / 33554432) ≤ y ∧ y ≤ 0
    · rw [if_pos hy]
    · rw [if_neg hy, ← h0]
      have hy0 : 0 ≤ y := by
        by_contra hlt
        exact hy ⟨le_trans hx.1 hxy, le_of_lt (not_le.1 hlt)⟩
      exact toy_exp_strictMono.monotone hy0
  · rw [if_neg hx]
    by_cases hy : -(1 / 33554432) ≤ y ∧ y ≤ 0
    · rw [if_pos hy, ← h0]
      exact toy_exp_strictMono.monotone (le_trans hxy hy.2)
    · rw [if_neg hy]
      exact toy_exp_strictMono.monotone hxy

theorem sort_stable_foldl_perm :
    ∀ (l acc : List (TokenIdScore ℚ)),
      (l.foldl (fun acc t => toy.insert_desc t acc) acc).Perm (l ++ acc) := by
  intro l
  induction l with
  | nil => intro acc; exact List.Perm.refl _
  | cons t ts ih =>
    intro acc
    rw [List.foldl_cons]
    refine (ih _).trans ?_
    refine (List.Perm.append_left ts (insert_desc_perm t acc)).trans ?_
    exact List.perm_middle

theorem sort_stable_perm : ∀ l : List (TokenIdScore ℚ), (toy.sort_stable l).Perm l := by
  intro l
  have := sort_stable_foldl_perm l []
  simpa [toy.sort_stable] using this

theorem sort_stable_foldl_sorted :
    ∀ (l acc : List (TokenIdScore ℚ)), acc.Pairwise (fun a b => b.score ≤ a.score) →
      (l.foldl (fun acc t => toy.insert_desc t acc) acc).Pairwise
        (fun a b => b.score ≤ a.score) := by
  intro l
  induction l with
  | nil => intro acc h; exact h
  | cons t ts ih =>
    intro acc h
    rw [List.foldl_cons]
    exact ih _ (insert_desc_sorted t acc h)

theorem sort_stable_sorted :
    ∀ l : List (TokenIdScore ℚ), (toy.sort_stable l).Pairwise (fun a b => b.score ≤ a.score) := by
  intro l
  exact sort_stable_foldl_sorted l [] List.Pairwise.nil

theorem token_scores_from_scores (xs : List F) :
    ∀ i0 : Nat, (NonGreedy.token_scores_from i0 xs).map TokenIdScore.score = xs := by
  induction xs with
  | nil => intro i0; rfl
  | cons y ys ih =>
    intro i0
    simp only [NonGreedy.token_scores_from, List.map_cons]
    rw [ih (i0 + 1)]

/-- The top-k step keeps a candidate whose score is maximal over the whole
vocabulary. -/
theorem candidates_keep_max (lib : StdLib F G) (hnth : ∀ n l, (lib.nth_element n l).Perm l)
    (hpart : ∀ n l, ∀ a ∈ (lib.nth_element n l).take n, ∀ b ∈ (lib.nth_element n l).drop n,
      b.score ≤ a.score)
    (obj : NonGreedyObject F G) (logits : List F) (h : logits ≠ []) :
    ∃ u ∈ NonGreedyObject.candidates lib obj logits,
      ∀ x ∈ NonGreedy.apply_presence_penalty obj.base
        (NonGreedy.scale_temperature obj.base logits), x ≤ u.score := by
  have hlen : (NonGreedy.token_scores_from 0
      (NonGreedy.apply_presence_penalty obj.base
        (NonGreedy.scale_temperature obj.base logits))).length = logits.length := by
    rw [token_scores_from_length, apply_presence_penalty_length, scale_temperature_length]
  have hpos : 0 < logits.length := List.length_pos.2 h
  have hne : NonGreedy.token_scores_from 0
      (NonGreedy.apply_presence_penalty obj.base
        (NonGreedy.scale_temperature obj.base logits)) ≠ [] := by
    intro he
    rw [he] at hlen
    simp only [List.length_nil] at hlen
    omega
  obtain ⟨hmx, hle⟩ := max_score_is_max _ hne
  obtain ⟨u, hu, hus⟩ := List.mem_map.1 hmx
  have hall : ∀ x ∈ NonGreedy.apply_presence_penalty obj.base
      (NonGreedy.scale_temperature obj.base logits), x ≤ u.score := by
    intro x hx
    have hx1 : x ∈ (NonGreedy.token_scores_from 0
        (NonGreedy.apply_presence_penalty obj.base
          (NonGreedy.scale_temperature obj.base logits))).map TokenIdScore.score := by
      rw [token_scores_from_scores]
      exact hx
    obtain ⟨v, hv, hvx⟩ := List.mem_map.1 hx1
    rw [← hvx, hus]
    exact hle v hv
  unfold NonGreedyObject.candidates NonGreedy.top_k_step
  rw [hlen]
  by_cases hk : 0 < obj.base.top_k ∧ obj.base.top_k < (logits.length : Int)
  · rw [if_pos hk]
    have hu1 : u ∈ lib.nth_element obj.base.top_k.toNat
        (NonGreedy.token_scores_from 0 (NonGreedy.apply_presence_penalty obj.base
          (NonGreedy.scale_temperature obj.base logits))) := (hnth _ _).symm.subset hu
    rw [← List.take_append_drop obj.base.top_k.toNat (lib.nth_element _ _),
      List.mem_append] at hu1
    rcases hu1 with hu1 | hu1
    · exact ⟨u, hu1, hall⟩
    · have htk : (lib.nth_element obj.base.top_k.toNat
          (NonGreedy.token_scores_from 0 (NonGreedy.apply_presence_penalty obj.base
            (NonGreedy.scale_temperature obj.base logits)))).take obj.base.top_k.toNat ≠ [] := by
        intro he
        have h0 := congrArg List.length he
        rw [List.length_take, (hnth _ _).length_eq, hlen] at h0
        simp only [List.length_nil] at h0
        omega
      obtain ⟨a, as, ha⟩ := List.exists_cons_of_ne_nil htk
      have ham : a ∈ (lib.nth_element obj.base.top_k.toNat
          (NonGreedy.token_scores_from 0 (NonGreedy.apply_presence_penalty obj.base
            (NonGreedy.scale_temperature obj.base logits)))).take obj.base.top_k.toNat := by
        rw [ha]
        exact List.mem_cons_self _ _
      refine ⟨a, ham, ?_⟩
      intro x hx
      exact le_trans (hall x hx) (hpart _ _ a ham u hu1)
  · rw [if_neg hk]
    exact ⟨u, hu, hall⟩

/-- C37 as stated fails: with an `exp` that rounds as the `float` one does, the
logits `0.001f`, the next `float` above it and `-5` get the probabilities
`p, p, q` from the softmax; the sort leaves id `0` first, the first weight is
above `z = 1/2`, and `FreeTailSampler::do_sampling` keeps id `0` alone, whose
logit is below that of id `1`. -/
theorem max_logit_retained_counterexample :
    1 ≤ toy.close_logits.length ∧
    NonGreedy.apply_presence_penalty toy.tail_free.base
        (NonGreedy.scale_temperature toy.tail_free.base toy.close_logits) =
      toy.close_logits ∧
    NonGreedy.sampling_softmax_inplace toy.rounding_lib.exp
        (NonGreedyObject.candidates toy.rounding_lib toy.tail_free toy.close_logits) =
      some [{ id := 0, score := 3221762343 / 6980395598 },
        { id := 1, score := 3221762343 / 6980395598 },
        { id := 2, score := 268435456 / 3490197799 }] ∧
    NonGreedyObject.do_sampling toy.rounding_lib toy.tail_free
        (NonGreedyObject.candidates toy.rounding_lib toy.tail_free toy.close_logits) =
      some ([{ id := 0, score := 3221762343 / 6980395598 }],
        NonGreedyObject.FreeTail (NonGreedy.create toy.rounding_lib 1 1 0) (1 / 2)
          [1342445715500000 / 1342449205697799]) ∧
    ¬ ∃ t ∈ ([{ id := 0, score := 3221762343 / 6980395598 }] : List (TokenIdScore ℚ)),
      ∃ (j : Nat) (v : ℚ), t.id = (j : Int) ∧ toy.close_logits[j]? = some v ∧
        ∀ x ∈ toy.close_logits, x ≤ v := by
  refine ⟨by decide, by decide!, by decide!, by decide!, ?_⟩
  rintro ⟨t, ht, j, v, hid, hv, hmax⟩
  rw [List.mem_singleton] at ht
  subst ht
  have hj : j = 0 := by
    simp only at hid
    omega
  subst hj
  have hv1 : v = 8589935 / 8589934592 := by
    simp only [toy.close_logits, List.getElem?_cons_zero, Option.some.injEq] at hv
    exact hv.symm
  have h2 := hmax (8589936 / 8589934592) (by simp [toy.close_logits])
  rw [hv1] at h2
  norm_num at h2

/-- C37, amended. For every `vocab_size >= 1`, `do_sampling` is defined on the
candidates after the temperature, presence-penalty and top-k steps, and: the
final candidate list of a `TopPSampler`, and of a `FreeTailSampler` when fewer
than 3 candidates remain after top-k, contains a candidate whose logit, after
temperature scaling and presence penalty, is maximal over the whole vocabulary;
with 3 or more candidates the final list of a `FreeTailSampler` contains a
candidate whose softmax probability is maximal among the candidates, and it
contains a candidate of maximal logit when `exp` is positive and strictly
increasing. `std::nth_element` and `std::sort` are permutations with their
ordering postconditions. -/
theorem max_logit_retained (lib : StdLib F G)
    (hnth : ∀ n l, (lib.nth_element n l).Perm l)
    (hpart : ∀ n l, ∀ a ∈ (lib.nth_element n l).take n, ∀ b ∈ (lib.nth_element n l).drop n,
      b.score ≤ a.score)
    (hsort : ∀ l, (lib.sort l).Perm l)
    (hsorted : ∀ l, (lib.sort l).Pairwise (fun a b => b.score ≤ a.score))
    (obj : NonGreedyObject F G) (logits : List F) (h1 : 1 ≤ logits.length) :
    ∃ ts obj1,
      NonGreedyObject.do_sampling lib obj (NonGreedyObject.candidates lib obj logits) =
        some (ts, obj1) ∧
      (((∃ base top_p, obj = NonGreedyObject.TopP base top_p) ∨
          (NonGreedyObject.candidates lib obj logits).length < 3 ∨
          ((∀ x, 0 < lib.exp x) ∧ StrictMono lib.exp)) →
        ∃ t ∈ ts, ∃ (j : Nat) (v : F), t.id = (j : Int) ∧
          (NonGreedy.apply_presence_penalty obj.base
            (NonGreedy.scale_temperature obj.base logits))[j]? = some v ∧
          ∀ x ∈ NonGreedy.apply_presence_penalty obj.base
            (NonGreedy.scale_temperature obj.base logits), x ≤ v) ∧
      ((∃ base z snd_d, obj = NonGreedyObject.FreeTail base z snd_d) →
        3 ≤ (NonGreedyObject.candidates lib obj logits).length →
        ∃ probs, NonGreedy.sampling_softmax_inplace lib.exp
            (NonGreedyObject.candidates lib obj logits) = some probs ∧
          ∃ t ∈ ts, t ∈ probs ∧ ∀ p ∈ probs, p.score ≤ t.score) := by
  have hne : logits ≠ [] := by
    intro he
    rw [he] at h1
    simp at h1
  have hcne := candidates_ne_nil lib hnth obj logits hne
  obtain ⟨ts, obj1, hdo, -⟩ := do_sampling_ne_nil lib hsort obj _ hcne
  refine ⟨ts, obj1, hdo, ?_, ?_⟩
  · intro hcase
    obtain ⟨u0, hu0, hu0max⟩ := candidates_keep_max lib hnth hpart obj logits hne
    obtain ⟨r, o, hdo1, t, ht, u, hu, hid, humax⟩ :=
      do_sampling_keeps_max lib hsort hsorted obj _ hcne hcase
    rw [hdo] at hdo1
    simp only [Option.some.injEq, Prod.mk.injEq] at hdo1
    rw [← hdo1.1] at ht
    obtain ⟨j, hj, -, hx⟩ := candidates_mem lib hnth obj logits u hu
    refine ⟨t, ht, j, u.score, ?_, hx, ?_⟩
    · rw [← hid, hj]
    · intro x hx1
      exact le_trans (hu0max x hx1) (humax u0 hu0)
  · rintro ⟨base, z, snd_d, hobj⟩ h3
    subst hobj
    obtain ⟨probs, r, o, hp, hdo1, t, ht, htp, hmax⟩ :=
      FreeTailSampler_keeps_max_weight lib hsort hsorted base z snd_d _ h3
    rw [hdo] at hdo1
    simp only [Option.some.injEq, Prod.mk.injEq] at hdo1
    rw [← hdo1.1] at ht
    exact ⟨probs, hp, t, ht, htp, hmax⟩

/-- C37, evaluated on the rounding library at the logits `0.001f`, the next
`float` and `-5`: the candidate kept is one of maximal softmax probability. -/
theorem max_logit_retained_witness :
    1 ≤ toy.close_logits.length ∧
    3 ≤ (NonGreedyObject.candidates toy.rounding_lib toy.tail_free toy.close_logits).length ∧
    ∃ ts obj1,
      NonGreedyObject.do_sampling toy.rounding_lib toy.tail_free
          (NonGreedyObject.candidates toy.rounding_lib toy.tail_free toy.close_logits) =
        some (ts, obj1) ∧
      ∃ probs, NonGreedy.sampling_softmax_inplace toy.rounding_lib.exp
          (NonGreedyObject.candidates toy.rounding_lib toy.tail_free toy.close_logits) =
            some probs ∧
        ∃ t ∈ ts, t ∈ probs ∧ ∀ p ∈ probs, p.score ≤ t.score :=
  ⟨by decide, by decide!,
    (max_logit_retained toy.rounding_lib (fun _ l => sort_desc_perm l)
      (fun n l => sort_desc_partition n l) sort_stable_perm sort_stable_sorted
      toy.tail_free toy.close_logits (by decide)).imp (fun _ h => h.imp (fun _ h1 =>
        ⟨h1.1, h1.2.2 ⟨_, _, _, rfl⟩ (by decide!)⟩))⟩

end kept

/-! ## The completed flag -/

namespace BaseModelForConditionalGeneration

variable {τ ν F : Type} [LinearOrderedRing F]

/-- C35. Under the default `is_output_terminated`, when `generate` returns,
`completed` is true if and only if a token sampled in the call was `ABORT` or a
terminator; when it is false the loop stopped at the cap, `n0 + len(input_ids)`
plus the number of sampled tokens having reached `gen_config.max_length`, and
`aborted` is false. When the prompt is already too long (and the checks before
the loop pass) the call returns `input_ids` with `completed = false` and
`aborted = false` without running an iteration. -/
theorem generate_completed_iff (fam : Family τ ν F)
    (hfam : fam.is_output_terminated = is_output_terminated)
    (m : BaseModelForConditionalGeneration τ F) (input_ids : List Int)
    (gen_config : GenerationConfig F) (continuous streamer : Bool) :
    (∀ (out : List Int) (comp : Bool) (m1 : BaseModelForConditionalGeneration τ F),
      generate fam m input_ids gen_config continuous streamer =
        Outcome.returned (out, comp) m1 →
      ∃ new, m1.trace = m.trace ++ Event.set_ctx (input_ids.length : Int) :: new ∧
        (comp = true ↔ ∃ t ∈ Event.sampled new,
          t = Sampler.ABORT ∨ t = m.terminate_token_id ∨ t = m.eos_token_id) ∧
        (comp = false → m1.aborted = false ∧
          gen_config.max_length ≤ generate_start m continuous + (input_ids.length : Int) +
            ((Event.sampled new).length : Int))) ∧
    (∀ sampler, gen_config.max_length ≤ m.max_length → 0 ≤ gen_config.max_length →
      SamplerFactory.Create fam.samplers gen_config m._seed = Except.ok sampler →
      gen_config.max_length ≤ generate_start m continuous + (input_ids.length : Int) →
      generate fam m input_ids gen_config continuous streamer =
        Outcome.returned (input_ids, false)
          (generate_entry fam m sampler input_ids continuous).model ∧
      (generate_entry fam m sampler input_ids continuous).model.aborted = false ∧
      (generate_entry fam m sampler input_ids continuous).model.trace =
        m.trace ++ [Event.set_ctx (input_ids.length : Int)]) := by
  constructor
  · intro out comp m1 h
    obtain ⟨-, -, sampler, k, s, -, hafter, hexit, -, hcomp, hm1⟩ :=
      generate_returned fam m m1 input_ids out gen_config continuous streamer comp h
    obtain ⟨c, hacc⟩ :=
      accounting_after fam m sampler input_ids gen_config continuous streamer k s hafter
    obtain ⟨E, tail, hem, hk⟩ :=
      emission_after fam hfam m sampler input_ids gen_config continuous streamer k s hafter
    obtain ⟨new, hnew, hsam, -, -⟩ := hem.trace
    refine ⟨new, by rw [hm1, hnew], ?_, ?_⟩
    · rw [hcomp, hsam]
      cases tail with
      | none =>
        have hab : s.model.aborted = false := by
          by_contra hne
          have := hem.aborted.1 (by simpa using hne)
          exact absurd this (by simp)
        have hcp : s.completed = false := by
          by_contra hne
          obtain ⟨u, hu, -⟩ := hem.completed.1 (by simpa using hne)
          exact absurd hu (by simp)
        rw [hab, hcp]
        constructor
        · intro hc
          simp at hc
        · rintro ⟨t, ht, hbad⟩
          exfalso
          simp only [Option.toList, List.append_nil] at ht
          have := hem.emitted t ht
          rcases hbad with hb | hb | hb
          · exact this.1 hb
          · exact this.2.1 hb
          · exact this.2.2 hb
      | some u =>
        constructor
        · intro _
          exact ⟨u, by simp, hem.stop u rfl⟩
        · intro _
          by_cases hu : u = Sampler.ABORT
          · have hab : s.model.aborted = true := hem.aborted.2 (by rw [hu])
            rw [hab]
            cases s.completed <;> rfl
          · have hcp : s.completed = true := hem.completed.2 ⟨u, rfl, hu⟩
            rw [hcp]
            cases s.model.aborted <;> rfl
    · intro hc
      rw [hcomp] at hc
      have hab : s.model.aborted = false := by
        cases hab : s.model.aborted with
        | false => rfl
        | true =>
          rw [hab] at hc
          cases hcp : s.completed <;> simp [hcp] at hc
      have hcp : s.completed = false := by
        rw [hab] at hc
        simpa using hc
      have hge : gen_config.max_length ≤ s.model.n_past + (s.curr_input_ids.length : Int) := by
        by_contra hlt
        have : generate_cond gen_config s = true :=
          (generate_cond_true gen_config s).2 ⟨hab, hcp, by omega⟩
        rw [hexit] at this
        exact absurd this (by simp)
      have hsum := accounting_sum hacc
      have hck : c = k := hacc.running hab
      have htail : tail = none := by
        cases tail with
        | none => rfl
        | some u =>
          exfalso
          by_cases hu : u = Sampler.ABORT
          · have := hem.aborted.2 (by rw [hu])
            rw [hab] at this
            exact absurd this (by simp)
          · have := hem.completed.2 ⟨u, rfl, hu⟩
            rw [hcp] at this
            exact absurd this (by simp)
      rw [htail] at hk hsam
      simp only [Option.toList, List.append_nil, List.length_nil, Nat.add_zero] at hk hsam
      refine ⟨by rw [hm1]; exact hab, ?_⟩
      rw [hsam, hk, ← hck, ← hsum]
      exact hge
  · intro sampler hmax h0 hcr hlong
    have hcond : generate_cond gen_config
        (generate_entry fam m sampler input_ids continuous) = false := by
      cases hc : generate_cond gen_config (generate_entry fam m sampler input_ids continuous) with
      | false => rfl
      | true =>
        exfalso
        have := ((generate_cond_true gen_config _).1 hc).2.2
        have hn : (generate_entry fam m sampler input_ids continuous).model.n_past =
            generate_start m continuous := rfl
        have hcu : (generate_entry fam m sampler input_ids continuous).curr_input_ids =
            input_ids := rfl
        rw [hn, hcu] at this
        omega
    have hgen := generate_of_after fam m input_ids gen_config continuous streamer sampler 0
      (generate_entry fam m sampler input_ids continuous) hmax h0 hcr rfl hcond
    refine ⟨?_, rfl, rfl⟩
    rw [hgen]
    rfl

/-- C35, evaluated: the capped greedy call ends with `completed = false` and
`aborted = false`, the call that samples `eos` with `completed = true`. -/
theorem generate_completed_iff_witness :
    ((toy.family [1, 5, 3, 2, 1] []).is_output_terminated = is_output_terminated ∧
      generate (toy.family [1, 5, 3, 2, 1] []) (toy.model 10 0 (-10)) [1]
          (toy.config 4 false "greedy") false true =
        Outcome.returned ([1, 1, 1, 1], false) toy.capped_final ∧
      generate (toy.family [1, 2, 3, 4, 5] []) (toy.model 10 4 (-10)) [0]
          (toy.config 10 false "greedy") false true =
        Outcome.returned ([0], true) toy.eos_final) ∧
    ∃ new, toy.capped_final.trace =
        (toy.model 10 0 (-10)).trace ++ Event.set_ctx (([1] : List Int).length : Int) :: new ∧
      (false = true ↔ ∃ t ∈ Event.sampled new,
        t = Sampler.ABORT ∨ t = (toy.model 10 0 (-10)).terminate_token_id ∨
          t = (toy.model 10 0 (-10)).eos_token_id) ∧
      (false = false → toy.capped_final.aborted = false ∧
        (toy.config 4 false "greedy").max_length ≤
          generate_start (toy.model 10 0 (-10)) false + (([1] : List Int).length : Int) +
            ((Event.sampled new).length : Int)) :=
  ⟨⟨rfl, by decide, by decide⟩,
    (generate_completed_iff (toy.family [1, 5, 3, 2, 1] []) rfl (toy.model 10 0 (-10)) [1]
      (toy.config 4 false "greedy") false true).1 [1, 1, 1, 1] false toy.capped_final
      (by decide)⟩

end BaseModelForConditionalGeneration

/-! ## The forward passes -/

namespace BaseModelForConditionalGeneration

variable {τ ν F : Type} [LinearOrderedRing F]

theorem forward_each_append (a b : List Int) :
    ∀ pos : Int, forward_each (a ++ b) pos =
      forward_each a pos ++ forward_each b (pos + (a.length : Int)) := by
  induction a with
  | nil => intro pos; simp [forward_each]
  | cons x xs ih =>
    intro pos
    have hpos : pos + 1 + (xs.length : Int) = pos + ((xs.length + 1 : Nat) : Int) := by
      push_cast
      ring
    show forward_each (x :: (xs ++ b)) pos =
      forward_each (x :: xs) pos ++ forward_each b (pos + ((x :: xs).length : Int))
    rw [forward_each, forward_each, ih (pos + 1), List.length_cons, ← hpos]
    rfl

theorem forwards_map_forward (l : List (List Int × Int)) :
    Event.forwards (l.map (fun p => (Event.forward p.1 p.2 : Event F))) = l := by
  induction l with
  | nil => rfl
  | cons p ps ih => simp [Event.forwards, ih]

theorem generate_next_token_each_trace (T : Transformer τ F) (ids : List Int) :
    ∀ (past : Int) (lm : Option (List F)) (m : BaseModelForConditionalGeneration τ F),
      (generate_next_token_each T ids past lm m).2.trace =
        m.trace ++ (forward_each ids past).map (fun p => Event.forward p.1 p.2) := by
  induction ids with
  | nil => intro past lm m; simp [generate_next_token_each, forward_each]
  | cons id ids ih =>
    intro past lm m
    simp only [generate_next_token_each, forward_each, List.map_cons]
    rw [ih, run_model_state]
    simp

/-- The forward passes one call of `generate_next_token` makes. -/
theorem generate_next_token_forwards (T : Transformer τ F)
    (m : BaseModelForConditionalGeneration τ F) (ids : List Int) :
    ∃ fw, (generate_next_token T m ids).2.trace = m.trace ++ fw ∧
      Event.forwards fw =
        if m.batch_input then [(ids, m.n_past + m.n_past_offset)]
        else forward_each ids (m.n_past + m.n_past_offset) := by
  unfold generate_next_token
  by_cases hb : m.batch_input = true
  · rw [if_pos hb, if_pos hb]
    exact ⟨[Event.forward ids (m.n_past + m.n_past_offset)], rfl, rfl⟩
  · rw [if_neg hb, if_neg hb]
    exact ⟨_, generate_next_token_each_trace T ids _ none m, forwards_map_forward _⟩

theorem stream_outputs_forwards (out : List Int) (keep : Int) :
    ∀ (fuel : Nat) (next : Int) (tr : List (Event F)),
      ∃ puts, (stream_outputs out keep fuel next tr).2 = tr ++ puts ∧
        Event.sampled puts = [] ∧ Event.forwards puts = [] := by
  intro fuel
  induction fuel with
  | zero => intro next tr; exact ⟨[], by simp [stream_outputs], rfl, rfl⟩
  | succ fuel ih =>
    intro next tr
    unfold stream_outputs
    split
    · obtain ⟨puts, h1, h2, h3⟩ := ih (next + 1)
        (tr ++ [Event.put [out.getD next.toNat 0]])
      refine ⟨Event.put [out.getD next.toNat 0] :: puts, ?_, ?_, ?_⟩
      · rw [h1]
        simp
      · simpa [Event.sampled] using h2
      · simpa [Event.forwards] using h3
    · exact ⟨[], by simp, rfl, rfl⟩

theorem generate_accept_forwards (fam : Family τ ν F) (streamer : Bool)
    (s : GenerateState τ ν F) (m : BaseModelForConditionalGeneration τ F)
    (sampler : Sampler ν) (t : Int) :
    ∃ puts, (generate_accept fam streamer s m sampler t).model.trace = m.trace ++ puts ∧
      Event.sampled puts = [] ∧ Event.forwards puts = [] := by
  unfold generate_accept
  cases streamer with
  | false => exact ⟨[], by simp, rfl, rfl⟩
  | true =>
    simp only [if_true]
    exact stream_outputs_forwards _ _ _ _ _

theorem expected_forward_passes_snoc (batch_input : Bool) (input_ids : List Int) (start : Int)
    (fed : List Int) (t : Int) :
    expected_forward_passes batch_input input_ids start (fed ++ [t]) =
      expected_forward_passes batch_input input_ids start fed ++
        [([t], start + (input_ids.length : Int) + (fed.length : Int))] := by
  unfold expected_forward_passes
  cases batch_input with
  | true =>
    simp only [if_true]
    rw [forward_each_append]
    rfl
  | false =>
    simp only [Bool.false_eq_true, if_false]
    rw [← List.append_assoc, forward_each_append, List.length_append]
    simp only [forward_each]
    congr 3
    push_cast
    ring

/-- The passes made after `k` iterations, and what the pending input adds. -/
theorem forward_passes_after (fam : Family τ ν F) (m : BaseModelForConditionalGeneration τ F)
    (sampler : Sampler ν) (input_ids : List Int) (gen_config : GenerationConfig F)
    (continuous streamer : Bool) (k : Nat) :
    ∀ s, generate_after fam gen_config streamer k
        (generate_entry fam m sampler input_ids continuous) = some s →
      ∃ new, s.model.trace = m.trace ++ Event.set_ctx (input_ids.length : Int) :: new ∧
        (Event.sampled new).length = k ∧
        (s.model.aborted = false →
          Event.forwards new ++
              (if m.batch_input then [(s.curr_input_ids, s.model.n_past + m.n_past_offset)]
                else forward_each s.curr_input_ids (s.model.n_past + m.n_past_offset)) =
            expected_forward_passes m.batch_input input_ids
              (generate_start m continuous + m.n_past_offset) (Event.sampled new)) ∧
        Event.forwards new =
          if k = 0 then []
          else expected_forward_passes m.batch_input input_ids
            (generate_start m continuous + m.n_past_offset) ((Event.sampled new).take (k - 1)) := by
  induction k with
  | zero =>
    intro s h
    simp only [generate_after, Option.some.injEq] at h
    subst h
    refine ⟨[], rfl, rfl, ?_, rfl⟩
    intro _
    have h1 : (generate_entry fam m sampler input_ids continuous).curr_input_ids = input_ids :=
      rfl
    have h2 : (generate_entry fam m sampler input_ids continuous).model.n_past =
        generate_start m continuous := rfl
    rw [h1, h2]
    unfold expected_forward_passes
    cases m.batch_input <;> simp [Event.forwards, Event.sampled, forward_each]
  | succ k ih =>
    intro s h
    obtain ⟨sp, hsp, hcond, hbody⟩ := (generate_after_succ fam gen_config streamer k _ s).1 h
    obtain ⟨new, hnew, hlen, hrun, -⟩ := ih sp hsp
    obtain ⟨c, hacc⟩ :=
      accounting_after fam m sampler input_ids gen_config continuous streamer k sp hsp
    have hab : sp.model.aborted = false := ((generate_cond_true gen_config sp).1 hcond).1
    have hck : c = k := hacc.running hab
    have hsum := accounting_sum hacc
    have hrun1 := hrun hab
    obtain ⟨lm, tr, fw, t, smp, -, hstate, hfs, -, -, -, hcases⟩ :=
      generate_body_some fam streamer sp s hbody
    obtain ⟨fw1, hfw1, hfwd⟩ :=
      generate_next_token_forwards fam.transformer sp.model sp.curr_input_ids
    have hfweq : fw1 = fw := by
      rw [hstate] at hfw1
      exact (List.append_cancel_left hfw1).symm
    rw [hfweq, hacc.batch_input, hacc.n_past_offset] at hfwd
    have htake : (Event.sampled new ++ [t]).take k = Event.sampled new := by
      rw [← hlen]
      exact List.take_left' rfl
    have hfwds : Event.forwards new ++ Event.forwards fw =
        expected_forward_passes m.batch_input input_ids
          (generate_start m continuous + m.n_past_offset) (Event.sampled new) := by
      rw [hfwd]
      exact hrun1
    rcases hcases with ⟨-, hs⟩ | ⟨-, hs⟩
    · refine ⟨new ++ fw ++ [Event.sampling lm t], ?_, ?_, ?_, ?_⟩
      · rw [hs]
        simp only []
        rw [hnew]
        simp
      · simp [Event.sampled_append, hfs, Event.sampled, hlen]
      · intro hcontra
        rw [hs] at hcontra
        simp at hcontra
      · rw [if_neg (by omega)]
        simp only [Event.sampled_append, Event.forwards_append, hfs, Event.sampled,
          Event.forwards, List.append_nil, Nat.add_sub_cancel]
        rw [htake, hfwds]
    · obtain ⟨puts, hputs, hps, hpf⟩ := generate_accept_forwards fam streamer sp
        { sp.model with
          transformer := tr
          trace := sp.model.trace ++ fw ++ [Event.sampling lm t] } smp t
      obtain ⟨hnp, -, -, -, -, -, -, -, -, hcur, -⟩ := generate_accept_fields fam streamer sp
        { sp.model with
          transformer := tr
          trace := sp.model.trace ++ fw ++ [Event.sampling lm t] } smp t
      rw [← hs] at hputs hnp hcur
      refine ⟨new ++ fw ++ [Event.sampling lm t] ++ puts, ?_, ?_, ?_, ?_⟩
      · rw [hputs]
        simp only []
        rw [hnew]
        simp
      · simp [Event.sampled_append, hfs, hps, Event.sampled, hlen]
      · intro _
        simp only [Event.sampled_append, Event.forwards_append, hfs, hps, hpf, Event.sampled,
          Event.forwards, List.append_nil]
        rw [hfwds, expected_forward_passes_snoc, hcur, hnp, hlen]
        simp only [] at hsum ⊢
        have hpos : sp.model.n_past + (sp.curr_input_ids.length : Int) + m.n_past_offset =
            generate_start m continuous + m.n_past_offset + (input_ids.length : Int) +
              (k : Int) := by
          rw [hsum, hck]
          ring
        rw [hpos]
        cases m.batch_input <;> simp [forward_each]
      · rw [if_neg (by omega)]
        simp only [Event.sampled_append, Event.forwards_append, hfs, hps, hpf, Event.sampled,
          Event.forwards, List.append_nil, Nat.add_sub_cancel]
        rw [htake, hfwds]

/-- C33. Within one `generate` call, after `k >= 1` iterations of the loop the
forward passes made so far are those of `expected_forward_passes` for the first
`k - 1` sampled tokens: in batched mode the first pass receives exactly
`input_ids` at position `n0 + n_past_offset` (`n0 = 0` if not continuous, else
the retained `n_past`) and every later pass exactly one token, the token sampled
in the iteration before, at the position of the pass before plus the length of
its input; in incremental mode the same tokens are fed one at a time, the `i`-th
token of the pending input at position `n_past + n_past_offset + i`. The same
holds for the passes of a call that returns. -/
theorem generate_forward_passes (fam : Family τ ν F)
    (m : BaseModelForConditionalGeneration τ F) (input_ids : List Int)
    (gen_config : GenerationConfig F) (continuous streamer : Bool) :
    (∀ (sampler : Sampler ν) (k : Nat) (s : GenerateState τ ν F),
      generate_after fam gen_config streamer k
        (generate_entry fam m sampler input_ids continuous) = some s →
      ∃ new, s.model.trace = m.trace ++ Event.set_ctx (input_ids.length : Int) :: new ∧
        (Event.sampled new).length = k ∧
        Event.forwards new =
          if k = 0 then []
          else expected_forward_passes m.batch_input input_ids
            (generate_start m continuous + m.n_past_offset)
            ((Event.sampled new).take (k - 1))) ∧
    (∀ (out : List Int) (comp : Bool) (m1 : BaseModelForConditionalGeneration τ F),
      generate fam m input_ids gen_config continuous streamer =
        Outcome.returned (out, comp) m1 →
      ∃ new, m1.trace = m.trace ++ Event.set_ctx (input_ids.length : Int) :: new ∧
        Event.forwards new =
          if (Event.sampled new).length = 0 then []
          else expected_forward_passes m.batch_input input_ids
            (generate_start m continuous + m.n_past_offset)
            ((Event.sampled new).take ((Event.sampled new).length - 1))) ∧
    (∀ (start : Int) (fed : List Int),
      expected_forward_passes true input_ids start fed =
        (input_ids, start) :: forward_each fed (start + (input_ids.length : Int)) ∧
      expected_forward_passes false input_ids start fed =
        forward_each (input_ids ++ fed) start) := by
  refine ⟨?_, ?_, fun start fed => ⟨rfl, rfl⟩⟩
  · intro sampler k s h
    obtain ⟨new, hnew, hlen, -, hf⟩ :=
      forward_passes_after fam m sampler input_ids gen_config continuous streamer k s h
    exact ⟨new, hnew, hlen, hf⟩
  · intro out comp m1 h
    obtain ⟨-, -, sampler, k, s, -, hafter, -, -, -, hm1⟩ :=
      generate_returned fam m m1 input_ids out gen_config continuous streamer comp h
    obtain ⟨new, hnew, hlen, -, hf⟩ :=
      forward_passes_after fam m sampler input_ids gen_config continuous streamer k s hafter
    refine ⟨new, by rw [hm1, hnew], ?_⟩
    rw [hlen]
    exact hf

/-- C33, evaluated: the capped greedy call on prompt `[1]` makes three passes,
`[1]` at `0` and the two tokens fed back at `1` and `2`. -/
theorem generate_forward_passes_witness :
    generate (toy.family [1, 5, 3, 2, 1] []) (toy.model 10 0 (-10)) [1]
        (toy.config 4 false "greedy") false true =
      Outcome.returned ([1, 1, 1, 1], false) toy.capped_final ∧
    Event.forwards toy.capped_final.trace = [([1], 0), ([1], 1), ([1], 2)] ∧
    expected_forward_passes true [1] 0 [1, 1] = [([1], 0), ([1], 1), ([1], 2)] ∧
    ∃ new, toy.capped_final.trace =
        (toy.model 10 0 (-10)).trace ++ Event.set_ctx (([1] : List Int).length : Int) :: new ∧
      Event.forwards new =
        if (Event.sampled new).length = 0 then []
        else expected_forward_passes (toy.model 10 0 (-10)).batch_input [1]
          (generate_start (toy.model 10 0 (-10)) false + (toy.model 10 0 (-10)).n_past_offset)
          ((Event.sampled new).take ((Event.sampled new).length - 1)) :=
  ⟨by decide, by decide, by decide,
    (generate_forward_passes (toy.family [1, 5, 3, 2, 1] []) (toy.model 10 0 (-10)) [1]
      (toy.config 4 false "greedy") false true).2.1 [1, 1, 1, 1] false toy.capped_final
      (by decide)⟩

end BaseModelForConditionalGeneration

/-! ## Independence of the state earlier calls leave -/

namespace BaseModelForConditionalGeneration

variable {τ ν F : Type} [LinearOrderedRing F]

theorem run_model_trace_before (T : Transformer τ F) (tr : List (Event F))
    (m : BaseModelForConditionalGeneration τ F) (ids : List Int) (past : Int) :
    run_model T (m.with_trace_before tr) ids past =
      ((run_model T m ids past).1, (run_model T m ids past).2.with_trace_before tr) := by
  simp [run_model, with_trace_before, List.append_assoc]

theorem generate_next_token_each_trace_before (T : Transformer τ F) (tr : List (Event F))
    (ids : List Int) :
    ∀ (past : Int) (lm : Option (List F)) (m : BaseModelForConditionalGeneration τ F),
      generate_next_token_each T ids past lm (m.with_trace_before tr) =
        ((generate_next_token_each T ids past lm m).1,
          (generate_next_token_each T ids past lm m).2.with_trace_before tr) := by
  induction ids with
  | nil => intro past lm m; rfl
  | cons id ids ih =>
    intro past lm m
    simp only [generate_next_token_each]
    rw [run_model_trace_before]
    exact ih (past + 1) _ _

theorem generate_next_token_trace_before (T : Transformer τ F) (tr : List (Event F))
    (m : BaseModelForConditionalGeneration τ F) (ids : List Int) :
    generate_next_token T (m.with_trace_before tr) ids =
      ((generate_next_token T m ids).1,
        (generate_next_token T m ids).2.with_trace_before tr) := by
  unfold generate_next_token
  have hn : (m.with_trace_before tr).n_past = m.n_past := rfl
  have ho : (m.with_trace_before tr).n_past_offset = m.n_past_offset := rfl
  by_cases hb : m.batch_input = true
  · have hb1 : (m.with_trace_before tr).batch_input = true := hb
    rw [if_pos hb, if_pos hb1, hn, ho, run_model_trace_before]
  · have hb1 : ¬ (m.with_trace_before tr).batch_input = true := hb
    rw [if_neg hb, if_neg hb1, hn, ho]
    exact generate_next_token_each_trace_before T tr ids _ none m

theorem stream_outputs_trace_before (out : List Int) (keep : Int) (tr : List (Event F)) :
    ∀ (fuel : Nat) (next : Int) (t : List (Event F)),
      stream_outputs out keep fuel next (tr ++ t) =
        ((stream_outputs out keep fuel next t).1, tr ++ (stream_outputs out keep fuel next t).2) := by
  intro fuel
  induction fuel with
  | zero => intro next t; rfl
  | succ fuel ih =>
    intro next t
    unfold stream_outputs
    split
    · rw [List.append_assoc]
      exact ih _ _
    · rfl

theorem generate_accept_trace_before (fam : Family τ ν F)
    (htrace : ∀ (m : BaseModelForConditionalGeneration τ F) (tr : List (Event F))
      (out : List Int) (keep_idx pop_output : Int),
      fam.is_output_terminated (m.with_trace_before tr) out keep_idx pop_output =
        fam.is_output_terminated m out keep_idx pop_output)
    (streamer : Bool) (s : GenerateState τ ν F) (m : BaseModelForConditionalGeneration τ F)
    (sampler : Sampler ν) (t : Int) (tr : List (Event F)) :
    generate_accept fam streamer (s.with_trace_before tr) (m.with_trace_before tr) sampler t =
      (generate_accept fam streamer s m sampler t).with_trace_before tr := by
  have h := htrace { m with n_past := m.n_past + (s.curr_input_ids.length : Int) } tr
    (s.output_ids ++ [t]) 0 0
  unfold generate_accept
  simp only [GenerateState.with_trace_before, with_trace_before] at h ⊢
  rw [h]
  cases streamer with
  | false => rfl
  | true =>
    simp only [if_true]
    rw [stream_outputs_trace_before]

theorem generate_body_trace_before (fam : Family τ ν F)
    (htrace : ∀ (m : BaseModelForConditionalGeneration τ F) (tr : List (Event F))
      (out : List Int) (keep_idx pop_output : Int),
      fam.is_output_terminated (m.with_trace_before tr) out keep_idx pop_output =
        fam.is_output_terminated m out keep_idx pop_output)
    (streamer : Bool) (s : GenerateState τ ν F) (tr : List (Event F)) :
    generate_body fam streamer (s.with_trace_before tr) =
      (generate_body fam streamer s).map (fun r => r.with_trace_before tr) := by
  have hg := generate_next_token_trace_before fam.transformer tr s.model s.curr_input_ids
  unfold generate_body
  have h1 : (s.with_trace_before tr).model = s.model.with_trace_before tr := rfl
  have h2 : (s.with_trace_before tr).curr_input_ids = s.curr_input_ids := rfl
  have h3 : (s.with_trace_before tr).sampler = s.sampler := rfl
  rw [h1, h2, h3, hg]
  simp only []
  cases hlm : (generate_next_token fam.transformer s.model s.curr_input_ids).1 with
  | none => rfl
  | some lm =>
    simp only [Option.map]
    by_cases ht : (Sampler.sampling fam.samplers s.sampler lm).1 = Sampler.ABORT
    · rw [if_pos ht, if_pos ht]
      simp [GenerateState.with_trace_before, with_trace_before, List.append_assoc]
    · rw [if_neg ht, if_neg ht]
      congr 1
      have := generate_accept_trace_before fam htrace streamer s
        { (generate_next_token fam.transformer s.model s.curr_input_ids).2 with
          trace := (generate_next_token fam.transformer s.model s.curr_input_ids).2.trace ++
            [Event.sampling lm (Sampler.sampling fam.samplers s.sampler lm).1] }
        (Sampler.sampling fam.samplers s.sampler lm).2
        (Sampler.sampling fam.samplers s.sampler lm).1 tr
      rw [← this]
      simp [with_trace_before, List.append_assoc]

theorem generate_loop_trace_before (fam : Family τ ν F)
    (htrace : ∀ (m : BaseModelForConditionalGeneration τ F) (tr : List (Event F))
      (out : List Int) (keep_idx pop_output : Int),
      fam.is_output_terminated (m.with_trace_before tr) out keep_idx pop_output =
        fam.is_output_terminated m out keep_idx pop_output)
    (gen_config : GenerationConfig F) (streamer : Bool) (tr : List (Event F)) (fuel : Nat) :
    ∀ s : GenerateState τ ν F,
      generate_loop fam gen_config streamer fuel (s.with_trace_before tr) =
        (generate_loop fam gen_config streamer fuel s).map
          (fun r => r.with_trace_before tr) := by
  induction fuel with
  | zero => intro s; rfl
  | succ fuel ih =>
    intro s
    have hc : generate_cond gen_config (s.with_trace_before tr) = generate_cond gen_config s :=
      rfl
    rw [generate_loop, generate_loop, hc, generate_body_trace_before fam htrace streamer s tr]
    by_cases hcs : generate_cond gen_config s = true
    · rw [if_pos hcs, if_pos hcs]
      cases generate_body fam streamer s with
      | none => rfl
      | some s1 => exact ih s1
    · rw [if_neg hcs, if_neg hcs]
      rfl

/-- A non-continuous call on any engine runs the loop of the same call on the
engine with `n_past`, `aborted` and the trace cleared. -/
theorem generate_cleared (fam : Family τ ν F)
    (htrace : ∀ (m : BaseModelForConditionalGeneration τ F) (tr : List (Event F))
      (out : List Int) (keep_idx pop_output : Int),
      fam.is_output_terminated (m.with_trace_before tr) out keep_idx pop_output =
        fam.is_output_terminated m out keep_idx pop_output)
    (m : BaseModelForConditionalGeneration τ F) (input_ids : List Int)
    (gen_config : GenerationConfig F) (streamer : Bool) :
    generate fam m input_ids gen_config false streamer =
      if gen_config.max_length ≤ m.max_length then
        match SamplerFactory.Create fam.samplers gen_config m._seed with
        | Except.error msg => Outcome.raised msg m
        | Except.ok sampler =>
          if gen_config.max_length < 0 then
            Outcome.raised "vector::reserve" { m with aborted := false }
          else
            match generate_loop fam gen_config streamer
              (generate_fuel gen_config (generate_entry fam m.cleared sampler input_ids false))
              (generate_entry fam m.cleared sampler input_ids false) with
            | none => Outcome.undefined
            | some s =>
              Outcome.returned
                (s.output_ids, if s.model.aborted && !s.completed then true else s.completed)
                (s.model.with_trace_before m.trace)
      else
        Outcome.raised
          ("requested max_length (" ++ toString gen_config.max_length ++
            ") is larger than model's max_length (" ++ toString m.max_length ++ ")") m := by
  unfold generate
  by_cases hle : gen_config.max_length ≤ m.max_length
  · rw [if_pos hle, if_pos hle]
    cases SamplerFactory.Create fam.samplers gen_config m._seed with
    | error msg => rfl
    | ok sampler =>
      simp only []
      by_cases hneg : gen_config.max_length < 0
      · rw [if_pos hneg, if_pos hneg]
      · rw [if_neg hneg, if_neg hneg]
        have hentry : generate_entry fam m sampler input_ids false =
            (generate_entry fam m.cleared sampler input_ids false).with_trace_before m.trace :=
          rfl
        have hfuel : generate_fuel gen_config
            ((generate_entry fam m.cleared sampler input_ids false).with_trace_before m.trace) =
            generate_fuel gen_config (generate_entry fam m.cleared sampler input_ids false) :=
          rfl
        rw [hentry, hfuel, generate_loop_trace_before fam htrace gen_config streamer m.trace]
        cases generate_loop fam gen_config streamer
            (generate_fuel gen_config (generate_entry fam m.cleared sampler input_ids false))
            (generate_entry fam m.cleared sampler input_ids false) with
        | none => rfl
        | some s => rfl
  · rw [if_neg hle, if_neg hle]

/-- C31. For a fixed transformer, `input_ids`, `gen_config` and seed, a
non-continuous `generate` call behaves alike on two engines that differ only in
what earlier calls left (`n_past`, the `aborted` flag and the calls recorded so
far; the emitted set and the random engine belong to the samplers of those
calls, which are gone): it returns the same `output_ids` and `completed`, makes
the same calls `new` across the boundary, so it streams the same tokens, and
leaves the same `n_past` and the same state otherwise; it raises or is undefined
on one exactly as on the other. The family's `is_output_terminated` is assumed
not to read the recorded calls. -/
theorem generate_reproducible (fam : Family τ ν F)
    (htrace : ∀ (m : BaseModelForConditionalGeneration τ F) (tr : List (Event F))
      (out : List Int) (keep_idx pop_output : Int),
      fam.is_output_terminated (m.with_trace_before tr) out keep_idx pop_output =
        fam.is_output_terminated m out keep_idx pop_output)
    (m1 m2 : BaseModelForConditionalGeneration τ F) (hagree : m2.cleared = m1.cleared)
    (input_ids : List Int) (gen_config : GenerationConfig F) (streamer : Bool) :
    (∀ v r1, generate fam m1 input_ids gen_config false streamer = Outcome.returned v r1 →
      ∃ new, r1.trace = m1.trace ++ new ∧
        generate fam m2 input_ids gen_config false streamer =
          Outcome.returned v { r1 with trace := m2.trace ++ new }) ∧
    (∀ msg r1, generate fam m1 input_ids gen_config false streamer = Outcome.raised msg r1 →
      ∃ r2, generate fam m2 input_ids gen_config false streamer = Outcome.raised msg r2) ∧
    (generate fam m1 input_ids gen_config false streamer = Outcome.undefined →
      generate fam m2 input_ids gen_config false streamer = Outcome.undefined) := by
  have hmax : m2.max_length = m1.max_length := congrArg (fun m => m.max_length) hagree
  have hseed : m2._seed = m1._seed := congrArg (fun m => m._seed) hagree
  rw [generate_cleared fam htrace m1, generate_cleared fam htrace m2, hagree, hmax, hseed]
  by_cases hle : gen_config.max_length ≤ m1.max_length
  · rw [if_pos hle, if_pos hle]
    cases SamplerFactory.Create fam.samplers gen_config m1._seed with
    | error msg =>
      refine ⟨?_, ?_, ?_⟩
      · intro v r1 h
        cases h
      · intro msg1 r1 h
        injection h with h1 h2
        exact ⟨_, by rw [h1]⟩
      · intro h
        cases h
    | ok sampler =>
      simp only []
      by_cases hneg : gen_config.max_length < 0
      · rw [if_pos hneg, if_pos hneg]
        refine ⟨?_, ?_, ?_⟩
        · intro v r1 h
          cases h
        · intro msg1 r1 h
          injection h with h1 h2
          exact ⟨_, by rw [h1]⟩
        · intro h
          cases h
      · rw [if_neg hneg, if_neg hneg]
        cases generate_loop fam gen_config streamer
            (generate_fuel gen_config (generate_entry fam m1.cleared sampler input_ids false))
            (generate_entry fam m1.cleared sampler input_ids false) with
        | none =>
          refine ⟨?_, ?_, fun _ => rfl⟩
          · intro v r1 h
            cases h
          · intro msg1 r1 h
            cases h
        | some s =>
          refine ⟨?_, ?_, ?_⟩
          · intro v r1 h
            injection h with h1 h2
            refine ⟨s.model.trace, by rw [← h2]; rfl, ?_⟩
            rw [← h1, ← h2]
            rfl
          · intro msg1 r1 h
            cases h
          · intro h
            cases h
  · rw [if_neg hle, if_neg hle]
    refine ⟨?_, ?_, ?_⟩
    · intro v r1 h
      cases h
    · intro msg1 r1 h
      injection h with h1 h2
      exact ⟨_, by rw [h1]⟩
    · intro h
      cases h

/-- C31, evaluated: the greedy call on prompt `[1]` repeated on the engine the
first call left (`n_past = 3`, ten recorded calls) returns the same ids. -/
theorem generate_reproducible_witness :
    (toy.capped_final.cleared = (toy.model 10 0 (-10)).cleared ∧
      generate (toy.family [1, 5, 3, 2, 1] []) (toy.model 10 0 (-10)) [1]
          (toy.config 4 false "greedy") false true =
        Outcome.returned ([1, 1, 1, 1], false) toy.capped_final) ∧
    ∃ new, toy.capped_final.trace = (toy.model 10 0 (-10)).trace ++ new ∧
      generate (toy.family [1, 5, 3, 2, 1] []) toy.capped_final [1]
          (toy.config 4 false "greedy") false true =
        Outcome.returned ([1, 1, 1, 1], false)
          { toy.capped_final with trace := toy.capped_final.trace ++ new } :=
  ⟨⟨by decide, by decide⟩,
    (generate_reproducible (toy.family [1, 5, 3, 2, 1] []) (fun _ _ _ _ _ => rfl)
      (toy.model 10 0 (-10)) toy.capped_final (by decide) [1]
      (toy.config 4 false "greedy") true).1 ([1, 1, 1, 1], false) toy.capped_final
      (by decide)⟩

end BaseModelForConditionalGeneration

end chatllm
